import Mathlib

/-!
# Verification of the jaseci repository sources

Two components are modelled here.

Part 1 embeds the `jsc-graph` Stencil component
(`jaseci_ui_kit/components/src/components/jsc-graph/jsc-graph.tsx`):
its `formatNodes` / `formatEdges` response converters and the
node/edge dataset update performed by `getGraphState` in its
"expand" branch.

Part 2 models the compiler definition-use resolution pass
(`jaclang/compiler/passes/main/def_use_pass`).  Only the stub
declarations of that pass ship with the repository, so the pass itself
is modelled from the specification: scope/symbol store, the two-phase
resolution algorithm, hoisted architype-member binding, sequential
local binding, and the diagnostic discipline.
-/

/-! ## Part 1: jsc-graph component -/

/-- An element of the JSON array returned by the jaseci graph endpoints.
The TypeScript code treats elements as `any`; an element carries the
fields read by `formatNodes` (`j_type`, `jid`, `name`, `context`) and
by `formatEdges` (`j_type`, `from_node_id`, `to_node_id`, `name`,
`context`).  The `context` payload is passed through unchanged and is
modelled opaquely as a string. -/
structure JItem where
  j_type : String
  jid : String
  name : String
  context : String
  from_node_id : String
  to_node_id : String
deriving DecidableEq

/-- A vis-network node record as built by `formatNodes`
(`jsc-graph.tsx` lines 169-180). -/
structure VisNode where
  id : String
  label : String
  group : String
  context : String
  shape : String
deriving DecidableEq

/-- A vis-network edge record as built by `formatEdges`
(`jsc-graph.tsx` lines 206-217).  The TypeScript field `from` is a
Lean keyword and is rendered `from_`. -/
structure VisEdge where
  from_ : String
  to_ : String
  label : String
  context : String
  group : String
deriving DecidableEq

/-- The record literal `formatNodes` builds for one node-typed item. -/
def toVisNode (node : JItem) : VisNode :=
  { id := node.jid, label := node.name, group := node.name,
    context := node.context, shape := "circle" }

/-- The record literal `formatEdges` builds for one edge-typed item. -/
def toVisEdge (edge : JItem) : VisEdge :=
  { from_ := edge.from_node_id, to_ := edge.to_node_id, label := edge.name,
    context := edge.context, group := edge.name }

/-- `JscGraph.formatNodes`: `data?.filter(item => item.j_type === 'node').map(...)`.
An undefined `data` (modelled `none`) propagates to an undefined result. -/
def formatNodes (data : Option (List JItem)) : Option (List VisNode) :=
  data.map fun l => (l.filter fun item => item.j_type == "node").map toVisNode

/-- `JscGraph.formatEdges`: `data?.filter(item => item.j_type === 'edge').map(...)`. -/
def formatEdges (data : Option (List JItem)) : Option (List VisEdge) :=
  data.map fun l => (l.filter fun item => item.j_type == "edge").map toVisEdge

/-- The claimed behaviour of `formatNodes`, written independently as a
recursion following the claim's words: keep exactly the `j_type = "node"`
elements, in input order, mapping each to the record with `id` the
element's `jid`, `label` and `group` its `name`, `context` its `context`,
and `shape` equal to `"circle"`. -/
def formatNodesClaim : List JItem → List VisNode
  | [] => []
  | i :: rest =>
    if i.j_type = "node" then
      { id := i.jid, label := i.name, group := i.name,
        context := i.context, shape := "circle" } :: formatNodesClaim rest
    else
      formatNodesClaim rest

/-- The node dataset update in `getGraphState`'s expand branch: for each
fetched node, `if (!this.nodes.get(node.id)) { this.nodes.add(node); }` —
a node is added only when no stored node already has its `id`. -/
def expandNodes (ds : List VisNode) (fetched : List VisNode) : List VisNode :=
  fetched.foldl
    (fun acc node =>
      if (acc.find? fun x => x.id == node.id).isSome then acc else acc ++ [node])
    ds

/-- The edge dataset update in `getGraphState`'s expand branch: for each
fetched edge,
`if (!this.edges.get({ filter: item => item.to_ === edge.to_ }).length) { this.edges.add(edge); }`
— an edge is added only when no stored edge has the same `to` endpoint. -/
def expandEdges (ds : List VisEdge) (fetched : List VisEdge) : List VisEdge :=
  fetched.foldl
    (fun acc edge =>
      if (acc.filter fun item => item.to_ == edge.to_).length = 0 then acc ++ [edge]
      else acc)
    ds

/-- The two state props `getGraphState` consults (`onFocus` prop values
`'expand'` and `'isolate'`). -/
inductive FocusMode where
  | expand
  | isolate
deriving DecidableEq

/-- The node/edge datasets held by the component. -/
structure GraphSets where
  nodes : List VisNode
  edges : List VisEdge
deriving DecidableEq

/-- The dataset update performed by `JscGraph.getGraphState` once the
response body `data` has arrived: when `nd` is truthy, `onFocus` is
`'expand'` and `prevNd` is non-empty, fetched nodes and edges are merged
into the existing datasets with the dedup checks above; otherwise both
datasets are rebuilt from the formatted response.  (When the datasets do
not exist yet the expand branch first creates them empty; that is the
`[]` default here.) -/
def getGraphStateUpdate (nd prevNd : String) (onFocus : FocusMode)
    (cur : GraphSets) (data : Option (List JItem)) : GraphSets :=
  if nd ≠ "" ∧ onFocus = .expand ∧ prevNd ≠ "" then
    { nodes := expandNodes cur.nodes ((formatNodes data).getD []),
      edges := expandEdges cur.edges ((formatEdges data).getD []) }
  else
    { nodes := (formatNodes data).getD [],
      edges := (formatEdges data).getD [] }

/-- Number of stored edges ending at target `t`. -/
def countTo (t : String) (es : List VisEdge) : Nat :=
  (es.filter fun item => item.to_ == t).length

/-- Number of stored nodes carrying id `i`. -/
def countId (i : String) (ns : List VisNode) : Nat :=
  (ns.filter fun x => x.id == i).length

def c10item1 : JItem :=
  ⟨"edge", "e1", "likes", "c1", "n1", "n3"⟩

def c10item2 : JItem :=
  ⟨"edge", "e2", "owns", "c2", "n2", "n3"⟩

/-! ## Part 2: the definition-use resolution pass

The implementation of `jaclang.compiler.passes.main.def_use_pass` is not
part of the repository snapshot — only its stub declarations
(`def_use_pass.pyi`) are.  Everything below is therefore modelled from
the specification (sections 3, 4.2, 4.4 and 7): the scope/symbol store
with `open_scope` / `bind` / `lookup` / `seal`, and the two-phase
definition-use resolution pass built on it. -/

/-- Names are plain strings. -/
abbrev JName := String

/-- Modelled from the spec: scope kinds (section 3, "kind (module /
architype / ability / comprehension / loop)").  Enum scopes are not
given a kind of their own by the spec; they reuse `architype`. -/
inductive ScopeKind where
  | module
  | architype
  | ability
  | comprehension
  | loop
deriving DecidableEq

/-- Modelled from the spec: symbol kind tags (section 3, "a kind tag
(local-var, parameter, has-var, architype, enum, ability)"). -/
inductive SymKind where
  | localVar
  | parameter
  | hasVar
  | architypeSym
  | enumSym
  | abilitySym
deriving DecidableEq

/-- Modelled from the spec: a JSymbol carries its name, a reference to
its declaring AST node (here the node's numeric id), its kind tag and
the owning scope (section 3). -/
structure JSymbol where
  name : JName
  declId : Nat
  kind : SymKind
  owner : Nat
deriving DecidableEq

/-- Modelled from the spec: a Scope is a node in a tree rooted at the
module scope, holding a kind, a name-to-symbol mapping and a reference
to its parent scope; it can be sealed read-only (section 3).  The
mapping is a list with the newest binding first, so a redeclaration
shadows the old binding while the original symbol object is retained
behind it. -/
structure Scope where
  kind : ScopeKind
  parent : Option Nat
  bindings : List (JName × JSymbol)
  isSealed : Bool
deriving DecidableEq

/-- Modelled from the spec: the scope store owned by one pass instance.
Scopes are addressed by their index of creation. -/
structure Store where
  scopes : List Scope
deriving DecidableEq

def Store.scope? (st : Store) (sid : Nat) : Option Scope :=
  st.scopes[sid]?

/-- Modelled from the spec: `open_scope(kind, parent) -> Scope` creates
and returns a new (empty, unsealed) scope; it never fails (section 4.2). -/
def Store.openScope (st : Store) (k : ScopeKind) (parent : Option Nat) :
    Store × Nat :=
  (⟨st.scopes ++ [⟨k, parent, [], false⟩]⟩, st.scopes.length)

def Store.setScope (st : Store) (sid : Nat) (sc : Scope) : Store :=
  ⟨st.scopes.set sid sc⟩

/-- Modelled from the spec: diagnostic kinds of section 7. -/
inductive DiagKind where
  | UnresolvedName
  | DuplicateDefinition
  | InvalidContext
  | TypeMismatch
  | CyclicReference
deriving DecidableEq

/-- Modelled from the spec: a diagnostic records its kind, the offending
name and the source node it is attached to (section 6 lists kind,
message and span; the node id stands in for the span). -/
structure Diagnostic where
  kind : DiagKind
  name : JName
  site : Nat
deriving DecidableEq

/-- First binding for `n` in a scope's binding list (newest first). -/
def lookupLocal (bs : List (JName × JSymbol)) (n : JName) : Option JSymbol :=
  match bs with
  | [] => none
  | (m, s) :: rest => if m = n then some s else lookupLocal rest n

/-- Modelled from the spec: `bind(scope, name, decl_node, kind) -> JSymbol`
inserts or replaces a binding; a prior binding of the same name in the
same scope yields a non-fatal `DuplicateDefinition` diagnostic and is
shadowed (section 4.2).  Binding into a sealed scope is the single fatal
condition (section 7) and is an error. -/
def Store.bind (st : Store) (sid : Nat) (n : JName) (declId : Nat)
    (k : SymKind) : Except String (Store × JSymbol × Option Diagnostic) :=
  match st.scope? sid with
  | none => .error "bind: no such scope"
  | some sc =>
    if sc.isSealed then .error "bind: sealed scope"
    else
      let sym : JSymbol := ⟨n, declId, k, sid⟩
      let dup := (lookupLocal sc.bindings n).isSome
      let sc2 : Scope := { sc with bindings := (n, sym) :: sc.bindings }
      .ok (st.setScope sid sc2, sym,
        if dup then some ⟨.DuplicateDefinition, n, declId⟩ else none)

/-- Modelled from the spec: `seal(scope)` marks the scope read-only
(section 4.2). -/
def Store.seal (st : Store) (sid : Nat) : Store :=
  match st.scope? sid with
  | none => st
  | some sc => st.setScope sid { sc with isSealed := true }

/-- Fueled ancestor walk used by `lookup`; the fuel only guards against
a malformed parent graph, and `sid + 1` steps always suffice when parent
indices decrease (which the pass maintains by construction). -/
def lookupChain (st : Store) : Nat → JName → Nat → Option JSymbol
  | _, _, 0 => none
  | sid, n, fuel + 1 =>
    match st.scope? sid with
    | none => none
    | some sc =>
      match lookupLocal sc.bindings n with
      | some s => some s
      | none =>
        match sc.parent with
        | none => none
        | some p => lookupChain st p n fuel

/-- Modelled from the spec: `lookup(scope, name) -> Option<JSymbol>`
walks from `scope` up through parents until found or root exhausted
(section 4.2). -/
def Store.lookup (st : Store) (sid : Nat) (n : JName) : Option JSymbol :=
  lookupChain st sid n (sid + 1)

/-- The ancestor chain of a scope: the scope itself followed by its
parents up to the root (with the same fuel bound as `lookup`). -/
def chainOf (st : Store) : Nat → Nat → List Nat
  | _, 0 => []
  | sid, fuel + 1 =>
    match st.scope? sid with
    | none => []
    | some sc =>
      sid :: (match sc.parent with
              | none => []
              | some p => chainOf st p fuel)

/-- Parent indices strictly decrease: the well-formedness the pass
maintains for every store it builds. -/
def ParentLt (st : Store) : Prop :=
  ∀ sid sc p, st.scope? sid = some sc → sc.parent = some p → p < sid

/-- The local binding visible for `n` in scope `i`, if any. -/
def localAt (st : Store) (i : Nat) (n : JName) : Option JSymbol :=
  (st.scope? i).bind fun sc => lookupLocal sc.bindings n

/-- Executable check of `ParentLt`, for concrete stores. -/
def parentLtB (st : Store) : Bool :=
  (List.range st.scopes.length).all fun i =>
    match st.scope? i with
    | none => true
    | some sc =>
      match sc.parent with
      | none => true
      | some p => decide (p < i)

def c4sym0 : JSymbol := ⟨"x", 1, .architypeSym, 0⟩

def c4sym1 : JSymbol := ⟨"x", 7, .localVar, 1⟩

def c4store : Store :=
  ⟨[⟨.module, none, [("x", c4sym0)], false⟩,
    ⟨.ability, some 0, [("x", c4sym1)], false⟩]⟩

def c5store : Store :=
  ⟨[⟨.module, none, [("dup", ⟨"dup", 3, .architypeSym, 0⟩)], false⟩]⟩

def c5scope : Scope :=
  ⟨.module, none, [("dup", ⟨"dup", 3, .architypeSym, 0⟩)], false⟩

/-- The store operations available to the pass: every mutation of the
scope store made anywhere in the pass goes through `bind`, `seal` or
`open_scope` (lookups do not mutate). -/
inductive StoreOp where
  | opBind (sid : Nat) (n : JName) (declId : Nat) (k : SymKind)
  | opSeal (sid : Nat)
  | opOpen (k : ScopeKind) (parent : Option Nat)

def applyOp (st : Store) : StoreOp → Except String Store
  | .opBind sid n d k =>
    match st.bind sid n d k with
    | .error e => .error e
    | .ok (st2, _, _) => .ok st2
  | .opSeal sid => .ok (st.seal sid)
  | .opOpen k p => .ok (st.openScope k p).1

def applyOps : Store → List StoreOp → Except String Store
  | st, [] => .ok st
  | st, op :: ops =>
    match applyOp st op with
    | .error e => .error e
    | .ok st2 => applyOps st2 ops

def c6store : Store :=
  ⟨[⟨.module, none, [], false⟩,
    ⟨.ability, some 0, [("y", ⟨"y", 4, .localVar, 1⟩)], true⟩]⟩

/-! ### The AST fragment and the two-phase pass

Modelled from the spec (sections 3 and 4.4).  The node kinds carried
here are the ones the verified claims exercise: architype and enum
declarations with has-var and ability members, assignments with a
bare-name target, name uses, architype references and filter
comprehensions.  Every node that declares or uses a name carries a
numeric node id standing for its source span. -/

/-- Modelled from the spec: architype kinds (node/edge/walker/object). -/
inductive ArchKind where
  | node
  | edge
  | walker
  | object
deriving DecidableEq

/-- Modelled from the spec: the expression forms the claims exercise.
`nameUse` is the principal use site (`enter_name`), `archRef` an
architype reference resolved against the module scope
(`enter_arch_ref`), `filterCompr` a comprehension opening its own scope
binding the loop variable (`enter_filter_compr`). -/
inductive JExpr where
  | nameUse (id : Nat) (n : JName)
  | archRef (id : Nat) (n : JName)
  | filterCompr (declId : Nat) (v : JName) (pred : JExpr)
deriving DecidableEq

/-- Modelled from the spec: statements of an ability body.  `assign` has
a bare-name left-hand target (`enter_assignment`); its node id is the
declaration site when the binding is fresh and the use site when it is a
mutation of an already-bound name. -/
inductive JStmt where
  | assign (id : Nat) (lhs : JName) (rhs : JExpr)
  | exprStmt (e : JExpr)
deriving DecidableEq

/-- Modelled from the spec: immediate members of an architype body —
has-var declarations and abilities with statement bodies. -/
inductive ArchItem where
  | hasVar (declId : Nat) (n : JName)
  | ability (declId : Nat) (n : JName) (body : List JStmt)
deriving DecidableEq

/-- Modelled from the spec: an architype declaration. -/
structure JArchitype where
  declId : Nat
  name : JName
  archKind : ArchKind
  body : List ArchItem
deriving DecidableEq

/-- Modelled from the spec: top-level module declarations — architypes
and enums (an enum carries its enumerator declarations). -/
inductive JDecl where
  | arch (a : JArchitype)
  | enumDecl (declId : Nat) (n : JName) (enumerators : List (Nat × JName))
deriving DecidableEq

/-- A module is its list of top-level declarations, in textual order. -/
abbrev JModule := List JDecl

/-- Modelled from the spec: a per-use-site resolution result (section 3):
resolved to a symbol, pending member resolution, or unresolved. -/
inductive ResKind where
  | resolvedTo (s : JSymbol)
  | pendingMember
  | unresolvedRef
deriving DecidableEq

/-- The pass state: the scope store, the accumulating diagnostics list
and per-use-site results (both append-only), and a flag recording the
one fatal condition (a bind into a sealed scope), on which a real run
aborts; the theorems show the flag never gets set by `runPass`. -/
structure PassSt where
  store : Store
  diags : List Diagnostic
  results : List (Nat × ResKind)
  fatal : Bool
deriving DecidableEq

/-- The pass's binding step: `bind` into scope `sid`, recording the
non-fatal duplicate diagnostic if one arises; the impossible fatal case
sets the flag. -/
def doBind (s : PassSt) (sid : Nat) (n : JName) (d : Nat) (k : SymKind) :
    PassSt :=
  match s.store.bind sid n d k with
  | .error _ => { s with fatal := true }
  | .ok (st2, _, dg) => { s with store := st2, diags := s.diags ++ dg.toList }

def recordRes (s : PassSt) (id : Nat) (r : ResKind) : PassSt :=
  { s with results := s.results ++ [(id, r)] }

def emitDiag (s : PassSt) (k : DiagKind) (n : JName) (site : Nat) : PassSt :=
  { s with diags := s.diags ++ [⟨k, n, site⟩] }

/-- Modelled from the spec: phase 1, the pre-scan (section 4.4) — bind
each top-level Architype and Enum name into the module scope `msid`
before any body is entered. -/
def phase1 (msid : Nat) : PassSt → JModule → PassSt
  | s, [] => s
  | s, .arch a :: rest =>
    phase1 msid (doBind s msid a.name a.declId .architypeSym) rest
  | s, .enumDecl d n _ :: rest =>
    phase1 msid (doBind s msid n d .enumSym) rest

/-- Modelled from the spec: expression resolution in phase 2.
`enter_name` resolves through `lookup` against the current scope `sid`;
`enter_arch_ref` resolves against the module scope `msid`; both record
`Unresolved` plus an `UnresolvedName` diagnostic on failure.
`enter_filter_compr` opens a comprehension scope, binds the loop
variable there, resolves the predicate against it and seals the scope on
exit. -/
def resolveExpr (msid : Nat) : Nat → PassSt → JExpr → PassSt
  | sid, s, .nameUse id n =>
    match s.store.lookup sid n with
    | some sym => recordRes s id (.resolvedTo sym)
    | none => emitDiag (recordRes s id .unresolvedRef) .UnresolvedName n id
  | _, s, .archRef id n =>
    match s.store.lookup msid n with
    | some sym => recordRes s id (.resolvedTo sym)
    | none => emitDiag (recordRes s id .unresolvedRef) .UnresolvedName n id
  | sid, s, .filterCompr d v pred =>
    let op := s.store.openScope .comprehension (some sid)
    let s1 := doBind { s with store := op.1 } op.2 v d .localVar
    let s2 := resolveExpr msid op.2 s1 pred
    { s2 with store := s2.store.seal op.2 }

/-- Modelled from the spec: `enter_assignment` (section 4.4) — the
right-hand side is resolved first, then a bare-name target not yet bound
in the current scope is bound as a local variable (sequential binding),
while an already-bound target is treated as a use of that binding and
the assignment marked a mutation, not a fresh definition. -/
def resolveStmt (msid sid : Nat) (s : PassSt) : JStmt → PassSt
  | .assign d lhs rhs =>
    let s1 := resolveExpr msid sid s rhs
    match localAt s1.store sid lhs with
    | none => doBind s1 sid lhs d .localVar
    | some sym => recordRes s1 d (.resolvedTo sym)
  | .exprStmt e => resolveExpr msid sid s e

def resolveStmts (msid sid : Nat) : PassSt → List JStmt → PassSt
  | s, [] => s
  | s, stt :: rest => resolveStmts msid sid (resolveStmt msid sid s stt) rest

/-- Modelled from the spec: the hoisted part of `enter_architype` —
bind every `HasVar` and ability name of the immediate body into the
architype scope `asid` before any ability body is resolved. -/
def hoistItems (asid : Nat) : PassSt → List ArchItem → PassSt
  | s, [] => s
  | s, .hasVar d n :: rest => hoistItems asid (doBind s asid n d .hasVar) rest
  | s, .ability d n _ :: rest =>
    hoistItems asid (doBind s asid n d .abilitySym) rest

/-- Modelled from the spec: body resolution of an architype's members.
Has-vars were already bound by the hoisting step (symbols are created
exactly once per declaration site, section 3); each ability opens an
ability scope under `asid`, resolves its statements in order and seals
the scope on exit. -/
def resolveItems (msid asid : Nat) : PassSt → List ArchItem → PassSt
  | s, [] => s
  | s, .hasVar _ _ :: rest => resolveItems msid asid s rest
  | s, .ability _ _ body :: rest =>
    let op := s.store.openScope .ability (some asid)
    let s1 := resolveStmts msid op.2 { s with store := op.1 } body
    resolveItems msid asid { s1 with store := s1.store.seal op.2 } rest

/-- Modelled from the spec: phase-2 processing of one top-level
declaration.  An architype opens its scope under the module scope,
hoists its member bindings, resolves its ability bodies and seals the
scope; an enum opens a scope, binds each enumerator and seals it. -/
def resolveDecl (msid : Nat) (s : PassSt) : JDecl → PassSt
  | .arch a =>
    let op := s.store.openScope .architype (some msid)
    let s1 := hoistItems op.2 { s with store := op.1 } a.body
    let s2 := resolveItems msid op.2 s1 a.body
    { s2 with store := s2.store.seal op.2 }
  | .enumDecl _ _ enumerators =>
    let op := s.store.openScope .architype (some msid)
    let s1 := enumerators.foldl
      (fun acc en => doBind acc op.2 en.2 en.1 .enumSym)
      { s with store := op.1 }
    { s1 with store := s1.store.seal op.2 }

def resolveDecls (msid : Nat) : PassSt → JModule → PassSt
  | s, [] => s
  | s, d :: rest => resolveDecls msid (resolveDecl msid s d) rest

/-- Modelled from the spec: `after_pass` finalization — the module scope
is sealed once the whole tree has been visited.  (Deferred architype
reference chains, which the modelled fragment does not contain, would be
retried here.) -/
def afterPass (msid : Nat) (s : PassSt) : PassSt :=
  { s with store := s.store.seal msid }

/-- Modelled from the spec: one full run of the definition-use pass over
a module, inside an ambient store `base` (a fresh pass instance has an
empty one): open the module scope, run the phase-1 pre-scan, run phase 2
over every declaration, finalize. -/
def runPassFrom (base : Store) (m : JModule) : PassSt :=
  let op := base.openScope .module none
  let s1 := phase1 op.2 ⟨op.1, [], [], false⟩ m
  afterPass op.2 (resolveDecls op.2 s1 m)

/-- A fresh pass run: empty ambient store, module scope id 0. -/
def runPass (m : JModule) : PassSt :=
  runPassFrom ⟨[]⟩ m

/-! ### Syntactic measures of the AST fragment -/

/-- Every node id occurring in an expression. -/
def exprIds : JExpr → List Nat
  | .nameUse i _ => [i]
  | .archRef i _ => [i]
  | .filterCompr d _ p => d :: exprIds p

def stmtIds : JStmt → List Nat
  | .assign d _ rhs => d :: exprIds rhs
  | .exprStmt e => exprIds e

def stmtsIds (body : List JStmt) : List Nat :=
  (body.map stmtIds).flatten

def itemIds : ArchItem → List Nat
  | .hasVar d _ => [d]
  | .ability d _ body => d :: stmtsIds body

def itemsIds (items : List ArchItem) : List Nat :=
  (items.map itemIds).flatten

def declIds : JDecl → List Nat
  | .arch a => a.declId :: itemsIds a.body
  | .enumDecl d _ enumerators => d :: enumerators.map Prod.fst

def modIds (m : JModule) : List Nat :=
  (m.map declIds).flatten

def declName : JDecl → JName
  | .arch a => a.name
  | .enumDecl _ n _ => n

def declTopId : JDecl → Nat
  | .arch a => a.declId
  | .enumDecl d _ _ => d

def declTopKind : JDecl → SymKind
  | .arch _ => .architypeSym
  | .enumDecl _ _ _ => .enumSym

/-- The module-level `ArchRef` occurrence predicate: expression `e`
contains an architype reference node with id `id` to name `a`. -/
def archRefIn (id : Nat) (a : JName) : JExpr → Prop
  | .nameUse _ _ => False
  | .archRef i n => i = id ∧ n = a
  | .filterCompr _ _ p => archRefIn id a p

def archRefInStmt (id : Nat) (a : JName) : JStmt → Prop
  | .assign _ _ rhs => archRefIn id a rhs
  | .exprStmt e => archRefIn id a e

def archRefInItem (id : Nat) (a : JName) : ArchItem → Prop
  | .hasVar _ _ => False
  | .ability _ _ body => ∃ stt ∈ body, archRefInStmt id a stt

def archRefInDecl (id : Nat) (a : JName) : JDecl → Prop
  | .arch ar => ∃ it ∈ ar.body, archRefInItem id a it
  | .enumDecl _ _ _ => False

def archRefInModule (id : Nat) (a : JName) (m : JModule) : Prop :=
  ∃ dcl ∈ m, archRefInDecl id a dcl

/-- A scope that exists and is not sealed. -/
def UnsealedAt (st : Store) (i : Nat) : Prop :=
  ∃ sc, st.scope? i = some sc ∧ sc.isSealed = false

/-! ### Frame and monotonicity properties of the pass processors -/

/-- What every processing step of the pass guarantees: the store only
grows, every pre-existing scope satisfying `keep` is untouched,
diagnostics are appended with sites among `outIds`, and results are
appended. -/
def StepOK (s s' : PassSt) (outIds : List Nat) (keep : Nat → Prop) : Prop :=
  s.store.scopes.length ≤ s'.store.scopes.length ∧
  (∀ j, j < s.store.scopes.length → keep j →
    s'.store.scope? j = s.store.scope? j) ∧
  (∃ l, s'.diags = s.diags ++ l ∧ ∀ dg ∈ l, dg.site ∈ outIds) ∧
  (∃ l, s'.results = s.results ++ l)

def itemTopId : ArchItem → Nat
  | .hasVar d _ => d
  | .ability d _ _ => d

def itemName : ArchItem → JName
  | .hasVar _ n => n
  | .ability _ n _ => n

def itemSymKind : ArchItem → SymKind
  | .hasVar _ _ => .hasVar
  | .ability _ _ _ => .abilitySym

def c1module : JModule :=
  [.arch ⟨1, "B", .node, [.ability 2 "f" [.exprStmt (.archRef 3 "A")]]⟩,
   .arch ⟨4, "A", .node, []⟩]

/-- Whether a statement is an assignment to the given name. -/
def stmtAssigns : JStmt → JName → Prop
  | .assign _ lhs _, x => lhs = x
  | .exprStmt _, _ => False

/-- The facts about the current (ability) scope the sequential-use
argument tracks: it exists, hangs under `asid`, does not locally bind
`x`, and is not sealed. -/
def AbsFact (st : Store) (sid : Nat) (par : Option Nat) (x : JName) : Prop :=
  ∃ sc, st.scope? sid = some sc ∧ sc.parent = par ∧
    lookupLocal sc.bindings x = none ∧ sc.isSealed = false

def c2module : JModule :=
  [.arch ⟨1, "W", .walker,
    [.ability 2 "f" [.exprStmt (.nameUse 3 "x")], .hasVar 4 "x"]⟩]

def c3module : JModule :=
  [.arch ⟨1, "W", .walker,
    [.ability 2 "f"
      [.exprStmt (.nameUse 3 "y"), .assign 5 "y" (.nameUse 6 "x"),
       .exprStmt (.nameUse 7 "y")],
     .hasVar 8 "x"]⟩]

/-! ### Diagnostics collection and the never-stop property (claim C7) -/

/-- Names an expression's traversal may bind (comprehension loop
variables). -/
def exprBindNames : JExpr → List JName
  | .nameUse _ _ => []
  | .archRef _ _ => []
  | .filterCompr _ v p => v :: exprBindNames p

def stmtBindNames : JStmt → List JName
  | .assign _ lhs rhs => lhs :: exprBindNames rhs
  | .exprStmt e => exprBindNames e

def stmtsBindNames (body : List JStmt) : List JName :=
  (body.map stmtBindNames).flatten

def itemBindNames : ArchItem → List JName
  | .hasVar _ nm => [nm]
  | .ability _ f body => f :: stmtsBindNames body

def itemsBindNames (items : List ArchItem) : List JName :=
  (items.map itemBindNames).flatten

def declBindNames : JDecl → List JName
  | .arch a => a.name :: itemsBindNames a.body
  | .enumDecl _ nm es => nm :: es.map Prod.snd

def modBindNames (m : JModule) : List JName :=
  (m.map declBindNames).flatten

/-- `n` is bound nowhere in the store. -/
def NoBind (st : Store) (n : JName) : Prop :=
  ∀ i sc, st.scope? i = some sc → lookupLocal sc.bindings n = none

/-- A plain name-use node with id `id` of name `n` occurs in the
expression (possibly nested inside comprehension predicates). -/
def useIn (id : Nat) (n : JName) : JExpr → Prop
  | .nameUse i m => i = id ∧ m = n
  | .archRef _ _ => False
  | .filterCompr _ _ p => useIn id n p

/-- The use occurs inside a `FilterCompr` predicate. -/
def filterComprUseIn (id : Nat) (n : JName) : JExpr → Prop
  | .nameUse _ _ => False
  | .archRef _ _ => False
  | .filterCompr _ _ p => useIn id n p

def fcUseInStmt (id : Nat) (n : JName) : JStmt → Prop
  | .assign _ _ rhs => filterComprUseIn id n rhs
  | .exprStmt e => filterComprUseIn id n e

def fcUseInItem (id : Nat) (n : JName) : ArchItem → Prop
  | .hasVar _ _ => False
  | .ability _ _ body => ∃ stt ∈ body, fcUseInStmt id n stt

def fcUseInDecl (id : Nat) (n : JName) : JDecl → Prop
  | .arch ar => ∃ it ∈ ar.body, fcUseInItem id n it
  | .enumDecl _ _ _ => False

def fcUseInModule (id : Nat) (n : JName) (m : JModule) : Prop :=
  ∃ dcl ∈ m, fcUseInDecl id n dcl

/-- The diagnostics attached to one site. -/
def diagsAt (id : Nat) (l : List Diagnostic) : List Diagnostic :=
  l.filter (fun dg => dg.site == id)

def c7module : JModule :=
  [.arch ⟨1, "W", .walker, [.ability 2 "f"
    [.exprStmt (.filterCompr 10 "i" (.nameUse 11 "ghost"))]]⟩]

/-! ### Run-to-run determinism (claim C8) -/

/-- Renumber a symbol's owner scope by the ambient-store offset. -/
def shiftSym (k : Nat) (sym : JSymbol) : JSymbol :=
  { sym with owner := k + sym.owner }

/-- Renumber one scope's parent link and binding owners by the
ambient-store offset. -/
def shiftScope (k : Nat) (sc : Scope) : Scope :=
  { sc with parent := sc.parent.map (fun p => k + p),
            bindings := sc.bindings.map (fun b => (b.1, shiftSym k b.2)) }

/-- A pass store embedded after the scopes of an ambient store: the
store a re-run of the pass builds when a previous run left `base`
behind. -/
def embed (base : Store) (st : Store) : Store :=
  ⟨base.scopes ++ st.scopes.map (shiftScope base.scopes.length)⟩

def shiftRes (k : Nat) : ResKind → ResKind
  | .resolvedTo sym => .resolvedTo (shiftSym k sym)
  | .pendingMember => .pendingMember
  | .unresolvedRef => .unresolvedRef

/-- A resolution with the store-internal owner index normalized away:
what of a `ResolutionResult` is visible to a client of the pass (the
use site, the outcome, and the resolved symbol's name, declaration and
kind). -/
def stripRes : ResKind → ResKind
  | .resolvedTo sym => .resolvedTo { sym with owner := 0 }
  | .pendingMember => .pendingMember
  | .unresolvedRef => .unresolvedRef

/-- The client-visible view of a result list. -/
def resView (l : List (Nat × ResKind)) : List (Nat × ResKind) :=
  l.map (fun p => (p.1, stripRes p.2))

/-- Simulation relation between the state of a re-run inside ambient
store `base` and the state of a fresh run. -/
def SimRel (base : Store) (s2 s1 : PassSt) : Prop :=
  s2.store = embed base s1.store ∧ s2.diags = s1.diags ∧
  s2.results = s1.results.map
    (fun p => (p.1, shiftRes base.scopes.length p.2)) ∧
  s2.fatal = s1.fatal

theorem countTo_nil (t : String) : countTo t [] = 0 := rfl

theorem countTo_cons (t : String) (e : VisEdge) (es : List VisEdge) :
    countTo t (e :: es) = (if e.to_ = t then 1 else 0) + countTo t es := by
  by_cases h : e.to_ = t
  · simp [countTo, List.filter_cons, h, Nat.add_comm]
  · simp [countTo, List.filter_cons, h]

theorem countTo_append (t : String) (es fs : List VisEdge) :
    countTo t (es ++ fs) = countTo t es + countTo t fs := by
  simp [countTo, List.filter_append]

theorem countId_nil (i : String) : countId i [] = 0 := rfl

theorem countId_cons (i : String) (n : VisNode) (ns : List VisNode) :
    countId i (n :: ns) = (if n.id = i then 1 else 0) + countId i ns := by
  by_cases h : n.id = i
  · simp [countId, List.filter_cons, h, Nat.add_comm]
  · simp [countId, List.filter_cons, h]

theorem countId_append (i : String) (ns ms : List VisNode) :
    countId i (ns ++ ms) = countId i ns + countId i ms := by
  simp [countId, List.filter_append]

theorem expandEdges_nil (ds : List VisEdge) : expandEdges ds [] = ds := rfl

theorem expandEdges_cons (ds : List VisEdge) (e : VisEdge) (fe : List VisEdge) :
    expandEdges ds (e :: fe) =
      expandEdges (if countTo e.to_ ds = 0 then ds ++ [e] else ds) fe := rfl

theorem expandNodes_nil (ds : List VisNode) : expandNodes ds [] = ds := rfl

theorem countId_eq_zero_iff (i : String) (ds : List VisNode) :
    countId i ds = 0 ↔ (ds.find? fun x => x.id == i) = none := by
  rw [countId, List.length_eq_zero, List.filter_eq_nil_iff, List.find?_eq_none]

theorem expandNodes_cons (ds : List VisNode) (n : VisNode) (fn : List VisNode) :
    expandNodes ds (n :: fn) =
      expandNodes (if countId n.id ds = 0 then ds ++ [n] else ds) fn := by
  have h1 : expandNodes ds (n :: fn) =
      expandNodes
        (if (ds.find? fun x => x.id == n.id).isSome = true then ds else ds ++ [n]) fn := rfl
  rw [h1]
  congr 1
  by_cases h : countId n.id ds = 0
  · rw [if_pos h, if_neg]
    simp [(countId_eq_zero_iff _ _).mp h]
  · rw [if_neg h]
    rcases hf : ds.find? fun x => x.id == n.id with _ | v
    · exact absurd ((countId_eq_zero_iff _ _).mpr hf) h
    · simp [hf]

theorem countTo_expandEdges (t : String) (fe ds : List VisEdge) :
    countTo t (expandEdges ds fe) =
      if countTo t ds = 0 then min (countTo t fe) 1 else countTo t ds := by
  induction fe generalizing ds with
  | nil =>
    rw [expandEdges_nil, countTo_nil]
    by_cases h : countTo t ds = 0 <;> simp [h]
  | cons e fe ih =>
    rw [expandEdges_cons]
    by_cases hc : countTo e.to_ ds = 0
    · rw [if_pos hc, ih]
      by_cases ht : e.to_ = t
      · subst ht
        have h1 : countTo e.to_ (ds ++ [e]) = 1 := by
          rw [countTo_append, hc, countTo_cons, countTo_nil, if_pos rfl]
        rw [h1, if_neg one_ne_zero, countTo_cons, if_pos rfl, if_pos hc]
        omega
      · have h2 : countTo t (ds ++ [e]) = countTo t ds := by
          rw [countTo_append, countTo_cons, countTo_nil, if_neg ht]
          omega
        rw [h2, countTo_cons, if_neg ht]
        simp
    · rw [if_neg hc, ih]
      by_cases ht : e.to_ = t
      · subst ht
        rw [if_neg hc, if_neg hc]
      · rw [countTo_cons, if_neg ht]
        simp

theorem countId_expandNodes (i : String) (fn ds : List VisNode) :
    countId i (expandNodes ds fn) =
      if countId i ds = 0 then min (countId i fn) 1 else countId i ds := by
  induction fn generalizing ds with
  | nil =>
    rw [expandNodes_nil, countId_nil]
    by_cases h : countId i ds = 0 <;> simp [h]
  | cons n fn ih =>
    rw [expandNodes_cons]
    by_cases hc : countId n.id ds = 0
    · rw [if_pos hc, ih]
      by_cases hi : n.id = i
      · subst hi
        have h1 : countId n.id (ds ++ [n]) = 1 := by
          rw [countId_append, hc, countId_cons, countId_nil, if_pos rfl]
        rw [h1, if_neg one_ne_zero, countId_cons, if_pos rfl, if_pos hc]
        omega
      · have h2 : countId i (ds ++ [n]) = countId i ds := by
          rw [countId_append, countId_cons, countId_nil, if_neg hi]
          omega
        rw [h2, countId_cons, if_neg hi]
        simp
    · rw [if_neg hc, ih]
      by_cases hi : n.id = i
      · subst hi
        rw [if_neg hc, if_neg hc]
      · rw [countId_cons, if_neg hi]
        simp

theorem formatNodes_filter_aux (l : List JItem) :
    (l.filter fun item => item.j_type == "node").map toVisNode = formatNodesClaim l := by
  induction l with
  | nil => rfl
  | cons i rest ih =>
    by_cases h : i.j_type = "node"
    · simp [List.filter_cons, h, formatNodesClaim, toVisNode, ih]
    · simp [List.filter_cons, h, formatNodesClaim, ih]

/-- C9: `JscGraph.formatNodes` returns exactly the elements whose `j_type`
field equals `"node"`, in input order, each mapped to a record with `id`
the element's `jid`, `label` and `group` both its `name`, `context` its
`context`, and `shape` set to `"circle"`; elements of any other `j_type`
(including `"edge"`) are excluded, and an undefined input yields no node
list. -/
theorem claim_C9_formatNodes :
    formatNodes none = none ∧
    ∀ l : List JItem, formatNodes (some l) = some (formatNodesClaim l) := by
  refine ⟨rfl, fun l => ?_⟩
  simp [formatNodes, formatNodes_filter_aux]

/-- C10: in `JscGraph.getGraphState`'s expand branch (`nd` non-empty,
`onFocus = 'expand'`, `prevNd` non-empty) a fetched edge is added to the
edge dataset only when no stored edge already has the same `to` node id
(ignoring `from` and `label`), while a fetched node is deduplicated by
its full `id`; hence after expansion the number of stored edges into any
target is `min fetched 1` when the store had none, and unchanged when it
already had one, so at most one stored edge ends at a given target even
when the server reported several distinct edges into it — whereas two
fetched nodes with distinct ids are both kept. -/
theorem claim_C10_expand_dedup (nd prevNd : String) (cur : GraphSets)
    (data : Option (List JItem)) (hnd : nd ≠ "") (hprev : prevNd ≠ "") :
    (getGraphStateUpdate nd prevNd .expand cur data).edges
        = expandEdges cur.edges ((formatEdges data).getD []) ∧
    (getGraphStateUpdate nd prevNd .expand cur data).nodes
        = expandNodes cur.nodes ((formatNodes data).getD []) ∧
    (∀ t : String, countTo t ((getGraphStateUpdate nd prevNd .expand cur data).edges)
        = if countTo t cur.edges = 0
          then min (countTo t ((formatEdges data).getD [])) 1
          else countTo t cur.edges) ∧
    (∀ i : String, countId i ((getGraphStateUpdate nd prevNd .expand cur data).nodes)
        = if countId i cur.nodes = 0
          then min (countId i ((formatNodes data).getD [])) 1
          else countId i cur.nodes) ∧
    (∀ e1 e2 : VisEdge, e1.to_ = e2.to_ → expandEdges [] [e1, e2] = [e1]) ∧
    (∀ n1 n2 : VisNode, n1.id ≠ n2.id → expandNodes [] [n1, n2] = [n1, n2]) := by
  have hb : getGraphStateUpdate nd prevNd .expand cur data =
      { nodes := expandNodes cur.nodes ((formatNodes data).getD []),
        edges := expandEdges cur.edges ((formatEdges data).getD []) } := by
    simp [getGraphStateUpdate, hnd, hprev]
  refine ⟨by rw [hb], by rw [hb], fun t => ?_, fun i => ?_, fun e1 e2 h => ?_, fun n1 n2 h => ?_⟩
  · rw [hb]
    exact countTo_expandEdges t _ _
  · rw [hb]
    exact countId_expandNodes i _ _
  · simp [expandEdges, h]
  · simp [expandNodes, h]

/-- Concrete instantiation of C10: two distinct fetched edges into the
same target `n3` collapse to one stored edge. -/
theorem claim_C10_expand_dedup_witness :
    ("u1" : String) ≠ "" ∧ ("u0" : String) ≠ "" ∧
    ((getGraphStateUpdate "u1" "u0" .expand ⟨[], []⟩ (some [c10item1, c10item2])).edges
        = expandEdges [] ((formatEdges (some [c10item1, c10item2])).getD []) ∧
    (getGraphStateUpdate "u1" "u0" .expand ⟨[], []⟩ (some [c10item1, c10item2])).nodes
        = expandNodes [] ((formatNodes (some [c10item1, c10item2])).getD []) ∧
    (∀ t : String,
      countTo t ((getGraphStateUpdate "u1" "u0" .expand ⟨[], []⟩ (some [c10item1, c10item2])).edges)
        = if countTo t ([] : List VisEdge) = 0
          then min (countTo t ((formatEdges (some [c10item1, c10item2])).getD [])) 1
          else countTo t ([] : List VisEdge)) ∧
    (∀ i : String,
      countId i ((getGraphStateUpdate "u1" "u0" .expand ⟨[], []⟩ (some [c10item1, c10item2])).nodes)
        = if countId i ([] : List VisNode) = 0
          then min (countId i ((formatNodes (some [c10item1, c10item2])).getD [])) 1
          else countId i ([] : List VisNode)) ∧
    (∀ e1 e2 : VisEdge, e1.to_ = e2.to_ → expandEdges [] [e1, e2] = [e1]) ∧
    (∀ n1 n2 : VisNode, n1.id ≠ n2.id → expandNodes [] [n1, n2] = [n1, n2])) :=
  ⟨by decide, by decide,
    claim_C10_expand_dedup "u1" "u0" ⟨[], []⟩ (some [c10item1, c10item2])
      (by decide) (by decide)⟩

theorem Store.scope?_lt {st : Store} {sid : Nat} {sc : Scope}
    (h : st.scope? sid = some sc) : sid < st.scopes.length :=
  (List.getElem?_eq_some.mp h).1

theorem Store.scope?_setScope_self {st : Store} {sid : Nat} (sc : Scope)
    (h : sid < st.scopes.length) :
    (st.setScope sid sc).scope? sid = some sc := by
  simp only [Store.setScope, Store.scope?]
  rw [List.getElem?_set_self']
  simp [List.getElem?_eq_getElem h]

theorem Store.scope?_setScope_other {st : Store} {sid j : Nat} (sc : Scope)
    (h : j ≠ sid) : (st.setScope sid sc).scope? j = st.scope? j := by
  simp only [Store.setScope, Store.scope?]
  rw [List.getElem?_set_ne (by omega : sid ≠ j)]

theorem Store.length_setScope (st : Store) (sid : Nat) (sc : Scope) :
    (st.setScope sid sc).scopes.length = st.scopes.length := by
  simp [Store.setScope]

theorem Store.openScope_fst_scope?_ne (st : Store) (k : ScopeKind)
    (p : Option Nat) {j : Nat} (h : j ≠ st.scopes.length) :
    (st.openScope k p).1.scope? j = st.scope? j := by
  rcases Nat.lt_or_ge j st.scopes.length with hlt | hge
  · simp only [Store.openScope, Store.scope?]
    rw [List.getElem?_append_left hlt]
  · have h2 : st.scope? j = none := List.getElem?_eq_none hge
    rw [h2]
    simp only [Store.openScope, Store.scope?]
    apply List.getElem?_eq_none
    simp only [List.length_append, List.length_cons, List.length_nil]
    omega

theorem Store.openScope_fst_scope?_new (st : Store) (k : ScopeKind)
    (p : Option Nat) :
    (st.openScope k p).1.scope? st.scopes.length = some ⟨k, p, [], false⟩ := by
  simp only [Store.openScope, Store.scope?]
  rw [List.getElem?_append_right (Nat.le_refl _)]
  simp

theorem Store.openScope_fst_length (st : Store) (k : ScopeKind) (p : Option Nat) :
    (st.openScope k p).1.scopes.length = st.scopes.length + 1 := by
  simp [Store.openScope]

theorem Store.openScope_snd (st : Store) (k : ScopeKind) (p : Option Nat) :
    (st.openScope k p).2 = st.scopes.length := rfl

theorem Store.bind_eq_ok {st : Store} {sid : Nat} {sc : Scope}
    (hsc : st.scope? sid = some sc) (hseal : sc.isSealed = false)
    (n : JName) (d : Nat) (k : SymKind) :
    st.bind sid n d k =
      .ok (st.setScope sid { sc with bindings := (n, ⟨n, d, k, sid⟩) :: sc.bindings },
           ⟨n, d, k, sid⟩,
           if (lookupLocal sc.bindings n).isSome then
             some ⟨.DuplicateDefinition, n, d⟩
           else none) := by
  simp [Store.bind, hsc, hseal]

theorem Store.bind_sealed {st : Store} {sid : Nat} {sc : Scope}
    (hsc : st.scope? sid = some sc) (hseal : sc.isSealed = true)
    (n : JName) (d : Nat) (k : SymKind) :
    st.bind sid n d k = .error "bind: sealed scope" := by
  simp [Store.bind, hsc, hseal]

theorem Store.bind_ok_inv {st st2 : Store} {sid : Nat} {n : JName} {d : Nat}
    {k : SymKind} {sym : JSymbol} {dg : Option Diagnostic}
    (h : st.bind sid n d k = .ok (st2, sym, dg)) :
    ∃ sc, st.scope? sid = some sc ∧ sc.isSealed = false ∧
      st2 = st.setScope sid
        { sc with bindings := (n, ⟨n, d, k, sid⟩) :: sc.bindings } ∧
      sym = ⟨n, d, k, sid⟩ ∧
      dg = (if (lookupLocal sc.bindings n).isSome then
              some ⟨.DuplicateDefinition, n, d⟩
            else none) := by
  rcases hsc : st.scope? sid with _ | sc
  · simp [Store.bind, hsc] at h
  · by_cases hseal : sc.isSealed = true
    · rw [Store.bind_sealed hsc hseal n d k] at h
      exact absurd h (by simp)
    · have hs2 : sc.isSealed = false := by
        revert hseal
        cases sc.isSealed <;> simp
      rw [Store.bind_eq_ok hsc hs2 n d k] at h
      injection h with h
      injection h with h1 h2
      injection h2 with h2 h3
      exact ⟨sc, hsc ▸ rfl, hs2, h1.symm, h2.symm, h3.symm⟩

theorem Store.bind_ok_scope?_other {st st2 : Store} {sid : Nat} {n : JName}
    {d : Nat} {k : SymKind} {sym : JSymbol} {dg : Option Diagnostic}
    (h : st.bind sid n d k = .ok (st2, sym, dg)) {j : Nat} (hj : j ≠ sid) :
    st2.scope? j = st.scope? j := by
  obtain ⟨sc, _, _, h1, _, _⟩ := Store.bind_ok_inv h
  rw [h1]
  exact Store.scope?_setScope_other _ hj

theorem Store.bind_ok_scope?_self {st st2 : Store} {sid : Nat} {sc : Scope}
    {n : JName} {d : Nat} {k : SymKind} {sym : JSymbol} {dg : Option Diagnostic}
    (hsc : st.scope? sid = some sc)
    (h : st.bind sid n d k = .ok (st2, sym, dg)) :
    st2.scope? sid =
      some { sc with bindings := (n, ⟨n, d, k, sid⟩) :: sc.bindings } := by
  obtain ⟨sc2, hsc2, _, h1, _, _⟩ := Store.bind_ok_inv h
  rw [hsc] at hsc2
  injection hsc2 with hsc2
  subst hsc2
  rw [h1]
  exact Store.scope?_setScope_self _ (Store.scope?_lt hsc)

theorem Store.bind_ok_length {st st2 : Store} {sid : Nat} {n : JName}
    {d : Nat} {k : SymKind} {sym : JSymbol} {dg : Option Diagnostic}
    (h : st.bind sid n d k = .ok (st2, sym, dg)) :
    st2.scopes.length = st.scopes.length := by
  obtain ⟨sc, _, _, h1, _, _⟩ := Store.bind_ok_inv h
  rw [h1]
  exact Store.length_setScope st sid _

theorem Store.seal_scope?_other {st : Store} {sid j : Nat} (hj : j ≠ sid) :
    (st.seal sid).scope? j = st.scope? j := by
  rcases hsc : st.scope? sid with _ | sc
  · simp [Store.seal, hsc]
  · simp [Store.seal, hsc, Store.scope?_setScope_other _ hj]

theorem Store.seal_scope?_self {st : Store} {sid : Nat} {sc : Scope}
    (hsc : st.scope? sid = some sc) :
    (st.seal sid).scope? sid = some { sc with isSealed := true } := by
  simp [Store.seal, hsc, Store.scope?_setScope_self _ (Store.scope?_lt hsc)]

theorem Store.seal_length (st : Store) (sid : Nat) :
    (st.seal sid).scopes.length = st.scopes.length := by
  rcases hsc : st.scope? sid with _ | sc <;>
    simp [Store.seal, hsc, Store.length_setScope]

theorem lookupLocal_mem {bs : List (JName × JSymbol)} {n : JName} {s : JSymbol}
    (h : lookupLocal bs n = some s) : (n, s) ∈ bs := by
  induction bs with
  | nil => simp [lookupLocal] at h
  | cons b rest ih =>
    rcases b with ⟨m, t⟩
    by_cases hm : m = n
    · subst hm
      simp [lookupLocal] at h
      simp [h]
    · simp [lookupLocal, hm] at h
      exact List.mem_cons_of_mem _ (ih h)

theorem lookupChain_eq_findSome (st : Store) (n : JName) :
    ∀ (f sid : Nat),
      lookupChain st sid n f =
        (chainOf st sid f).findSome? (fun i => localAt st i n) := by
  intro f
  induction f with
  | zero => intro sid; rfl
  | succ f ih =>
    intro sid
    simp only [lookupChain, chainOf]
    rcases hsc : st.scope? sid with _ | sc
    · simp
    · simp only [List.findSome?_cons, localAt, hsc, Option.some_bind]
      rcases hl : lookupLocal sc.bindings n with _ | s
      · simp only [hl]
        rcases hp : sc.parent with _ | p
        · simp
        · simpa [localAt] using ih p
      · simp [hl]

theorem chainOf_fuel (st : Store) (hwf : ParentLt st) :
    ∀ sid f g, sid < f → sid < g → chainOf st sid f = chainOf st sid g := by
  intro sid
  induction sid using Nat.strong_induction_on with
  | _ sid ih =>
    intro f g hf hg
    match f, g with
    | f + 1, g + 1 =>
      simp only [chainOf]
      rcases hsc : st.scope? sid with _ | sc
      · rfl
      · rcases hp : sc.parent with _ | p
        · simp [hp]
        · have hplt := hwf sid sc p hsc hp
          simp only [hp]
          rw [ih p hplt f g (by omega) (by omega)]

theorem lookupChain_fuel (st : Store) (hwf : ParentLt st) (n : JName)
    (sid f : Nat) (hf : sid < f) :
    lookupChain st sid n f = Store.lookup st sid n := by
  rw [lookupChain_eq_findSome st n f sid, Store.lookup,
    lookupChain_eq_findSome st n (sid + 1) sid,
    chainOf_fuel st hwf sid f (sid + 1) hf (Nat.lt_succ_self sid)]

theorem parentLtB_sound {st : Store} (h : parentLtB st = true) : ParentLt st := by
  intro sid sc p hsc hp
  have hlt : sid < st.scopes.length := Store.scope?_lt hsc
  have h2 := (List.all_eq_true.mp h) sid (List.mem_range.mpr hlt)
  rw [hsc] at h2
  have h3 : (match sc.parent with
             | none => true
             | some q => decide (q < sid)) = true := h2
  rw [hp] at h3
  exact of_decide_eq_true h3

/-- C4: `lookup(scope, name)` walks from the scope up through parent
scopes until a binding for the name is found or the root is exhausted:
it equals the first local match along the ancestor chain (so an inner
binding shadows any outer one), it is `none` exactly when no scope of
the chain binds the name, a binding in the starting scope itself always
wins, and — given decreasing parent links — supplying more fuel changes
neither the chain nor the walk, i.e. the chain really ends at the root. -/
theorem claim_C4_lookup (st : Store) (sid : Nat) (n : JName)
    (hwf : ParentLt st) :
    (Store.lookup st sid n
        = (chainOf st sid (sid + 1)).findSome? (fun i => localAt st i n)) ∧
    (Store.lookup st sid n = none ↔
        ∀ i ∈ chainOf st sid (sid + 1), localAt st i n = none) ∧
    (∀ sc s, st.scope? sid = some sc → lookupLocal sc.bindings n = some s →
        Store.lookup st sid n = some s) ∧
    (∀ f, sid < f →
        chainOf st sid f = chainOf st sid (sid + 1) ∧
        lookupChain st sid n f = Store.lookup st sid n) := by
  refine ⟨lookupChain_eq_findSome st n (sid + 1) sid, ?_, ?_, ?_⟩
  · rw [Store.lookup, lookupChain_eq_findSome st n (sid + 1) sid]
    exact List.findSome?_eq_none
  · intro sc s hsc hl
    simp [Store.lookup, lookupChain, hsc, hl]
  · intro f hf
    exact ⟨chainOf_fuel st hwf sid f (sid + 1) hf (Nat.lt_succ_self sid),
      lookupChain_fuel st hwf n sid f hf⟩

/-- Concrete instantiation of C4: in a two-scope store where both the
module scope and a child ability scope bind `x`, lookup from the child
returns the inner symbol. -/
theorem claim_C4_lookup_witness :
    ParentLt c4store ∧
    ((Store.lookup c4store 1 "x"
        = (chainOf c4store 1 2).findSome? (fun i => localAt c4store i "x")) ∧
    (Store.lookup c4store 1 "x" = none ↔
        ∀ i ∈ chainOf c4store 1 2, localAt c4store i "x" = none) ∧
    (∀ sc s, c4store.scope? 1 = some sc → lookupLocal sc.bindings "x" = some s →
        Store.lookup c4store 1 "x" = some s) ∧
    (∀ f, 1 < f →
        chainOf c4store 1 f = chainOf c4store 1 2 ∧
        lookupChain c4store 1 "x" f = Store.lookup c4store 1 "x")) :=
  ⟨parentLtB_sound (by decide),
   claim_C4_lookup c4store 1 "x" (parentLtB_sound (by decide))⟩

/-- C5: a `bind` over a name already bound in the same (unsealed) scope
emits a non-fatal `DuplicateDefinition` diagnostic, the new binding
shadows the old one for subsequent lookups in that scope, and the
original symbol object is retained in the scope's binding list. -/
theorem claim_C5_bind_duplicate (st : Store) (sid : Nat) (sc : Scope)
    (n : JName) (d : Nat) (k : SymKind) (sym0 : JSymbol)
    (hsc : st.scope? sid = some sc) (hseal : sc.isSealed = false)
    (hprior : lookupLocal sc.bindings n = some sym0) :
    ∃ st2 : Store,
      st.bind sid n d k = .ok (st2, ⟨n, d, k, sid⟩,
        some ⟨.DuplicateDefinition, n, d⟩) ∧
      localAt st2 sid n = some ⟨n, d, k, sid⟩ ∧
      ∃ sc2, st2.scope? sid = some sc2 ∧ (n, sym0) ∈ sc2.bindings := by
  refine ⟨st.setScope sid
    { sc with bindings := (n, ⟨n, d, k, sid⟩) :: sc.bindings }, ?_, ?_, ?_⟩
  · rw [Store.bind_eq_ok hsc hseal n d k, hprior]
    rfl
  · rw [localAt, Store.scope?_setScope_self _ (Store.scope?_lt hsc)]
    simp [lookupLocal]
  · refine ⟨_, Store.scope?_setScope_self _ (Store.scope?_lt hsc), ?_⟩
    exact List.mem_cons_of_mem _ (lookupLocal_mem hprior)

/-- Concrete instantiation of C5: rebinding `dup` in the module scope of
`c5store` yields the duplicate diagnostic, shadows, and retains the old
symbol. -/
theorem claim_C5_bind_duplicate_witness :
    c5store.scope? 0 = some c5scope ∧ c5scope.isSealed = false ∧
    lookupLocal c5scope.bindings "dup" = some ⟨"dup", 3, .architypeSym, 0⟩ ∧
    ∃ st2 : Store,
      c5store.bind 0 "dup" 9 .enumSym = .ok (st2, ⟨"dup", 9, .enumSym, 0⟩,
        some ⟨.DuplicateDefinition, "dup", 9⟩) ∧
      localAt st2 0 "dup" = some ⟨"dup", 9, .enumSym, 0⟩ ∧
      ∃ sc2, st2.scope? 0 = some sc2 ∧
        ("dup", ⟨"dup", 3, .architypeSym, 0⟩) ∈ sc2.bindings :=
  ⟨by decide, by decide, by decide,
   claim_C5_bind_duplicate c5store 0 c5scope "dup" 9 .enumSym
     ⟨"dup", 3, .architypeSym, 0⟩ (by decide) (by decide) (by decide)⟩

theorem sealed_frozen_applyOps {sid : Nat} :
    ∀ (ops : List StoreOp) (st st2 : Store) (sc : Scope),
      st.scope? sid = some sc → sc.isSealed = true →
      applyOps st ops = .ok st2 →
      ∃ sc2, st2.scope? sid = some sc2 ∧ sc2.bindings = sc.bindings ∧
        sc2.isSealed = true := by
  intro ops
  induction ops with
  | nil =>
    intro st st2 sc hsc hsealed h
    injection h with h
    exact ⟨sc, h ▸ hsc, rfl, hsealed⟩
  | cons op ops ih =>
    intro st st2 sc hsc hsealed h
    cases op with
    | opBind tid n d k =>
      rcases hb : st.bind tid n d k with e | ⟨st3, sym, dg⟩
      · simp [applyOps, applyOp, hb] at h
      · by_cases htid : tid = sid
        · subst htid
          rw [Store.bind_sealed hsc hsealed n d k] at hb
          exact absurd hb (by simp)
        · have hpres : st3.scope? sid = some sc := by
            rw [Store.bind_ok_scope?_other hb (by omega)]
            exact hsc
          simp only [applyOps, applyOp, hb] at h
          exact ih st3 st2 sc hpres hsealed h
    | opSeal tid =>
      simp only [applyOps, applyOp] at h
      by_cases htid : tid = sid
      · subst htid
        have hself := Store.seal_scope?_self hsc
        exact ih _ st2 { sc with isSealed := true } hself rfl h
      · have hpres : (st.seal tid).scope? sid = some sc := by
          rw [Store.seal_scope?_other (by omega)]
          exact hsc
        exact ih _ st2 sc hpres hsealed h
    | opOpen k p =>
      simp only [applyOps, applyOp] at h
      have hpres : (st.openScope k p).1.scope? sid = some sc := by
        rw [Store.openScope_fst_scope?_ne st k p
          (by have := Store.scope?_lt hsc; omega)]
        exact hsc
      exact ih _ st2 sc hpres hsealed h

/-- C6: once a scope is sealed its bindings never change — a `bind` on
it is a fatal error (an `Except.error`, not a recorded diagnostic), and
any successful sequence of further store operations (binds on any scope,
seals, scope creations: the only mutations the pass performs) leaves the
sealed scope's bindings, and its sealed mark, intact. -/
theorem claim_C6_seal_frozen (st : Store) (sid : Nat) (sc : Scope)
    (hsc : st.scope? sid = some sc) (hsealed : sc.isSealed = true) :
    (∀ n d k, Store.bind st sid n d k = .error "bind: sealed scope") ∧
    (∀ ops st2, applyOps st ops = .ok st2 →
      ∃ sc2, st2.scope? sid = some sc2 ∧ sc2.bindings = sc.bindings ∧
        sc2.isSealed = true) := by
  refine ⟨fun n d k => Store.bind_sealed hsc hsealed n d k, fun ops st2 h => ?_⟩
  exact sealed_frozen_applyOps ops st st2 sc hsc hsealed h

/-- Concrete instantiation of C6: scope 1 of `c6store` is sealed; a bind
on it is fatal, and a successful op sequence (a bind elsewhere, a seal,
a scope creation) leaves its bindings intact. -/
theorem claim_C6_seal_frozen_witness :
    c6store.scope? 1 = some ⟨.ability, some 0,
      [("y", ⟨"y", 4, .localVar, 1⟩)], true⟩ ∧
    (⟨.ability, some 0, [("y", ⟨"y", 4, .localVar, 1⟩)], true⟩ : Scope).isSealed
      = true ∧
    ((∀ n d k, Store.bind c6store 1 n d k = .error "bind: sealed scope") ∧
    (∀ ops st2, applyOps c6store ops = .ok st2 →
      ∃ sc2, st2.scope? 1 = some sc2 ∧
        sc2.bindings = [("y", ⟨"y", 4, .localVar, 1⟩)] ∧
        sc2.isSealed = true)) :=
  ⟨by decide, by decide,
   claim_C6_seal_frozen c6store 1
     ⟨.ability, some 0, [("y", ⟨"y", 4, .localVar, 1⟩)], true⟩
     (by decide) (by decide)⟩

/-! ### Single-step lemmas about the pass state -/

theorem lookupLocal_cons_ne {bs : List (JName × JSymbol)} {m n : JName}
    (sym : JSymbol) (h : m ≠ n) :
    lookupLocal ((m, sym) :: bs) n = lookupLocal bs n := by
  simp [lookupLocal, h]

theorem lookupLocal_cons_eq {bs : List (JName × JSymbol)} {n : JName}
    (sym : JSymbol) : lookupLocal ((n, sym) :: bs) n = some sym := by
  simp [lookupLocal]

theorem doBind_store_of_unsealed {s : PassSt} {sid : Nat} {sc : Scope}
    (hsc : s.store.scope? sid = some sc) (hseal : sc.isSealed = false)
    (n : JName) (d : Nat) (k : SymKind) :
    (doBind s sid n d k).store =
      s.store.setScope sid
        { sc with bindings := (n, ⟨n, d, k, sid⟩) :: sc.bindings } ∧
    (doBind s sid n d k).fatal = s.fatal ∧
    (doBind s sid n d k).results = s.results := by
  rw [doBind, Store.bind_eq_ok hsc hseal n d k]
  exact ⟨rfl, rfl, rfl⟩

theorem doBind_scope?_other (s : PassSt) (sid : Nat) (n : JName) (d : Nat)
    (k : SymKind) {j : Nat} (hj : j ≠ sid) :
    (doBind s sid n d k).store.scope? j = s.store.scope? j := by
  rw [doBind]
  rcases hb : s.store.bind sid n d k with e | ⟨st2, sym, dg⟩
  · rfl
  · exact Store.bind_ok_scope?_other hb hj

theorem doBind_length (s : PassSt) (sid : Nat) (n : JName) (d : Nat)
    (k : SymKind) :
    (doBind s sid n d k).store.scopes.length = s.store.scopes.length := by
  rw [doBind]
  rcases hb : s.store.bind sid n d k with e | ⟨st2, sym, dg⟩
  · rfl
  · exact Store.bind_ok_length hb

theorem doBind_results (s : PassSt) (sid : Nat) (n : JName) (d : Nat)
    (k : SymKind) : (doBind s sid n d k).results = s.results := by
  rw [doBind]
  rcases hb : s.store.bind sid n d k with e | ⟨st2, sym, dg⟩ <;> rfl

theorem doBind_diags (s : PassSt) (sid : Nat) (n : JName) (d : Nat)
    (k : SymKind) :
    (doBind s sid n d k).diags = s.diags ∨
      (doBind s sid n d k).diags = s.diags ++ [⟨.DuplicateDefinition, n, d⟩] := by
  rw [doBind]
  rcases hb : s.store.bind sid n d k with e | ⟨st2, sym, dg⟩
  · exact .inl rfl
  · obtain ⟨sc, _, _, _, _, hdg⟩ := Store.bind_ok_inv hb
    rcases hdup : (lookupLocal sc.bindings n).isSome with _ | _ <;>
      rw [hdup] at hdg <;> simp [hdg]

theorem doBind_localAt_self {s : PassSt} {sid : Nat} {sc : Scope}
    (hsc : s.store.scope? sid = some sc) (hseal : sc.isSealed = false)
    (n : JName) (d : Nat) (k : SymKind) :
    localAt (doBind s sid n d k).store sid n = some ⟨n, d, k, sid⟩ := by
  rw [(doBind_store_of_unsealed hsc hseal n d k).1, localAt,
    Store.scope?_setScope_self _ (Store.scope?_lt hsc), Option.some_bind,
    lookupLocal_cons_eq]

theorem doBind_localAt_other_name {s : PassSt} {sid : Nat} {sc : Scope}
    (hsc : s.store.scope? sid = some sc) (hseal : sc.isSealed = false)
    {n m : JName} (hnm : n ≠ m) (d : Nat) (k : SymKind) :
    localAt (doBind s sid n d k).store sid m = localAt s.store sid m := by
  rw [(doBind_store_of_unsealed hsc hseal n d k).1, localAt,
    Store.scope?_setScope_self _ (Store.scope?_lt hsc), Option.some_bind,
    lookupLocal_cons_ne _ hnm, localAt, hsc, Option.some_bind]

theorem doBind_localAt_other_scope (s : PassSt) (sid : Nat) (n : JName)
    (d : Nat) (k : SymKind) {j : Nat} (hj : j ≠ sid) (m : JName) :
    localAt (doBind s sid n d k).store j m = localAt s.store j m := by
  rw [localAt, doBind_scope?_other s sid n d k hj, localAt]

theorem doBind_unsealed_self {s : PassSt} {sid : Nat} {sc : Scope}
    (hsc : s.store.scope? sid = some sc) (hseal : sc.isSealed = false)
    (n : JName) (d : Nat) (k : SymKind) :
    UnsealedAt (doBind s sid n d k).store sid := by
  rw [(doBind_store_of_unsealed hsc hseal n d k).1]
  exact ⟨_, Store.scope?_setScope_self _ (Store.scope?_lt hsc), hseal⟩

theorem doBind_unsealed_other {s : PassSt} {sid j : Nat} (hj : j ≠ sid)
    (n : JName) (d : Nat) (k : SymKind)
    (h : UnsealedAt s.store j) : UnsealedAt (doBind s sid n d k).store j := by
  obtain ⟨sc, hsc, hs⟩ := h
  exact ⟨sc, (doBind_scope?_other s sid n d k hj).trans hsc ▸ rfl, hs⟩

theorem StepOK.refl (s : PassSt) (outIds : List Nat) (keep : Nat → Prop) :
    StepOK s s outIds keep :=
  ⟨Nat.le_refl _, fun _ _ _ => rfl, ⟨[], by simp⟩, ⟨[], by simp⟩⟩

theorem StepOK.comp {s1 s2 s3 : PassSt} {ids1 ids2 ids3 : List Nat}
    {keep1 keep2 keep3 : Nat → Prop} (h1 : StepOK s1 s2 ids1 keep1)
    (h2 : StepOK s2 s3 ids2 keep2)
    (hsub1 : ∀ x ∈ ids1, x ∈ ids3) (hsub2 : ∀ x ∈ ids2, x ∈ ids3)
    (hk1 : ∀ j, j < s1.store.scopes.length → keep3 j → keep1 j)
    (hk2 : ∀ j, j < s1.store.scopes.length → keep3 j → keep2 j) :
    StepOK s1 s3 ids3 keep3 := by
  obtain ⟨hl1, hf1, ⟨d1, hd1, hds1⟩, ⟨r1, hr1⟩⟩ := h1
  obtain ⟨hl2, hf2, ⟨d2, hd2, hds2⟩, ⟨r2, hr2⟩⟩ := h2
  refine ⟨Nat.le_trans hl1 hl2, ?_, ⟨d1 ++ d2, ?_, ?_⟩, ⟨r1 ++ r2, ?_⟩⟩
  · intro j hj hk
    rw [hf2 j (Nat.lt_of_lt_of_le hj hl1) (hk2 j hj hk), hf1 j hj (hk1 j hj hk)]
  · rw [hd2, hd1, List.append_assoc]
  · intro dg hdg
    rcases List.mem_append.mp hdg with h | h
    · exact hsub1 _ (hds1 dg h)
    · exact hsub2 _ (hds2 dg h)
  · rw [hr2, hr1, List.append_assoc]

theorem StepOK.weaken {s s' : PassSt} {ids ids2 : List Nat}
    {keep keep2 : Nat → Prop} (h : StepOK s s' ids keep)
    (hk : ∀ j, keep2 j → keep j) (hi : ∀ x ∈ ids, x ∈ ids2) :
    StepOK s s' ids2 keep2 := by
  obtain ⟨hl, hf, ⟨d, hd, hds⟩, hr⟩ := h
  exact ⟨hl, fun j hj hk2 => hf j hj (hk j hk2), ⟨d, hd,
    fun dg hdg => hi _ (hds dg hdg)⟩, hr⟩

theorem StepOK.weakenTo {s s' : PassSt} {ids : List Nat} {keep : Nat → Prop}
    (h : StepOK s s' ids keep) (ids2 : List Nat) (keep2 : Nat → Prop)
    (hk : ∀ j, keep2 j → keep j) (hi : ∀ x ∈ ids, x ∈ ids2) :
    StepOK s s' ids2 keep2 :=
  h.weaken hk hi

theorem StepOK.compTo {s1 s2 s3 : PassSt} {ids1 ids2 : List Nat}
    {keep1 keep2 : Nat → Prop} (h1 : StepOK s1 s2 ids1 keep1)
    (h2 : StepOK s2 s3 ids2 keep2) (ids3 : List Nat) (keep3 : Nat → Prop)
    (hsub1 : ∀ x ∈ ids1, x ∈ ids3) (hsub2 : ∀ x ∈ ids2, x ∈ ids3)
    (hk1 : ∀ j, j < s1.store.scopes.length → keep3 j → keep1 j)
    (hk2 : ∀ j, j < s1.store.scopes.length → keep3 j → keep2 j) :
    StepOK s1 s3 ids3 keep3 :=
  h1.comp h2 hsub1 hsub2 hk1 hk2

theorem StepOK.results_mem {s s' : PassSt} {ids : List Nat}
    {keep : Nat → Prop} (h : StepOK s s' ids keep)
    {r : Nat × ResKind} (hr : r ∈ s.results) : r ∈ s'.results := by
  obtain ⟨_, _, _, ⟨l, hl⟩⟩ := h
  rw [hl]
  exact List.mem_append_left _ hr

theorem StepOK.scope?_keep {s s' : PassSt} {ids : List Nat}
    {keep : Nat → Prop} (h : StepOK s s' ids keep) {j : Nat}
    (hj : j < s.store.scopes.length) (hk : keep j) :
    s'.store.scope? j = s.store.scope? j :=
  h.2.1 j hj hk

theorem StepOK.localAt_keep {s s' : PassSt} {ids : List Nat}
    {keep : Nat → Prop} (h : StepOK s s' ids keep) {j : Nat}
    (hj : j < s.store.scopes.length) (hk : keep j) (n : JName) :
    localAt s'.store j n = localAt s.store j n := by
  rw [localAt, h.scope?_keep hj hk, localAt]

theorem stepOK_doBind (s : PassSt) (sid : Nat) (n : JName) (d : Nat)
    (k : SymKind) : StepOK s (doBind s sid n d k) [d] (· ≠ sid) := by
  refine ⟨Nat.le_of_eq (doBind_length s sid n d k).symm, ?_, ?_,
    ⟨[], by rw [doBind_results]; simp⟩⟩
  · intro j _ hk
    exact doBind_scope?_other s sid n d k hk
  · rcases doBind_diags s sid n d k with h | h
    · exact ⟨[], by rw [h]; simp⟩
    · exact ⟨[⟨.DuplicateDefinition, n, d⟩], by rw [h]; simp⟩

theorem stepOK_recordRes (s : PassSt) (id : Nat) (r : ResKind)
    (outIds : List Nat) (keep : Nat → Prop) :
    StepOK s (recordRes s id r) outIds keep :=
  ⟨Nat.le_refl _, fun _ _ _ => rfl, ⟨[], by simp [recordRes]⟩,
   ⟨[(id, r)], by simp [recordRes]⟩⟩

theorem stepOK_emitDiag (s : PassSt) (k : DiagKind) (n : JName) (site : Nat)
    (outIds : List Nat) (hsite : site ∈ outIds) (keep : Nat → Prop) :
    StepOK s (emitDiag s k n site) outIds keep :=
  ⟨Nat.le_refl _, fun _ _ _ => rfl,
   ⟨[⟨k, n, site⟩], by simp [emitDiag, hsite]⟩, ⟨[], by simp [emitDiag]⟩⟩

theorem stepOK_openScope (s : PassSt) (k : ScopeKind) (p : Option Nat)
    (outIds : List Nat) (keep : Nat → Prop) :
    StepOK s { s with store := (s.store.openScope k p).1 } outIds keep := by
  refine ⟨?_, ?_, ⟨[], by simp⟩, ⟨[], by simp⟩⟩
  · rw [Store.openScope_fst_length]
    omega
  · intro j hj _
    exact Store.openScope_fst_scope?_ne s.store k p (by omega)

theorem stepOK_sealStore (s : PassSt) (sid : Nat) (hsid : s.store.scopes.length ≤ sid)
    (outIds : List Nat) (keep : Nat → Prop) :
    StepOK s { s with store := s.store.seal sid } outIds keep := by
  refine ⟨Nat.le_of_eq (Store.seal_length s.store sid).symm, ?_,
    ⟨[], by simp⟩, ⟨[], by simp⟩⟩
  · intro j hj _
    exact Store.seal_scope?_other (by omega)

theorem stepOK_resolveExpr (msid : Nat) :
    ∀ (e : JExpr) (sid : Nat) (s : PassSt),
      StepOK s (resolveExpr msid sid s e) (exprIds e) (fun _ => True) := by
  intro e
  induction e with
  | nameUse id n =>
    intro sid s
    rw [resolveExpr]
    rcases s.store.lookup sid n with _ | sym
    · exact (stepOK_recordRes s id .unresolvedRef (exprIds (.nameUse id n)) _).comp
        (stepOK_emitDiag _ .UnresolvedName n id _ (by simp [exprIds]) _)
        (fun x hx => hx) (fun x hx => hx) (fun _ _ h => h) (fun _ _ h => h)
    · exact stepOK_recordRes s id _ _ _
  | archRef id n =>
    intro sid s
    rw [resolveExpr]
    rcases s.store.lookup msid n with _ | sym
    · exact (stepOK_recordRes s id .unresolvedRef (exprIds (.archRef id n)) _).comp
        (stepOK_emitDiag _ .UnresolvedName n id _ (by simp [exprIds]) _)
        (fun x hx => hx) (fun x hx => hx) (fun _ _ h => h) (fun _ _ h => h)
    · exact stepOK_recordRes s id _ _ _
  | filterCompr d v pred ih =>
    intro sid s
    rw [resolveExpr]
    have h1 := (stepOK_openScope s .comprehension (some sid)
      (d :: exprIds pred) (fun _ => True))
    have h2 := (stepOK_doBind
        { s with store := (s.store.openScope .comprehension (some sid)).1 }
        (s.store.openScope .comprehension (some sid)).2 v d .localVar).weakenTo
      (d :: exprIds pred)
      (fun j => j ≠ (s.store.openScope .comprehension (some sid)).2)
      (fun _ h => h) (by intro x hx; simp at hx; simp [hx])
    have h12 := h1.compTo h2 (d :: exprIds pred) (fun _ => True)
      (fun x hx => hx) (fun x hx => hx) (fun _ _ _ => trivial)
      (by intro j hj _; rw [Store.openScope_snd]; omega)
    have h3 := ih (s.store.openScope .comprehension (some sid)).2
        (doBind { s with store := (s.store.openScope .comprehension (some sid)).1 }
          (s.store.openScope .comprehension (some sid)).2 v d .localVar)
    have h123 := h12.compTo h3 (d :: exprIds pred) (fun _ => True)
      (fun x hx => hx) (by intro x hx; simp [hx]) (fun _ _ _ => trivial)
      (fun _ _ _ => trivial)
    obtain ⟨hlen, hframe, hdiags, hres⟩ := h123
    refine ⟨?_, ?_, hdiags, hres⟩
    · rw [Store.seal_length]
      exact hlen
    · intro j hj hk
      have hj2 : j ≠ (s.store.openScope .comprehension (some sid)).2 := by
        rw [Store.openScope_snd]
        omega
      show ((_ : Store).seal _).scope? j = _
      rw [Store.seal_scope?_other hj2]
      exact hframe j hj hk

theorem stmtsIds_cons (stt : JStmt) (rest : List JStmt) :
    stmtsIds (stt :: rest) = stmtIds stt ++ stmtsIds rest := by
  simp [stmtsIds]

theorem itemsIds_cons (it : ArchItem) (rest : List ArchItem) :
    itemsIds (it :: rest) = itemIds it ++ itemsIds rest := by
  simp [itemsIds]

theorem modIds_cons (dcl : JDecl) (rest : JModule) :
    modIds (dcl :: rest) = declIds dcl ++ modIds rest := by
  simp [modIds]

/-- Open a fresh scope, run a step that leaves all pre-existing scopes
alone, seal the fresh scope: all scopes existing beforehand survive. -/
theorem stepOK_scoped (s : PassSt) (k : ScopeKind) (p : Option Nat)
    (s2 : PassSt) (ids : List Nat) (keep2 : Nat → Prop)
    (hmid : StepOK { s with store := (s.store.openScope k p).1 } s2 ids keep2)
    (hk2 : ∀ j, j < s.store.scopes.length → keep2 j) :
    StepOK s { s2 with store := s2.store.seal (s.store.openScope k p).2 } ids
      (fun _ => True) := by
  obtain ⟨hlen, hframe, hdiags, hres⟩ := hmid
  have hol := Store.openScope_fst_length s.store k p
  refine ⟨?_, ?_, hdiags, hres⟩
  · rw [Store.seal_length]
    simp only [hol] at hlen
    omega
  · intro j hj _
    have hj2 : j ≠ (s.store.openScope k p).2 := by
      rw [Store.openScope_snd]
      omega
    show (s2.store.seal _).scope? j = _
    rw [Store.seal_scope?_other hj2,
      hframe j (by simp only [hol]; omega) (hk2 j hj)]
    exact Store.openScope_fst_scope?_ne s.store k p (by omega)

theorem stepOK_resolveStmt (msid sid : Nat) (s : PassSt) (stt : JStmt) :
    StepOK s (resolveStmt msid sid s stt) (stmtIds stt) (· ≠ sid) := by
  cases stt with
  | assign d lhs rhs =>
    rw [resolveStmt]
    have h1 := (stepOK_resolveExpr msid rhs sid s).weakenTo
      (stmtIds (.assign d lhs rhs)) (· ≠ sid)
      (fun _ _ => trivial) (by intro x hx; simp [stmtIds, hx])
    rcases hl : localAt (resolveExpr msid sid s rhs).store sid lhs with _ | sym
    · refine h1.comp (stepOK_doBind _ sid lhs d .localVar) (fun x hx => hx)
        ?_ (fun _ _ h => h) (fun _ _ h => h)
      intro x hx
      simp at hx
      simp [stmtIds, hx]
    · exact h1.comp (stepOK_recordRes _ d _ _ _) (fun x hx => hx)
        (fun x hx => hx) (fun _ _ h => h) (fun _ _ h => h)
  | exprStmt e =>
    rw [resolveStmt]
    exact (stepOK_resolveExpr msid e sid s).weaken (fun _ _ => trivial)
      (fun x hx => hx)

theorem stepOK_resolveStmts (msid sid : Nat) :
    ∀ (body : List JStmt) (s : PassSt),
      StepOK s (resolveStmts msid sid s body) (stmtsIds body) (· ≠ sid) := by
  intro body
  induction body with
  | nil => intro s; exact StepOK.refl _ _ _
  | cons stt rest ih =>
    intro s
    rw [resolveStmts]
    refine (stepOK_resolveStmt msid sid s stt).comp (ih _) ?_ ?_
      (fun _ _ h => h) (fun _ _ h => h)
    · intro x hx
      rw [stmtsIds_cons]
      exact List.mem_append_left _ hx
    · intro x hx
      rw [stmtsIds_cons]
      exact List.mem_append_right _ hx

theorem stepOK_hoistItems (asid : Nat) :
    ∀ (items : List ArchItem) (s : PassSt),
      StepOK s (hoistItems asid s items) (itemsIds items) (· ≠ asid) := by
  intro items
  induction items with
  | nil => intro s; exact StepOK.refl _ _ _
  | cons it rest ih =>
    intro s
    cases it with
    | hasVar d n =>
      rw [hoistItems]
      refine (stepOK_doBind s asid n d .hasVar).comp (ih _) ?_ ?_
        (fun _ _ h => h) (fun _ _ h => h)
      · intro x hx
        rw [itemsIds_cons]
        refine List.mem_append_left _ ?_
        simpa [itemIds] using hx
      · intro x hx
        rw [itemsIds_cons]
        exact List.mem_append_right _ hx
    | ability d n body =>
      rw [hoistItems]
      refine (stepOK_doBind s asid n d .abilitySym).comp (ih _) ?_ ?_
        (fun _ _ h => h) (fun _ _ h => h)
      · intro x hx
        rw [itemsIds_cons]
        refine List.mem_append_left _ ?_
        simp at hx
        simp [itemIds, hx]
      · intro x hx
        rw [itemsIds_cons]
        exact List.mem_append_right _ hx

theorem stepOK_resolveItems (msid asid : Nat) :
    ∀ (items : List ArchItem) (s : PassSt),
      StepOK s (resolveItems msid asid s items) (itemsIds items)
        (fun _ => True) := by
  intro items
  induction items with
  | nil => intro s; exact StepOK.refl _ _ _
  | cons it rest ih =>
    intro s
    cases it with
    | hasVar d n =>
      rw [resolveItems]
      refine (ih s).weaken (fun _ _ => trivial) ?_
      intro x hx
      rw [itemsIds_cons]
      exact List.mem_append_right _ hx
    | ability d n body =>
      rw [resolveItems]
      have hmid := stepOK_resolveStmts msid
        (s.store.openScope .ability (some asid)).2 body
        { s with store := (s.store.openScope .ability (some asid)).1 }
      have hsc := stepOK_scoped s .ability (some asid) _ _ _ hmid
        (by intro j hj; rw [Store.openScope_snd]; omega)
      refine hsc.comp (ih _) ?_ ?_ (fun _ _ _ => trivial) (fun _ _ _ => trivial)
      · intro x hx
        rw [itemsIds_cons]
        exact List.mem_append_left _ (by simp [itemIds, hx])
      · intro x hx
        rw [itemsIds_cons]
        exact List.mem_append_right _ hx

theorem stepOK_enumFold (esid : Nat) :
    ∀ (es : List (Nat × JName)) (s : PassSt),
      StepOK s (es.foldl (fun acc en => doBind acc esid en.2 en.1 .enumSym) s)
        (es.map Prod.fst) (· ≠ esid) := by
  intro es
  induction es with
  | nil => intro s; exact StepOK.refl _ _ _
  | cons en rest ih =>
    intro s
    rw [List.foldl_cons]
    refine (stepOK_doBind s esid en.2 en.1 .enumSym).comp (ih _) ?_ ?_
      (fun _ _ h => h) (fun _ _ h => h)
    · intro x hx
      simp at hx
      simp [hx]
    · intro x hx
      rw [List.map_cons]
      exact List.mem_cons_of_mem _ hx

theorem stepOK_resolveDecl (msid : Nat) (s : PassSt) (dcl : JDecl) :
    StepOK s (resolveDecl msid s dcl) (declIds dcl) (fun _ => True) := by
  cases dcl with
  | arch a =>
    rw [resolveDecl]
    have hho := stepOK_hoistItems (s.store.openScope .architype (some msid)).2
      a.body { s with store := (s.store.openScope .architype (some msid)).1 }
    have hit := stepOK_resolveItems msid
      (s.store.openScope .architype (some msid)).2 a.body
      (hoistItems (s.store.openScope .architype (some msid)).2
        { s with store := (s.store.openScope .architype (some msid)).1 } a.body)
    have hmid := hho.compTo hit (itemsIds a.body)
      (· ≠ (s.store.openScope .architype (some msid)).2)
      (fun x hx => hx) (fun x hx => hx) (fun _ _ h => h) (fun _ _ _ => trivial)
    have hsc := stepOK_scoped s .architype (some msid) _ _ _ hmid
      (by intro j hj; rw [Store.openScope_snd]; omega)
    refine hsc.weaken (fun _ _ => trivial) ?_
    intro x hx
    simp [declIds, hx]
  | enumDecl d n enumerators =>
    rw [resolveDecl]
    have hmid := stepOK_enumFold (s.store.openScope .architype (some msid)).2
      enumerators { s with store := (s.store.openScope .architype (some msid)).1 }
    have hsc := stepOK_scoped s .architype (some msid) _ _ _ hmid
      (by intro j hj; rw [Store.openScope_snd]; omega)
    refine hsc.weaken (fun _ _ => trivial) ?_
    intro x hx
    simp [declIds]
    right
    simpa using hx

theorem stepOK_resolveDecls (msid : Nat) :
    ∀ (m : JModule) (s : PassSt),
      StepOK s (resolveDecls msid s m) (modIds m) (fun _ => True) := by
  intro m
  induction m with
  | nil => intro s; exact StepOK.refl _ _ _
  | cons dcl rest ih =>
    intro s
    rw [resolveDecls]
    refine (stepOK_resolveDecl msid s dcl).comp (ih _) ?_ ?_
      (fun _ _ _ => trivial) (fun _ _ _ => trivial)
    · intro x hx
      rw [modIds_cons]
      exact List.mem_append_left _ hx
    · intro x hx
      rw [modIds_cons]
      exact List.mem_append_right _ hx

theorem stepOK_phase1 (msid : Nat) :
    ∀ (m : JModule) (s : PassSt),
      StepOK s (phase1 msid s m) (m.map declTopId) (· ≠ msid) := by
  intro m
  induction m with
  | nil => intro s; exact StepOK.refl _ _ _
  | cons dcl rest ih =>
    intro s
    cases dcl with
    | arch a =>
      rw [phase1]
      refine (stepOK_doBind s msid a.name a.declId .architypeSym).comp (ih _)
        ?_ ?_ (fun _ _ h => h) (fun _ _ h => h)
      · intro x hx
        simp at hx
        simp [declTopId, hx]
      · intro x hx
        rw [List.map_cons]
        exact List.mem_cons_of_mem _ hx
    | enumDecl d n enumerators =>
      rw [phase1]
      refine (stepOK_doBind s msid n d .enumSym).comp (ih _)
        ?_ ?_ (fun _ _ h => h) (fun _ _ h => h)
      · intro x hx
        simp at hx
        simp [declTopId, hx]
      · intro x hx
        rw [List.map_cons]
        exact List.mem_cons_of_mem _ hx

/-! ### Well-formedness and fatality invariants of the processors -/

theorem ParentLt_setScope_same_parent {st : Store} {sid : Nat} {sc sc2 : Scope}
    (hsc : st.scope? sid = some sc) (hp : sc2.parent = sc.parent)
    (hwf : ParentLt st) : ParentLt (st.setScope sid sc2) := by
  intro i sci p hi hpi
  by_cases hisid : i = sid
  · subst hisid
    rw [Store.scope?_setScope_self _ (Store.scope?_lt hsc)] at hi
    injection hi with hi
    subst hi
    exact hwf i sc p hsc (by rw [← hp]; exact hpi)
  · rw [Store.scope?_setScope_other _ hisid] at hi
    exact hwf i sci p hi hpi

theorem ParentLt_doBind {s : PassSt} (hwf : ParentLt s.store) (sid : Nat)
    (n : JName) (d : Nat) (k : SymKind) :
    ParentLt (doBind s sid n d k).store := by
  rw [doBind]
  rcases hb : s.store.bind sid n d k with e | ⟨st2, sym, dg⟩
  · exact hwf
  · obtain ⟨sc, hsc, _, h1, _, _⟩ := Store.bind_ok_inv hb
    show ParentLt st2
    rw [h1]
    exact ParentLt_setScope_same_parent hsc rfl hwf

theorem ParentLt_seal {st : Store} (hwf : ParentLt st) (sid : Nat) :
    ParentLt (st.seal sid) := by
  rw [Store.seal]
  rcases hsc : st.scope? sid with _ | sc
  · exact hwf
  · exact ParentLt_setScope_same_parent hsc rfl hwf

theorem ParentLt_openScope {st : Store} (hwf : ParentLt st) (k : ScopeKind)
    {p : Option Nat} (hp : ∀ q, p = some q → q < st.scopes.length) :
    ParentLt (st.openScope k p).1 := by
  intro i sci q hi hq
  by_cases hilen : i = st.scopes.length
  · subst hilen
    rw [Store.openScope_fst_scope?_new] at hi
    injection hi with hi
    subst hi
    exact hp q hq
  · rw [Store.openScope_fst_scope?_ne st k p hilen] at hi
    exact hwf i sci q hi hq

theorem doBind_fatal_of_unsealed {s : PassSt} {sid : Nat}
    (h : UnsealedAt s.store sid) (n : JName) (d : Nat) (k : SymKind) :
    (doBind s sid n d k).fatal = s.fatal := by
  obtain ⟨sc, hsc, hseal⟩ := h
  exact (doBind_store_of_unsealed hsc hseal n d k).2.1

theorem openScope_unsealed_new (st : Store) (k : ScopeKind) (p : Option Nat) :
    UnsealedAt (st.openScope k p).1 (st.openScope k p).2 :=
  ⟨⟨k, p, [], false⟩, by rw [Store.openScope_snd]
                         exact Store.openScope_fst_scope?_new st k p, rfl⟩

theorem doBind_unsealed_self2 {s : PassSt} {sid : Nat}
    (h : UnsealedAt s.store sid) (n : JName) (d : Nat) (k : SymKind) :
    UnsealedAt (doBind s sid n d k).store sid := by
  obtain ⟨sc, hsc, hseal⟩ := h
  exact doBind_unsealed_self hsc hseal n d k

theorem StepOK.unsealed_keep {s s' : PassSt} {ids : List Nat}
    {keep : Nat → Prop} (h : StepOK s s' ids keep) {j : Nat}
    (hk : keep j) (hu : UnsealedAt s.store j) : UnsealedAt s'.store j := by
  obtain ⟨sc, hsc, hseal⟩ := hu
  exact ⟨sc, (h.scope?_keep (Store.scope?_lt hsc) hk).trans hsc, hseal⟩

theorem wfFatal_resolveExpr (msid : Nat) :
    ∀ (e : JExpr) (sid : Nat) (s : PassSt), sid < s.store.scopes.length →
      ParentLt s.store →
      ParentLt (resolveExpr msid sid s e).store ∧
      (resolveExpr msid sid s e).fatal = s.fatal := by
  intro e
  induction e with
  | nameUse id n =>
    intro sid s hsid hwf
    rw [resolveExpr]
    rcases s.store.lookup sid n with _ | sym <;>
      exact ⟨hwf, rfl⟩
  | archRef id n =>
    intro sid s hsid hwf
    rw [resolveExpr]
    rcases s.store.lookup msid n with _ | sym <;>
      exact ⟨hwf, rfl⟩
  | filterCompr d v pred ih =>
    intro sid s hsid hwf
    rw [resolveExpr]
    have hwf1 : ParentLt (s.store.openScope .comprehension (some sid)).1 :=
      ParentLt_openScope hwf _ (by intro q hq; injection hq with hq; omega)
    have hwf2 := ParentLt_doBind (s := { s with store := _ }) hwf1
      (s.store.openScope .comprehension (some sid)).2 v d .localVar
    have hu := openScope_unsealed_new s.store .comprehension (some sid)
    have hfat := doBind_fatal_of_unsealed
      (s := { s with store := (s.store.openScope .comprehension (some sid)).1 })
      hu v d .localVar
    have hsid2 : (s.store.openScope .comprehension (some sid)).2 <
        (doBind { s with store := (s.store.openScope .comprehension (some sid)).1 }
          (s.store.openScope .comprehension (some sid)).2 v d .localVar).store.scopes.length := by
      rw [doBind_length, Store.openScope_snd, Store.openScope_fst_length]
      omega
    obtain ⟨hwf3, hfat3⟩ := ih (s.store.openScope .comprehension (some sid)).2 _
      hsid2 hwf2
    refine ⟨ParentLt_seal hwf3 _, ?_⟩
    show _ = s.fatal
    rw [hfat3, hfat]

theorem wfFatal_resolveStmt (msid sid : Nat) (s : PassSt) (stt : JStmt)
    (hu : UnsealedAt s.store sid) (hwf : ParentLt s.store) :
    ParentLt (resolveStmt msid sid s stt).store ∧
    (resolveStmt msid sid s stt).fatal = s.fatal ∧
    UnsealedAt (resolveStmt msid sid s stt).store sid := by
  have hsid : sid < s.store.scopes.length := by
    obtain ⟨sc, hsc, _⟩ := hu
    exact Store.scope?_lt hsc
  cases stt with
  | assign d lhs rhs =>
    rw [resolveStmt]
    obtain ⟨hwf1, hfat1⟩ := wfFatal_resolveExpr msid rhs sid s hsid hwf
    have hu1 : UnsealedAt (resolveExpr msid sid s rhs).store sid :=
      (stepOK_resolveExpr msid rhs sid s).unsealed_keep trivial hu
    rcases hl : localAt (resolveExpr msid sid s rhs).store sid lhs with _ | sym
    · exact ⟨ParentLt_doBind hwf1 sid lhs d .localVar,
        by rw [doBind_fatal_of_unsealed hu1, hfat1],
        doBind_unsealed_self2 hu1 lhs d .localVar⟩
    · exact ⟨hwf1, hfat1, hu1⟩
  | exprStmt e =>
    rw [resolveStmt]
    obtain ⟨hwf1, hfat1⟩ := wfFatal_resolveExpr msid e sid s hsid hwf
    exact ⟨hwf1, hfat1,
      (stepOK_resolveExpr msid e sid s).unsealed_keep trivial hu⟩

theorem wfFatal_resolveStmts (msid sid : Nat) :
    ∀ (body : List JStmt) (s : PassSt), UnsealedAt s.store sid →
      ParentLt s.store →
      ParentLt (resolveStmts msid sid s body).store ∧
      (resolveStmts msid sid s body).fatal = s.fatal ∧
      UnsealedAt (resolveStmts msid sid s body).store sid := by
  intro body
  induction body with
  | nil => intro s hu hwf; exact ⟨hwf, rfl, hu⟩
  | cons stt rest ih =>
    intro s hu hwf
    rw [resolveStmts]
    obtain ⟨hwf1, hfat1, hu1⟩ := wfFatal_resolveStmt msid sid s stt hu hwf
    obtain ⟨hwf2, hfat2, hu2⟩ := ih (resolveStmt msid sid s stt) hu1 hwf1
    exact ⟨hwf2, by rw [hfat2, hfat1], hu2⟩

theorem wfFatal_hoistItems (asid : Nat) :
    ∀ (items : List ArchItem) (s : PassSt), UnsealedAt s.store asid →
      ParentLt s.store →
      ParentLt (hoistItems asid s items).store ∧
      (hoistItems asid s items).fatal = s.fatal ∧
      UnsealedAt (hoistItems asid s items).store asid := by
  intro items
  induction items with
  | nil => intro s hu hwf; exact ⟨hwf, rfl, hu⟩
  | cons it rest ih =>
    intro s hu hwf
    cases it with
    | hasVar d n =>
      rw [hoistItems]
      obtain ⟨hwf2, hfat2, hu2⟩ := ih (doBind s asid n d .hasVar)
        (doBind_unsealed_self2 hu n d .hasVar) (ParentLt_doBind hwf asid n d .hasVar)
      exact ⟨hwf2, by rw [hfat2, doBind_fatal_of_unsealed hu], hu2⟩
    | ability d n body =>
      rw [hoistItems]
      obtain ⟨hwf2, hfat2, hu2⟩ := ih (doBind s asid n d .abilitySym)
        (doBind_unsealed_self2 hu n d .abilitySym)
        (ParentLt_doBind hwf asid n d .abilitySym)
      exact ⟨hwf2, by rw [hfat2, doBind_fatal_of_unsealed hu], hu2⟩

theorem wfFatal_resolveItems (msid asid : Nat) :
    ∀ (items : List ArchItem) (s : PassSt), asid < s.store.scopes.length →
      ParentLt s.store →
      ParentLt (resolveItems msid asid s items).store ∧
      (resolveItems msid asid s items).fatal = s.fatal := by
  intro items
  induction items with
  | nil => intro s _ hwf; exact ⟨hwf, rfl⟩
  | cons it rest ih =>
    intro s hsid hwf
    cases it with
    | hasVar d n =>
      rw [resolveItems]
      exact ih s hsid hwf
    | ability d n body =>
      rw [resolveItems]
      have hwf1 : ParentLt (s.store.openScope .ability (some asid)).1 :=
        ParentLt_openScope hwf _ (by intro q hq; injection hq with hq; omega)
      have hu1 := openScope_unsealed_new s.store .ability (some asid)
      obtain ⟨hwf2, hfat2, hu2⟩ := wfFatal_resolveStmts msid
        (s.store.openScope .ability (some asid)).2 body
        { s with store := (s.store.openScope .ability (some asid)).1 } hu1 hwf1
      have hlen2 := (stepOK_resolveStmts msid
        (s.store.openScope .ability (some asid)).2 body
        { s with store := (s.store.openScope .ability (some asid)).1 }).1
    -- continue with the tail of the item list
      obtain ⟨hwf3, hfat3⟩ := ih
        { resolveStmts msid (s.store.openScope .ability (some asid)).2
            { s with store := (s.store.openScope .ability (some asid)).1 } body
          with store := (resolveStmts msid
            (s.store.openScope .ability (some asid)).2
            { s with store := (s.store.openScope .ability (some asid)).1 }
            body).store.seal (s.store.openScope .ability (some asid)).2 }
        (by simp only [Store.seal_length]
            simp only [Store.openScope_fst_length] at hlen2
            omega)
        (ParentLt_seal hwf2 _)
      exact ⟨hwf3, by rw [hfat3]; show _ = s.fatal; rw [hfat2]⟩

theorem wfFatal_enumFold (esid : Nat) :
    ∀ (es : List (Nat × JName)) (s : PassSt), UnsealedAt s.store esid →
      ParentLt s.store →
      ParentLt (es.foldl (fun acc en => doBind acc esid en.2 en.1 .enumSym) s).store ∧
      (es.foldl (fun acc en => doBind acc esid en.2 en.1 .enumSym) s).fatal
        = s.fatal := by
  intro es
  induction es with
  | nil => intro s _ hwf; exact ⟨hwf, rfl⟩
  | cons en rest ih =>
    intro s hu hwf
    rw [List.foldl_cons]
    obtain ⟨hwf2, hfat2⟩ := ih (doBind s esid en.2 en.1 .enumSym)
      (doBind_unsealed_self2 hu en.2 en.1 .enumSym)
      (ParentLt_doBind hwf esid en.2 en.1 .enumSym)
    exact ⟨hwf2, by rw [hfat2, doBind_fatal_of_unsealed hu]⟩

theorem wfFatal_resolveDecl (msid : Nat) (s : PassSt) (dcl : JDecl)
    (hsid : msid < s.store.scopes.length) (hwf : ParentLt s.store) :
    ParentLt (resolveDecl msid s dcl).store ∧
    (resolveDecl msid s dcl).fatal = s.fatal := by
  cases dcl with
  | arch a =>
    rw [resolveDecl]
    have hwf1 : ParentLt (s.store.openScope .architype (some msid)).1 :=
      ParentLt_openScope hwf _ (by intro q hq; injection hq with hq; omega)
    have hu1 := openScope_unsealed_new s.store .architype (some msid)
    obtain ⟨hwf2, hfat2, hu2⟩ := wfFatal_hoistItems
      (s.store.openScope .architype (some msid)).2 a.body
      { s with store := (s.store.openScope .architype (some msid)).1 } hu1 hwf1
    have hlen2 := (stepOK_hoistItems (s.store.openScope .architype (some msid)).2
      a.body { s with store := (s.store.openScope .architype (some msid)).1 }).1
    obtain ⟨hwf3, hfat3⟩ := wfFatal_resolveItems msid
      (s.store.openScope .architype (some msid)).2 a.body
      (hoistItems (s.store.openScope .architype (some msid)).2
        { s with store := (s.store.openScope .architype (some msid)).1 } a.body)
      (by simp only [Store.openScope_fst_length, Store.openScope_snd]
            at hlen2 ⊢
          omega)
      hwf2
    refine ⟨ParentLt_seal hwf3 _, ?_⟩
    show _ = s.fatal
    rw [hfat3, hfat2]
  | enumDecl d n enumerators =>
    rw [resolveDecl]
    have hwf1 : ParentLt (s.store.openScope .architype (some msid)).1 :=
      ParentLt_openScope hwf _ (by intro q hq; injection hq with hq; omega)
    have hu1 := openScope_unsealed_new s.store .architype (some msid)
    obtain ⟨hwf2, hfat2⟩ := wfFatal_enumFold
      (s.store.openScope .architype (some msid)).2 enumerators
      { s with store := (s.store.openScope .architype (some msid)).1 } hu1 hwf1
    refine ⟨ParentLt_seal hwf2 _, ?_⟩
    show _ = s.fatal
    rw [hfat2]

theorem wfFatal_resolveDecls (msid : Nat) :
    ∀ (m : JModule) (s : PassSt), msid < s.store.scopes.length →
      ParentLt s.store →
      ParentLt (resolveDecls msid s m).store ∧
      (resolveDecls msid s m).fatal = s.fatal := by
  intro m
  induction m with
  | nil => intro s _ hwf; exact ⟨hwf, rfl⟩
  | cons dcl rest ih =>
    intro s hsid hwf
    rw [resolveDecls]
    obtain ⟨hwf1, hfat1⟩ := wfFatal_resolveDecl msid s dcl hsid hwf
    have hlen1 := (stepOK_resolveDecl msid s dcl).1
    obtain ⟨hwf2, hfat2⟩ := ih (resolveDecl msid s dcl) (by omega) hwf1
    exact ⟨hwf2, by rw [hfat2, hfat1]⟩

theorem wfFatal_phase1 (msid : Nat) :
    ∀ (m : JModule) (s : PassSt), UnsealedAt s.store msid →
      ParentLt s.store →
      ParentLt (phase1 msid s m).store ∧
      (phase1 msid s m).fatal = s.fatal ∧
      UnsealedAt (phase1 msid s m).store msid := by
  intro m
  induction m with
  | nil => intro s hu hwf; exact ⟨hwf, rfl, hu⟩
  | cons dcl rest ih =>
    intro s hu hwf
    cases dcl with
    | arch a =>
      rw [phase1]
      obtain ⟨hwf2, hfat2, hu2⟩ := ih (doBind s msid a.name a.declId .architypeSym)
        (doBind_unsealed_self2 hu a.name a.declId .architypeSym)
        (ParentLt_doBind hwf msid a.name a.declId .architypeSym)
      exact ⟨hwf2, by rw [hfat2, doBind_fatal_of_unsealed hu], hu2⟩
    | enumDecl d n enumerators =>
      rw [phase1]
      obtain ⟨hwf2, hfat2, hu2⟩ := ih (doBind s msid n d .enumSym)
        (doBind_unsealed_self2 hu n d .enumSym)
        (ParentLt_doBind hwf msid n d .enumSym)
      exact ⟨hwf2, by rw [hfat2, doBind_fatal_of_unsealed hu], hu2⟩

/-- The pass always runs to completion: no input module can drive it
into the fatal (bind-into-sealed-scope) condition, and the store it
builds is parent-decreasing. -/
theorem runPass_no_fatal (m : JModule) :
    (runPass m).fatal = false ∧ ParentLt (runPass m).store := by
  rw [runPass, runPassFrom]
  have hwf0 : ParentLt (Store.mk []) := by
    intro i sc p hi hp
    simp [Store.scope?] at hi
  have hwf1 : ParentLt ((Store.mk []).openScope .module none).1 :=
    ParentLt_openScope hwf0 _ (by intro q hq; exact absurd hq (by simp))
  have hu1 := openScope_unsealed_new (Store.mk []) .module none
  obtain ⟨hwf2, hfat2, hu2⟩ := wfFatal_phase1
    ((Store.mk []).openScope .module none).2 m
    ⟨((Store.mk []).openScope .module none).1, [], [], false⟩ hu1 hwf1
  have hmsid : ((Store.mk []).openScope .module none).2 <
      (phase1 ((Store.mk []).openScope .module none).2
        ⟨((Store.mk []).openScope .module none).1, [], [], false⟩ m).store.scopes.length := by
    obtain ⟨sc, hsc, _⟩ := hu2
    exact Store.scope?_lt hsc
  obtain ⟨hwf3, hfat3⟩ := wfFatal_resolveDecls
    ((Store.mk []).openScope .module none).2 m _ hmsid hwf2
  refine ⟨?_, ParentLt_seal hwf3 _⟩
  show (resolveDecls _ _ m).fatal = false
  rw [hfat3, hfat2]

/-! ### Lookup steps and the phase-1 characterization -/

theorem lookup_local_some {st : Store} {sid : Nat} {sc : Scope} {n : JName}
    {s : JSymbol} (hsc : st.scope? sid = some sc)
    (hl : lookupLocal sc.bindings n = some s) :
    st.lookup sid n = some s := by
  simp [Store.lookup, lookupChain, hsc, hl]

theorem lookup_of_localAt {st : Store} {sid : Nat} {n : JName} {s : JSymbol}
    (h : localAt st sid n = some s) : st.lookup sid n = some s := by
  rw [localAt] at h
  rcases hsc : st.scope? sid with _ | sc
  · rw [hsc] at h
    exact absurd h (by simp)
  · rw [hsc, Option.some_bind] at h
    exact lookup_local_some hsc h

theorem lookup_parent_step {st : Store} (hwf : ParentLt st) {sid : Nat}
    {sc : Scope} {n : JName} (hsc : st.scope? sid = some sc)
    (hl : lookupLocal sc.bindings n = none) {p : Nat}
    (hp : sc.parent = some p) :
    st.lookup sid n = st.lookup p n := by
  have h1 : lookupChain st sid n (sid + 1) = lookupChain st p n sid := by
    simp [lookupChain, hsc, hl, hp]
  rw [Store.lookup, h1]
  exact lookupChain_fuel st hwf n p sid (hwf sid sc p hsc hp)

theorem lookup_root_none {st : Store} {sid : Nat} {sc : Scope} {n : JName}
    (hsc : st.scope? sid = some sc)
    (hl : lookupLocal sc.bindings n = none) (hp : sc.parent = none) :
    st.lookup sid n = none := by
  simp [Store.lookup, lookupChain, hsc, hl, hp]

theorem doBind_localAt_other_name2 {s : PassSt} {sid : Nat} {n m : JName}
    (hnm : n ≠ m) (d : Nat) (k : SymKind) :
    localAt (doBind s sid n d k).store sid m = localAt s.store sid m := by
  rw [doBind]
  rcases hb : s.store.bind sid n d k with e | ⟨st2, sym, dg⟩
  · rfl
  · obtain ⟨sc, hsc, hseal, h1, _, _⟩ := Store.bind_ok_inv hb
    show localAt st2 sid m = _
    rw [h1, localAt, Store.scope?_setScope_self _ (Store.scope?_lt hsc),
      Option.some_bind, lookupLocal_cons_ne _ hnm, localAt, hsc, Option.some_bind]

theorem phase1_cons (msid : Nat) (s : PassSt) (dcl : JDecl) (rest : JModule) :
    phase1 msid s (dcl :: rest) =
      phase1 msid
        (doBind s msid (declName dcl) (declTopId dcl) (declTopKind dcl))
        rest := by
  cases dcl <;> rfl

theorem phase1_localAt_skip (msid : Nat) :
    ∀ (m : JModule) (s : PassSt) (n : JName),
      (∀ dcl ∈ m, declName dcl ≠ n) →
      localAt (phase1 msid s m).store msid n = localAt s.store msid n := by
  intro m
  induction m with
  | nil => intro s n _; rfl
  | cons dcl rest ih =>
    intro s n hne
    rw [phase1_cons, ih _ n (fun d hd => hne d (List.mem_cons_of_mem _ hd)),
      doBind_localAt_other_name2 (hne dcl (List.mem_cons_self _ _)) _ _]

theorem phase1_localAt_found (msid : Nat) :
    ∀ (m : JModule) (s : PassSt) (dcl : JDecl),
      dcl ∈ m → (m.map declName).Nodup → UnsealedAt s.store msid →
      localAt (phase1 msid s m).store msid (declName dcl) =
        some ⟨declName dcl, declTopId dcl, declTopKind dcl, msid⟩ := by
  intro m
  induction m with
  | nil => intro s dcl h; exact absurd h (by simp)
  | cons d0 rest ih =>
    intro s dcl hmem hnodup hu
    rw [List.map_cons, List.nodup_cons] at hnodup
    rcases List.mem_cons.mp hmem with heq | hmem2
    · subst heq
      rw [phase1_cons,
        phase1_localAt_skip msid rest _ (declName dcl) ?_]
      · obtain ⟨sc, hsc, hseal⟩ := hu
        exact doBind_localAt_self hsc hseal _ _ _
      · intro d2 hd2 hcontra
        exact hnodup.1 (by rw [← hcontra]; exact List.mem_map_of_mem _ hd2)
    · rw [phase1_cons]
      have hne : declName d0 ≠ declName dcl := by
        intro hcontra
        exact hnodup.1 (by rw [hcontra]; exact List.mem_map_of_mem _ hmem2)
      exact ih _ dcl hmem2 hnodup.2 (doBind_unsealed_self2 hu _ _ _)

theorem archRefIn_mem_ids {id : Nat} {a : JName} :
    ∀ {e : JExpr}, archRefIn id a e → id ∈ exprIds e := by
  intro e
  induction e with
  | nameUse i n => intro h; exact (h : False).elim
  | archRef i n =>
    intro h
    rw [archRefIn] at h
    simp [exprIds, h.1.symm]
  | filterCompr d v pred ih =>
    intro h
    rw [archRefIn] at h
    simp [exprIds]
    right
    exact ih h

theorem archRefInStmt_mem_ids {id : Nat} {a : JName} :
    ∀ {stt : JStmt}, archRefInStmt id a stt → id ∈ stmtIds stt := by
  intro stt
  cases stt with
  | assign d lhs rhs =>
    intro h
    rw [archRefInStmt] at h
    simp [stmtIds]
    right
    exact archRefIn_mem_ids h
  | exprStmt e =>
    intro h
    rw [archRefInStmt] at h
    exact archRefIn_mem_ids h

theorem archRefInStmts_mem_ids {id : Nat} {a : JName} {body : List JStmt}
    (h : ∃ stt ∈ body, archRefInStmt id a stt) : id ∈ stmtsIds body := by
  obtain ⟨stt, hmem, hocc⟩ := h
  obtain ⟨l1, l2, rfl⟩ := List.append_of_mem hmem
  rw [stmtsIds, List.map_append, List.flatten_append]
  refine List.mem_append_right _ ?_
  rw [List.map_cons, List.flatten_cons]
  exact List.mem_append_left _ (archRefInStmt_mem_ids hocc)

theorem archRefInItem_mem_ids {id : Nat} {a : JName} :
    ∀ {it : ArchItem}, archRefInItem id a it → id ∈ itemIds it := by
  intro it
  cases it with
  | hasVar d n => intro h; exact (h : False).elim
  | ability d n body =>
    intro h
    rw [archRefInItem] at h
    simp [itemIds]
    right
    exact archRefInStmts_mem_ids h

theorem archRefInItems_mem_ids {id : Nat} {a : JName} {items : List ArchItem}
    (h : ∃ it ∈ items, archRefInItem id a it) : id ∈ itemsIds items := by
  obtain ⟨it, hmem, hocc⟩ := h
  obtain ⟨l1, l2, rfl⟩ := List.append_of_mem hmem
  rw [itemsIds, List.map_append, List.flatten_append]
  refine List.mem_append_right _ ?_
  rw [List.map_cons, List.flatten_cons]
  exact List.mem_append_left _ (archRefInItem_mem_ids hocc)

theorem archRefInDecl_mem_ids {id : Nat} {a : JName} :
    ∀ {dcl : JDecl}, archRefInDecl id a dcl → id ∈ declIds dcl := by
  intro dcl
  cases dcl with
  | arch ar =>
    intro h
    rw [archRefInDecl] at h
    simp [declIds]
    right
    exact archRefInItems_mem_ids h
  | enumDecl d n es => intro h; exact (h : False).elim

theorem localAt_lt {st : Store} {i : Nat} {n : JName} {x : JSymbol}
    (h : localAt st i n = some x) : i < st.scopes.length := by
  rw [localAt] at h
  rcases hsc : st.scope? i with _ | sc
  · rw [hsc] at h
    exact absurd h (by simp)
  · exact Store.scope?_lt hsc

theorem archRef_res_expr (msid : Nat) (id : Nat) (a : JName) (symA : JSymbol) :
    ∀ (e : JExpr) (sid : Nat) (s : PassSt),
      archRefIn id a e → (exprIds e).Nodup →
      localAt s.store msid a = some symA →
      (id, ResKind.resolvedTo symA) ∈ (resolveExpr msid sid s e).results ∧
      (∀ dg ∈ (resolveExpr msid sid s e).diags,
        dg ∈ s.diags ∨ dg.site ≠ id) := by
  intro e
  induction e with
  | nameUse i n => intro sid s h; exact (h : False).elim
  | archRef i n =>
    intro sid s h _ hloc
    obtain ⟨hi, hn⟩ := h
    subst hi
    subst hn
    rw [resolveExpr, lookup_of_localAt hloc]
    constructor
    · simp [recordRes]
    · intro dg hdg
      exact .inl hdg
  | filterCompr d v pred ih =>
    intro sid s h hnodup hloc
    rw [archRefIn] at h
    have hnodup2 : d ∉ exprIds pred ∧ (exprIds pred).Nodup := by
      rw [show exprIds (.filterCompr d v pred) = d :: exprIds pred from rfl,
        List.nodup_cons] at hnodup
      exact hnodup
    have hdid : d ≠ id := fun hcontra =>
      hnodup2.1 (hcontra ▸ archRefIn_mem_ids h)
    rw [resolveExpr]
    have hmsidlt : msid < s.store.scopes.length := localAt_lt hloc
    have hloc1 : localAt
        (s.store.openScope .comprehension (some sid)).1 msid a = some symA := by
      rw [localAt, Store.openScope_fst_scope?_ne s.store _ _ (by omega),
        ← hloc, localAt]
    have hloc2 : localAt
        (doBind { s with store := (s.store.openScope .comprehension (some sid)).1 }
          (s.store.openScope .comprehension (some sid)).2 v d .localVar).store
        msid a = some symA := by
      rw [doBind_localAt_other_scope _ _ _ _ _
        (by rw [Store.openScope_snd]; omega) a]
      exact hloc1
    obtain ⟨hres, hdiag⟩ := ih (s.store.openScope .comprehension (some sid)).2
      _ h hnodup2.2 hloc2
    refine ⟨hres, ?_⟩
    intro dg hdg
    rcases hdiag dg hdg with hin | hne
    · rcases doBind_diags
        { s with store := (s.store.openScope .comprehension (some sid)).1 }
        (s.store.openScope .comprehension (some sid)).2 v d .localVar with hd | hd
      · rw [hd] at hin
        exact .inl hin
      · rw [hd] at hin
        rcases List.mem_append.mp hin with h1 | h1
        · exact .inl h1
        · right
          have h2 : dg = ⟨.DuplicateDefinition, v, d⟩ := by simpa using h1
          rw [h2]
          exact hdid
    · exact .inr hne

theorem archRef_res_stmt (msid sid : Nat) (id : Nat) (a : JName)
    (symA : JSymbol) (stt : JStmt) (s : PassSt)
    (hocc : archRefInStmt id a stt) (hnodup : (stmtIds stt).Nodup)
    (hloc : localAt s.store msid a = some symA) :
    (id, ResKind.resolvedTo symA) ∈ (resolveStmt msid sid s stt).results ∧
    (∀ dg ∈ (resolveStmt msid sid s stt).diags,
      dg ∈ s.diags ∨ dg.site ≠ id) := by
  cases stt with
  | assign d lhs rhs =>
    rw [archRefInStmt] at hocc
    have hnodup2 : d ∉ exprIds rhs ∧ (exprIds rhs).Nodup := by
      rw [show stmtIds (.assign d lhs rhs) = d :: exprIds rhs from rfl,
        List.nodup_cons] at hnodup
      exact hnodup
    have hdid : d ≠ id := fun hcontra =>
      hnodup2.1 (hcontra ▸ archRefIn_mem_ids hocc)
    rw [resolveStmt]
    obtain ⟨hres, hdiag⟩ := archRef_res_expr msid id a symA rhs sid s hocc
      hnodup2.2 hloc
    rcases hl : localAt (resolveExpr msid sid s rhs).store sid lhs with _ | sym
    · constructor
      · rw [doBind_results]
        exact hres
      · intro dg hdg
        rcases doBind_diags (resolveExpr msid sid s rhs) sid lhs d .localVar
          with hd | hd
        · rw [hd] at hdg
          exact hdiag dg hdg
        · rw [hd] at hdg
          rcases List.mem_append.mp hdg with h1 | h1
          · exact hdiag dg h1
          · right
            have h2 : dg = ⟨.DuplicateDefinition, lhs, d⟩ := by simpa using h1
            rw [h2]
            exact hdid
    · constructor
      · simp only [recordRes]
        exact List.mem_append_left _ hres
      · intro dg hdg
        exact hdiag dg hdg
  | exprStmt e =>
    rw [archRefInStmt] at hocc
    rw [resolveStmt]
    exact archRef_res_expr msid id a symA e sid s hocc hnodup hloc

theorem archRef_res_stmts (msid sid : Nat) (id : Nat) (a : JName)
    (symA : JSymbol) (hms : msid ≠ sid) :
    ∀ (body : List JStmt) (s : PassSt),
      (∃ stt ∈ body, archRefInStmt id a stt) → (stmtsIds body).Nodup →
      localAt s.store msid a = some symA →
      (id, ResKind.resolvedTo symA) ∈ (resolveStmts msid sid s body).results ∧
      (∀ dg ∈ (resolveStmts msid sid s body).diags,
        dg ∈ s.diags ∨ dg.site ≠ id) := by
  intro body
  induction body with
  | nil => intro s h; exact absurd h (by simp)
  | cons stt rest ih =>
    intro s hocc hnodup hloc
    rw [stmtsIds_cons, List.nodup_append] at hnodup
    rw [resolveStmts]
    rcases hocc with ⟨stt2, hmem, hocc2⟩
    rcases List.mem_cons.mp hmem with heq | hmem2
    · subst heq
      obtain ⟨hres, hdiag⟩ := archRef_res_stmt msid sid id a symA stt2 s hocc2
        hnodup.1 hloc
      have hstep := stepOK_resolveStmts msid sid rest (resolveStmt msid sid s stt2)
      refine ⟨hstep.results_mem hres, ?_⟩
      intro dg hdg
      obtain ⟨_, _, ⟨l, hl, hsites⟩, _⟩ := hstep
      rw [hl] at hdg
      rcases List.mem_append.mp hdg with h1 | h1
      · exact hdiag dg h1
      · right
        intro hcontra
        have hid_in : id ∈ stmtsIds rest := hcontra ▸ hsites dg h1
        exact hnodup.2.2 (archRefInStmt_mem_ids hocc2) hid_in
    · have hstep1 := stepOK_resolveStmt msid sid s stt
      have hloc1 : localAt (resolveStmt msid sid s stt).store msid a
          = some symA := by
        rw [hstep1.localAt_keep (localAt_lt hloc) hms a]
        exact hloc
      obtain ⟨hres, hdiag⟩ := ih (resolveStmt msid sid s stt)
        ⟨stt2, hmem2, hocc2⟩ hnodup.2.1 hloc1
      refine ⟨hres, ?_⟩
      intro dg hdg
      rcases hdiag dg hdg with h1 | h1
      · obtain ⟨_, _, ⟨l, hl, hsites⟩, _⟩ := hstep1
        rw [hl] at h1
        rcases List.mem_append.mp h1 with h2 | h2
        · exact .inl h2
        · right
          intro hcontra
          have hid_in : id ∈ stmtIds stt := hcontra ▸ hsites dg h2
          exact hnodup.2.2 hid_in (archRefInStmts_mem_ids ⟨stt2, hmem2, hocc2⟩)
      · exact .inr h1

theorem itemTopId_mem (it : ArchItem) : itemTopId it ∈ itemIds it := by
  cases it <;> simp [itemTopId, itemIds]

theorem declTopId_mem (dcl : JDecl) : declTopId dcl ∈ declIds dcl := by
  cases dcl <;> simp [declTopId, declIds]

theorem hoistItems_cons (asid : Nat) (s : PassSt) (it : ArchItem)
    (rest : List ArchItem) :
    hoistItems asid s (it :: rest) =
      hoistItems asid
        (doBind s asid (itemName it) (itemTopId it) (itemSymKind it)) rest := by
  cases it <;> rfl

theorem hoist_diag_sites_ne (asid : Nat) (id : Nat) (a : JName) :
    ∀ (items : List ArchItem) (s : PassSt),
      (itemsIds items).Nodup →
      (∃ it ∈ items, archRefInItem id a it) →
      ∀ dg ∈ (hoistItems asid s items).diags, dg ∈ s.diags ∨ dg.site ≠ id := by
  intro items
  induction items with
  | nil => intro s _ h; exact absurd h (by simp)
  | cons it0 rest ih =>
    intro s hnodup hocc dg hdg
    rw [itemsIds_cons, List.nodup_append] at hnodup
    have htop : itemTopId it0 ≠ id := by
      rcases hocc with ⟨it, hmem, hocc2⟩
      rcases List.mem_cons.mp hmem with heq | hmem2
      · subst heq
        cases it with
        | hasVar d n => exact (hocc2 : False).elim
        | ability d n body =>
          rw [archRefInItem] at hocc2
          have h1 : id ∈ stmtsIds body := archRefInStmts_mem_ids hocc2
          have h2 := hnodup.1
          rw [show itemIds (.ability d n body) = d :: stmtsIds body from rfl,
            List.nodup_cons] at h2
          intro hcontra
          have hcontra2 : d = id := hcontra
          rw [hcontra2] at h2
          exact h2.1 h1
      · intro hcontra
        exact hnodup.2.2 (itemTopId_mem it0)
          (by rw [hcontra]
              exact archRefInItems_mem_ids ⟨it, hmem2, hocc2⟩)
    rw [hoistItems_cons] at hdg
    rcases hocc with ⟨it, hmem, hocc2⟩
    rcases List.mem_cons.mp hmem with heq | hmem2
    · subst heq
      -- the occurrence is in the head item; the tail may still emit
      -- duplicate diagnostics, whose sites lie in the tail's ids
      have hstep := stepOK_hoistItems asid rest (doBind s asid (itemName it) (itemTopId it) (itemSymKind it))
      obtain ⟨_, _, ⟨l, hl, hsites⟩, _⟩ := hstep
      rw [hl] at hdg
      rcases List.mem_append.mp hdg with h1 | h1
      · rcases doBind_diags s asid (itemName it) (itemTopId it) (itemSymKind it) with hd | hd
        · rw [hd] at h1
          exact .inl h1
        · rw [hd] at h1
          rcases List.mem_append.mp h1 with h2 | h2
          · exact .inl h2
          · right
            have h3 : dg.site = itemTopId it := by
              have : dg = ⟨.DuplicateDefinition, itemName it, itemTopId it⟩ := by
                simpa using h2
              rw [this]
            rw [h3]
            exact htop
      · right
        intro hcontra
        have hid2 : id ∈ itemsIds rest := hcontra ▸ hsites dg h1
        cases it with
        | hasVar d n => exact (hocc2 : False).elim
        | ability d n body =>
          rw [archRefInItem] at hocc2
          exact hnodup.2.2
            (by rw [show itemIds (.ability d n body) = d :: stmtsIds body from rfl]
                exact List.mem_cons_of_mem _ (archRefInStmts_mem_ids hocc2))
            hid2
    · have hstep := stepOK_hoistItems asid rest (doBind s asid (itemName it0) (itemTopId it0) (itemSymKind it0))
      have := ih (doBind s asid (itemName it0) (itemTopId it0) (itemSymKind it0)) hnodup.2.1
        ⟨it, hmem2, hocc2⟩ dg hdg
      rcases this with h1 | h1
      · rcases doBind_diags s asid (itemName it0) (itemTopId it0) (itemSymKind it0) with hd | hd
        · rw [hd] at h1
          exact .inl h1
        · rw [hd] at h1
          rcases List.mem_append.mp h1 with h2 | h2
          · exact .inl h2
          · right
            have h3 : dg.site = itemTopId it0 := by
              have : dg = ⟨.DuplicateDefinition, itemName it0, itemTopId it0⟩ := by
                simpa using h2
              rw [this]
            rw [h3]
            exact htop
      · exact .inr h1

theorem phase1_diag_sites_ne (msid : Nat) (id : Nat) (a : JName) :
    ∀ (m : JModule) (s : PassSt),
      (modIds m).Nodup →
      (∃ dcl ∈ m, archRefInDecl id a dcl) →
      ∀ dg ∈ (phase1 msid s m).diags, dg ∈ s.diags ∨ dg.site ≠ id := by
  intro m
  induction m with
  | nil => intro s _ h; exact absurd h (by simp)
  | cons d0 rest ih =>
    intro s hnodup hocc dg hdg
    rw [modIds_cons, List.nodup_append] at hnodup
    have htop : declTopId d0 ≠ id := by
      rcases hocc with ⟨dcl, hmem, hocc2⟩
      rcases List.mem_cons.mp hmem with heq | hmem2
      · subst heq
        cases dcl with
        | arch ar =>
          rw [archRefInDecl] at hocc2
          have h1 : id ∈ itemsIds ar.body := archRefInItems_mem_ids hocc2
          have h2 := hnodup.1
          rw [show declIds (.arch ar) = ar.declId :: itemsIds ar.body from rfl,
            List.nodup_cons] at h2
          intro hcontra
          have hcontra2 : ar.declId = id := hcontra
          rw [hcontra2] at h2
          exact h2.1 h1
        | enumDecl d n es => exact (hocc2 : False).elim
      · intro hcontra
        exact hnodup.2.2 (declTopId_mem d0)
          (by rw [hcontra]
              obtain ⟨l1, l2, rfl⟩ := List.append_of_mem hmem2
              rw [modIds, List.map_append, List.flatten_append]
              refine List.mem_append_right _ ?_
              rw [List.map_cons, List.flatten_cons]
              exact List.mem_append_left _ (archRefInDecl_mem_ids hocc2))
    rw [phase1_cons] at hdg
    rcases hocc with ⟨dcl, hmem, hocc2⟩
    rcases List.mem_cons.mp hmem with heq | hmem2
    · subst heq
      have hstep := stepOK_phase1 msid rest
        (doBind s msid (declName dcl) (declTopId dcl) (declTopKind dcl))
      obtain ⟨_, _, ⟨l, hl, hsites⟩, _⟩ := hstep
      rw [hl] at hdg
      rcases List.mem_append.mp hdg with h1 | h1
      · rcases doBind_diags s msid (declName dcl) (declTopId dcl) (declTopKind dcl)
          with hd | hd
        · rw [hd] at h1
          exact .inl h1
        · rw [hd] at h1
          rcases List.mem_append.mp h1 with h2 | h2
          · exact .inl h2
          · right
            have h3 : dg.site = declTopId dcl := by
              have : dg = ⟨.DuplicateDefinition, declName dcl, declTopId dcl⟩ := by
                simpa using h2
              rw [this]
            rw [h3]
            exact htop
      · right
        intro hcontra
        have hid2 : id ∈ List.map declTopId rest := hcontra ▸ hsites dg h1
        -- the id of a use site inside the head declaration cannot be a
        -- top declaration id of the tail
        have hid3 : id ∈ declIds dcl := archRefInDecl_mem_ids hocc2
        refine hnodup.2.2 hid3 ?_
        obtain ⟨d2, hd2mem, hd2eq⟩ := List.mem_map.mp hid2
        obtain ⟨l1, l2, rfl⟩ := List.append_of_mem hd2mem
        rw [modIds, List.map_append, List.flatten_append]
        refine List.mem_append_right _ ?_
        rw [List.map_cons, List.flatten_cons]
        exact List.mem_append_left _ (hd2eq ▸ declTopId_mem d2)
    · have := ih (doBind s msid (declName d0) (declTopId d0) (declTopKind d0))
        hnodup.2.1 ⟨dcl, hmem2, hocc2⟩ dg hdg
      rcases this with h1 | h1
      · rcases doBind_diags s msid (declName d0) (declTopId d0) (declTopKind d0)
          with hd | hd
        · rw [hd] at h1
          exact .inl h1
        · rw [hd] at h1
          rcases List.mem_append.mp h1 with h2 | h2
          · exact .inl h2
          · right
            have h3 : dg.site = declTopId d0 := by
              have : dg = ⟨.DuplicateDefinition, declName d0, declTopId d0⟩ := by
                simpa using h2
              rw [this]
            rw [h3]
            exact htop
      · exact .inr h1

theorem archRef_res_items (msid asid : Nat) (id : Nat) (a : JName)
    (symA : JSymbol) :
    ∀ (items : List ArchItem) (s : PassSt),
      (∃ it ∈ items, archRefInItem id a it) → (itemsIds items).Nodup →
      localAt s.store msid a = some symA →
      (id, ResKind.resolvedTo symA) ∈ (resolveItems msid asid s items).results ∧
      (∀ dg ∈ (resolveItems msid asid s items).diags,
        dg ∈ s.diags ∨ dg.site ≠ id) := by
  intro items
  induction items with
  | nil => intro s h; exact absurd h (by simp)
  | cons it0 rest ih =>
    intro s hocc hnodup hloc
    rw [itemsIds_cons, List.nodup_append] at hnodup
    rcases hocc with ⟨it, hmem, hocc2⟩
    rcases List.mem_cons.mp hmem with heq | hmem2
    · subst heq
      cases it with
      | hasVar d n => exact (hocc2 : False).elim
      | ability d f body =>
        rw [resolveItems, archRefInItem] at *
        have hnodup_body : (stmtsIds body).Nodup := by
          have h2 := hnodup.1
          rw [show itemIds (.ability d f body) = d :: stmtsIds body from rfl,
            List.nodup_cons] at h2
          exact h2.2
        have hmsidlt : msid < s.store.scopes.length := localAt_lt hloc
        have hloc1 : localAt
            (s.store.openScope .ability (some asid)).1 msid a = some symA := by
          rw [localAt, Store.openScope_fst_scope?_ne s.store _ _ (by omega),
            ← hloc, localAt]
        have hms : msid ≠ (s.store.openScope .ability (some asid)).2 := by
          rw [Store.openScope_snd]
          omega
        obtain ⟨hres, hdiag⟩ := archRef_res_stmts msid
          (s.store.openScope .ability (some asid)).2 id a symA hms body
          { s with store := (s.store.openScope .ability (some asid)).1 }
          hocc2 hnodup_body hloc1
        have hstep := stepOK_resolveItems msid asid rest
          { resolveStmts msid (s.store.openScope .ability (some asid)).2
              { s with store := (s.store.openScope .ability (some asid)).1 } body
            with store := (resolveStmts msid
              (s.store.openScope .ability (some asid)).2
              { s with store := (s.store.openScope .ability (some asid)).1 }
              body).store.seal (s.store.openScope .ability (some asid)).2 }
        refine ⟨hstep.results_mem hres, ?_⟩
        intro dg hdg
        obtain ⟨_, _, ⟨l, hl, hsites⟩, _⟩ := hstep
        rw [hl] at hdg
        rcases List.mem_append.mp hdg with h1 | h1
        · exact hdiag dg h1
        · right
          intro hcontra
          refine hnodup.2.2 ?_ (hcontra ▸ hsites dg h1)
          rw [show itemIds (.ability d f body) = d :: stmtsIds body from rfl]
          exact List.mem_cons_of_mem _ (archRefInStmts_mem_ids hocc2)
    · cases it0 with
      | hasVar d n =>
        rw [resolveItems]
        exact ih s ⟨it, hmem2, hocc2⟩ hnodup.2.1 hloc
      | ability d f body =>
        rw [resolveItems]
        have hmsidlt : msid < s.store.scopes.length := localAt_lt hloc
        have hstep := stepOK_scoped s .ability (some asid) _ _ _
          (stepOK_resolveStmts msid (s.store.openScope .ability (some asid)).2
            body { s with store := (s.store.openScope .ability (some asid)).1 })
          (by intro j hj
              rw [Store.openScope_snd]
              omega)
        have hloc1 := (hstep.localAt_keep hmsidlt trivial a).trans hloc
        obtain ⟨hres, hdiag⟩ := ih _ ⟨it, hmem2, hocc2⟩ hnodup.2.1 hloc1
        refine ⟨hres, ?_⟩
        intro dg hdg
        rcases hdiag dg hdg with h1 | h1
        · obtain ⟨_, _, ⟨l, hl, hsites⟩, _⟩ := hstep
          rw [hl] at h1
          rcases List.mem_append.mp h1 with h2 | h2
          · exact .inl h2
          · right
            intro hcontra
            refine hnodup.2.2 ?_ (archRefInItems_mem_ids ⟨it, hmem2, hocc2⟩)
            rw [show itemIds (.ability d f body) = d :: stmtsIds body from rfl]
            exact List.mem_cons_of_mem _ (hcontra ▸ hsites dg h2)
        · exact .inr h1

theorem archRef_res_decls (msid : Nat) (id : Nat) (a : JName) (symA : JSymbol) :
    ∀ (m : JModule) (s : PassSt),
      (∃ dcl ∈ m, archRefInDecl id a dcl) → (modIds m).Nodup →
      localAt s.store msid a = some symA →
      (id, ResKind.resolvedTo symA) ∈ (resolveDecls msid s m).results ∧
      (∀ dg ∈ (resolveDecls msid s m).diags, dg ∈ s.diags ∨ dg.site ≠ id) := by
  intro m
  induction m with
  | nil => intro s h; exact absurd h (by simp)
  | cons d0 rest ih =>
    intro s hocc hnodup hloc
    rw [modIds_cons, List.nodup_append] at hnodup
    rcases hocc with ⟨dcl, hmem, hocc2⟩
    rcases List.mem_cons.mp hmem with heq | hmem2
    · subst heq
      cases dcl with
      | enumDecl d n es => exact (hocc2 : False).elim
      | arch ar =>
        rw [resolveDecls, resolveDecl, archRefInDecl] at *
        have hmsidlt : msid < s.store.scopes.length := localAt_lt hloc
        have hnodup_items : (itemsIds ar.body).Nodup := by
          have h2 := hnodup.1
          rw [show declIds (.arch ar) = ar.declId :: itemsIds ar.body from rfl,
            List.nodup_cons] at h2
          exact h2.2
        have hms : msid ≠ (s.store.openScope .architype (some msid)).2 := by
          rw [Store.openScope_snd]
          omega
        have hloc1 : localAt
            (s.store.openScope .architype (some msid)).1 msid a = some symA := by
          rw [localAt, Store.openScope_fst_scope?_ne s.store _ _ (by omega),
            ← hloc, localAt]
        -- hoisting leaves the module scope alone
        have hhoist := stepOK_hoistItems (s.store.openScope .architype (some msid)).2
          ar.body { s with store := (s.store.openScope .architype (some msid)).1 }
        have hloc2 : localAt (hoistItems (s.store.openScope .architype (some msid)).2
            { s with store := (s.store.openScope .architype (some msid)).1 }
            ar.body).store msid a = some symA := by
          rw [hhoist.localAt_keep (by rw [Store.openScope_fst_length]; omega)
            hms a]
          exact hloc1
        obtain ⟨hres, hdiag⟩ := archRef_res_items msid
          (s.store.openScope .architype (some msid)).2 id a symA ar.body _
          hocc2 hnodup_items hloc2
        have hitems := stepOK_resolveItems msid
          (s.store.openScope .architype (some msid)).2 ar.body
          (hoistItems (s.store.openScope .architype (some msid)).2
            { s with store := (s.store.openScope .architype (some msid)).1 }
            ar.body)
        have hrest := stepOK_resolveDecls msid rest
          { resolveItems msid (s.store.openScope .architype (some msid)).2
              (hoistItems (s.store.openScope .architype (some msid)).2
                { s with store := (s.store.openScope .architype (some msid)).1 }
                ar.body) ar.body
            with store := ((resolveItems msid
              (s.store.openScope .architype (some msid)).2
              (hoistItems (s.store.openScope .architype (some msid)).2
                { s with store := (s.store.openScope .architype (some msid)).1 }
                ar.body) ar.body).store.seal
              (s.store.openScope .architype (some msid)).2) }
        refine ⟨hrest.results_mem hres, ?_⟩
        intro dg hdg
        obtain ⟨_, _, ⟨l, hl, hsites⟩, _⟩ := hrest
        rw [hl] at hdg
        rcases List.mem_append.mp hdg with h1 | h1
        · rcases hdiag dg h1 with h2 | h2
          · -- a diagnostic of the hoisting step
            rcases hoist_diag_sites_ne (s.store.openScope .architype (some msid)).2
              id a ar.body
              { s with store := (s.store.openScope .architype (some msid)).1 }
              hnodup_items hocc2 dg h2 with h3 | h3
            · exact .inl h3
            · exact .inr h3
          · exact .inr h2
        · right
          intro hcontra
          refine hnodup.2.2 ?_ (hcontra ▸ hsites dg h1)
          exact archRefInDecl_mem_ids hocc2
    · rw [resolveDecls]
      have hmsidlt : msid < s.store.scopes.length := localAt_lt hloc
      have hstep := stepOK_resolveDecl msid s d0
      have hloc1 := (hstep.localAt_keep hmsidlt trivial a).trans hloc
      obtain ⟨hres, hdiag⟩ := ih _ ⟨dcl, hmem2, hocc2⟩ hnodup.2.1 hloc1
      refine ⟨hres, ?_⟩
      intro dg hdg
      rcases hdiag dg hdg with h1 | h1
      · obtain ⟨_, _, ⟨l, hl, hsites⟩, _⟩ := hstep
        rw [hl] at h1
        rcases List.mem_append.mp h1 with h2 | h2
        · exact .inl h2
        · right
          intro hcontra
          exact hnodup.2.2 (hcontra ▸ hsites dg h2)
            (by obtain ⟨l1, l2, rfl⟩ := List.append_of_mem hmem2
                rw [modIds, List.map_append, List.flatten_append]
                refine List.mem_append_right _ ?_
                rw [List.map_cons, List.flatten_cons]
                exact List.mem_append_left _ (archRefInDecl_mem_ids hocc2))
      · exact .inr h1

/-- C1: in every module whose top-level declaration names are distinct
and whose node ids are distinct, an `ArchRef` occurring anywhere in any
architype body and naming a top-level architype `A` — declared anywhere
in the module, in particular textually after the referencing architype —
resolves to `A`'s symbol (bound into the module scope by the phase-1
pre-scan before phase 2 runs), and no diagnostic is attached to that
reference site. -/
theorem claim_C1_forward_reference (m : JModule) (id : Nat) (a : JName)
    (A : JArchitype)
    (hA : JDecl.arch A ∈ m) (hname : A.name = a)
    (hnames : (m.map declName).Nodup)
    (hids : (modIds m).Nodup)
    (hocc : archRefInModule id a m) :
    (id, ResKind.resolvedTo ⟨a, A.declId, .architypeSym, 0⟩)
      ∈ (runPass m).results ∧
    ∀ dg ∈ (runPass m).diags, dg.site ≠ id := by
  rw [runPass, runPassFrom]
  have hms0 : ((Store.mk []).openScope .module none).2 = 0 := rfl
  have hu0 : UnsealedAt
      (⟨((Store.mk []).openScope .module none).1, [], [], false⟩ : PassSt).store
      ((Store.mk []).openScope .module none).2 :=
    openScope_unsealed_new (Store.mk []) .module none
  have hloc := phase1_localAt_found ((Store.mk []).openScope .module none).2 m
    ⟨((Store.mk []).openScope .module none).1, [], [], false⟩ (.arch A) hA
    hnames hu0
  rw [show declName (.arch A) = A.name from rfl, hname] at hloc
  rw [show declTopId (.arch A) = A.declId from rfl] at hloc
  rw [show declTopKind (.arch A) = .architypeSym from rfl] at hloc
  rw [hms0] at hloc
  obtain ⟨hres, hdiag⟩ := archRef_res_decls 0 id a
    ⟨a, A.declId, .architypeSym, 0⟩ m
    (phase1 ((Store.mk []).openScope .module none).2
      ⟨((Store.mk []).openScope .module none).1, [], [], false⟩ m)
    hocc hids hloc
  constructor
  · show (id, _) ∈ (resolveDecls _ _ m).results
    rw [hms0] at hres ⊢
    exact hres
  · intro dg hdg
    have hdg2 : dg ∈ (resolveDecls 0
        (phase1 ((Store.mk []).openScope .module none).2
          ⟨((Store.mk []).openScope .module none).1, [], [], false⟩ m) m).diags := by
      rw [← hms0]
      exact hdg
    rcases hdiag dg hdg2 with h1 | h1
    · rcases phase1_diag_sites_ne ((Store.mk []).openScope .module none).2 id a m
        ⟨((Store.mk []).openScope .module none).1, [], [], false⟩ hids hocc dg h1
        with h2 | h2
      · exact absurd h2 (by simp)
      · exact h2
    · exact h1

/-- Concrete instantiation of C1: `B` is declared before `A` and its
ability body references `A`; the reference resolves to `A`'s module
symbol with no diagnostic at the reference site. -/
theorem claim_C1_forward_reference_witness :
    JDecl.arch ⟨4, "A", .node, []⟩ ∈ c1module ∧
    (c1module.map declName).Nodup ∧
    (modIds c1module).Nodup ∧
    archRefInModule 3 "A" c1module ∧
    ((3, ResKind.resolvedTo ⟨"A", 4, .architypeSym, 0⟩)
      ∈ (runPass c1module).results ∧
    ∀ dg ∈ (runPass c1module).diags, dg.site ≠ 3) :=
  ⟨by decide, by decide, by decide,
   by simp [archRefInModule, archRefInDecl, archRefInItem, archRefInStmt,
     archRefIn, c1module],
   claim_C1_forward_reference c1module 3 "A" ⟨4, "A", .node, []⟩
     (by decide) rfl (by decide) (by decide)
     (by simp [archRefInModule, archRefInDecl, archRefInItem, archRefInStmt,
       archRefIn, c1module])⟩

/-! ### Hoisted member binding (claim C2) -/

theorem resolveStmts_append (msid sid : Nat) :
    ∀ (l1 l2 : List JStmt) (s : PassSt),
      resolveStmts msid sid s (l1 ++ l2) =
        resolveStmts msid sid (resolveStmts msid sid s l1) l2 := by
  intro l1
  induction l1 with
  | nil => intro l2 s; rfl
  | cons stt rest ih =>
    intro l2 s
    rw [List.cons_append, resolveStmts, resolveStmts, ih]

theorem resolveItems_append (msid asid : Nat) :
    ∀ (l1 l2 : List ArchItem) (s : PassSt),
      resolveItems msid asid s (l1 ++ l2) =
        resolveItems msid asid (resolveItems msid asid s l1) l2 := by
  intro l1
  induction l1 with
  | nil => intro l2 s; rfl
  | cons it rest ih =>
    intro l2 s
    cases it with
    | hasVar d n => rw [List.cons_append, resolveItems, resolveItems, ih]
    | ability d n body => rw [List.cons_append, resolveItems, resolveItems, ih]

theorem resolveDecls_append (msid : Nat) :
    ∀ (l1 l2 : JModule) (s : PassSt),
      resolveDecls msid s (l1 ++ l2) =
        resolveDecls msid (resolveDecls msid s l1) l2 := by
  intro l1
  induction l1 with
  | nil => intro l2 s; rfl
  | cons dcl rest ih =>
    intro l2 s
    rw [List.cons_append, resolveDecls, resolveDecls, ih]

theorem doBind_AbsFact {s : PassSt} {sid : Nat} {par : Option Nat} {x n : JName}
    (hnx : n ≠ x) (d : Nat) (k : SymKind)
    (h : AbsFact s.store sid par x) :
    AbsFact (doBind s sid n d k).store sid par x := by
  obtain ⟨sc, hsc, hp, hx, hseal⟩ := h
  rw [doBind, Store.bind_eq_ok hsc hseal n d k]
  exact ⟨_, Store.scope?_setScope_self _ (Store.scope?_lt hsc), hp,
    by rw [lookupLocal_cons_ne _ hnx]; exact hx, hseal⟩

theorem AbsFact_of_scope?_eq {st st2 : Store} {sid : Nat} {par : Option Nat}
    {x : JName}
    (heq : st2.scope? sid = st.scope? sid) (h : AbsFact st sid par x) :
    AbsFact st2 sid par x := by
  obtain ⟨sc, hsc, hp, hx, hseal⟩ := h
  exact ⟨sc, heq.trans hsc, hp, hx, hseal⟩

theorem resolveStmt_AbsFact {msid sid : Nat} {par : Option Nat} {x : JName}
    {stt : JStmt}
    {s : PassSt} (hna : ¬ stmtAssigns stt x)
    (h : AbsFact s.store sid par x) :
    AbsFact (resolveStmt msid sid s stt).store sid par x := by
  have hlt : sid < s.store.scopes.length := by
    obtain ⟨sc, hsc, _⟩ := h
    exact Store.scope?_lt hsc
  cases stt with
  | assign d lhs rhs =>
    rw [resolveStmt]
    have h1 : AbsFact (resolveExpr msid sid s rhs).store sid par x :=
      AbsFact_of_scope?_eq
        ((stepOK_resolveExpr msid rhs sid s).scope?_keep hlt trivial) h
    have hlx : lhs ≠ x := hna
    rcases hl : localAt (resolveExpr msid sid s rhs).store sid lhs with _ | sym
    · exact doBind_AbsFact hlx d .localVar h1
    · exact h1
  | exprStmt e =>
    rw [resolveStmt]
    exact AbsFact_of_scope?_eq
      ((stepOK_resolveExpr msid e sid s).scope?_keep hlt trivial) h

theorem hoistItems_localAt_skip (asid : Nat) :
    ∀ (items : List ArchItem) (s : PassSt) (n : JName),
      (∀ it ∈ items, itemName it ≠ n) →
      localAt (hoistItems asid s items).store asid n = localAt s.store asid n := by
  intro items
  induction items with
  | nil => intro s n _; rfl
  | cons it rest ih =>
    intro s n hne
    rw [hoistItems_cons, ih _ n (fun it2 h2 => hne it2 (List.mem_cons_of_mem _ h2)),
      doBind_localAt_other_name2 (hne it (List.mem_cons_self _ _)) _ _]

theorem hoistItems_localAt_found (asid : Nat) :
    ∀ (items : List ArchItem) (s : PassSt) (it : ArchItem),
      it ∈ items → (items.map itemName).Nodup → UnsealedAt s.store asid →
      localAt (hoistItems asid s items).store asid (itemName it) =
        some ⟨itemName it, itemTopId it, itemSymKind it, asid⟩ := by
  intro items
  induction items with
  | nil => intro s it h; exact absurd h (by simp)
  | cons it0 rest ih =>
    intro s it hmem hnodup hu
    rw [List.map_cons, List.nodup_cons] at hnodup
    rcases List.mem_cons.mp hmem with heq | hmem2
    · subst heq
      rw [hoistItems_cons,
        hoistItems_localAt_skip asid rest _ (itemName it) ?_]
      · obtain ⟨sc, hsc, hseal⟩ := hu
        exact doBind_localAt_self hsc hseal _ _ _
      · intro it2 h2 hcontra
        exact hnodup.1 (by rw [← hcontra]; exact List.mem_map_of_mem _ h2)
    · rw [hoistItems_cons]
      exact ih _ it hmem2 hnodup.2 (doBind_unsealed_self2 hu _ _ _)

theorem hasvar_use_resolved_stmts (msid sid asid : Nat) (x : JName) (id : Nat)
    (symX : JSymbol) (stmts2 : List JStmt) (hms : asid ≠ sid) :
    ∀ (stmts1 : List JStmt) (s : PassSt),
      (∀ stt ∈ stmts1, ¬ stmtAssigns stt x) →
      AbsFact s.store sid (some asid) x →
      localAt s.store asid x = some symX →
      ParentLt s.store →
      (id, ResKind.resolvedTo symX) ∈
        (resolveStmts msid sid s
          (stmts1 ++ .exprStmt (.nameUse id x) :: stmts2)).results := by
  intro stmts1
  induction stmts1 with
  | nil =>
    intro s _ habs hloc hwf
    obtain ⟨sc, hsc, hp, hx, hseal⟩ := habs
    rw [List.nil_append, resolveStmts, resolveStmt, resolveExpr]
    have hlk : s.store.lookup sid x = some symX := by
      rw [lookup_parent_step hwf hsc hx hp]
      exact lookup_of_localAt hloc
    rw [hlk]
    refine (stepOK_resolveStmts msid sid stmts2 _).results_mem ?_
    simp [recordRes]
  | cons stt rest ih =>
    intro s hna habs hloc hwf
    rw [List.cons_append, resolveStmts]
    have hu : UnsealedAt s.store sid := by
      obtain ⟨sc, hsc, _, _, hseal⟩ := habs
      exact ⟨sc, hsc, hseal⟩
    obtain ⟨hwf1, _, _⟩ := wfFatal_resolveStmt msid sid s stt hu hwf
    refine ih _ (fun t ht => hna t (List.mem_cons_of_mem _ ht))
      (resolveStmt_AbsFact (hna stt (List.mem_cons_self _ _)) habs) ?_ hwf1
    rw [(stepOK_resolveStmt msid sid s stt).localAt_keep (localAt_lt hloc) hms x]
    exact hloc

/-- C2: a has-var referenced (as a statement-level name use) inside an
ability body that occurs textually before the has-var's own declaration
within the same architype resolves to the has-var's symbol, because
`enter_architype` hoist-binds every member name into the architype scope
before any ability body is resolved; the only provisos are that member
names are distinct and that no earlier statement of the ability body
shadows the name with a local assignment. -/
theorem claim_C2_hoisted_hasvar (m : JModule) (A : JArchitype)
    (items1 items2 items3 : List ArchItem) (da : Nat) (f : JName)
    (body : List JStmt) (d : Nat) (x : JName)
    (stmts1 stmts2 : List JStmt) (id : Nat)
    (hA : JDecl.arch A ∈ m)
    (hbody : A.body = items1
      ++ (.ability da f body :: (items2 ++ (.hasVar d x :: items3))))
    (hbodysplit : body = stmts1 ++ .exprStmt (.nameUse id x) :: stmts2)
    (hnoassign : ∀ stt ∈ stmts1, ¬ stmtAssigns stt x)
    (hmembers : (A.body.map itemName).Nodup) :
    ∃ asid, (id, ResKind.resolvedTo ⟨x, d, .hasVar, asid⟩)
      ∈ (runPass m).results := by
  obtain ⟨m1, m2, rfl⟩ := List.append_of_mem hA
  rw [runPass, runPassFrom]
  -- the state after the phase-1 pre-scan
  have hu0 : UnsealedAt
      (⟨((Store.mk []).openScope .module none).1, [], [], false⟩ : PassSt).store
      ((Store.mk []).openScope .module none).2 :=
    openScope_unsealed_new (Store.mk []) .module none
  have hwf0 : ParentLt (Store.mk []) := by
    intro i sc p hi hp
    simp [Store.scope?] at hi
  obtain ⟨hwf1, _, hu1⟩ := wfFatal_phase1 ((Store.mk []).openScope .module none).2
    (m1 ++ JDecl.arch A :: m2)
    ⟨((Store.mk []).openScope .module none).1, [], [], false⟩ hu0
    (ParentLt_openScope hwf0 _ (by intro q hq; exact absurd hq (by simp)))
  have hmsidlt : ((Store.mk []).openScope .module none).2 <
      (phase1 ((Store.mk []).openScope .module none).2
        ⟨((Store.mk []).openScope .module none).1, [], [], false⟩
        (m1 ++ JDecl.arch A :: m2)).store.scopes.length := by
    obtain ⟨sc, hsc, _⟩ := hu1
    exact Store.scope?_lt hsc
  rw [resolveDecls_append]
  -- the state just before the containing architype
  obtain ⟨hwf2, _⟩ := wfFatal_resolveDecls ((Store.mk []).openScope .module none).2
    m1 _ hmsidlt hwf1
  have hmsidlt2 := Nat.lt_of_lt_of_le hmsidlt
    (stepOK_resolveDecls ((Store.mk []).openScope .module none).2 m1 _).1
  rw [resolveDecls, resolveDecl]
  -- open the architype scope and hoist
  set sPre := resolveDecls ((Store.mk []).openScope .module none).2
    (phase1 ((Store.mk []).openScope .module none).2
      ⟨((Store.mk []).openScope .module none).1, [], [], false⟩
      (m1 ++ JDecl.arch A :: m2)) m1 with hsPre
  set asid := (sPre.store.openScope .architype
    (some ((Store.mk []).openScope .module none).2)).2 with hasid
  have huA : UnsealedAt (sPre.store.openScope .architype
      (some ((Store.mk []).openScope .module none).2)).1 asid :=
    openScope_unsealed_new sPre.store .architype _
  have hwfA : ParentLt (sPre.store.openScope .architype
      (some ((Store.mk []).openScope .module none).2)).1 :=
    ParentLt_openScope hwf2 _ (by intro q hq; injection hq with hq; omega)
  have hmemx : (ArchItem.hasVar d x) ∈ A.body := by
    rw [hbody]
    simp
  have hloc := hoistItems_localAt_found asid A.body
    { sPre with store := (sPre.store.openScope .architype
        (some ((Store.mk []).openScope .module none).2)).1 }
    (.hasVar d x) hmemx hmembers huA
  rw [show itemName (.hasVar d x) = x from rfl,
    show itemTopId (.hasVar d x) = d from rfl,
    show itemSymKind (.hasVar d x) = SymKind.hasVar from rfl] at hloc
  obtain ⟨hwfB, _, _⟩ := wfFatal_hoistItems asid A.body
    { sPre with store := (sPre.store.openScope .architype
        (some ((Store.mk []).openScope .module none).2)).1 } huA hwfA
  -- walk the member list up to the containing ability
  rw [hbody, resolveItems_append]
  set sHoist := hoistItems asid
    { sPre with store := (sPre.store.openScope .architype
        (some ((Store.mk []).openScope .module none).2)).1 } A.body with hsHoist
  have hasidlt : asid < sHoist.store.scopes.length := by
    have h2 := (stepOK_hoistItems asid A.body
      { sPre with store := (sPre.store.openScope .architype
          (some ((Store.mk []).openScope .module none).2)).1 }).1
    have h3 := Store.openScope_fst_length sPre.store .architype
      (some ((Store.mk []).openScope .module none).2)
    have h4 : asid = sPre.store.scopes.length := by
      rw [hasid, Store.openScope_snd]
    rw [hsHoist]
    simp only [h3] at h2
    omega
  refine ⟨asid, ?_⟩
  have hstepPre := stepOK_resolveItems ((Store.mk []).openScope .module none).2
    asid items1 sHoist
  obtain ⟨hwfC, _⟩ := wfFatal_resolveItems ((Store.mk []).openScope .module none).2
    asid items1 sHoist hasidlt hwfB
  set sC := resolveItems ((Store.mk []).openScope .module none).2 asid sHoist
    items1 with hsC
  have hlocC : localAt sC.store asid x = some ⟨x, d, .hasVar, asid⟩ := by
    rw [hsC, hstepPre.localAt_keep hasidlt trivial x]
    exact hloc
  have hasidltC : asid < sC.store.scopes.length :=
    Nat.lt_of_lt_of_le hasidlt hstepPre.1
  rw [resolveItems]
  have habs : AbsFact (sC.store.openScope .ability (some asid)).1
      (sC.store.openScope .ability (some asid)).2 (some asid) x := by
    refine ⟨⟨.ability, some asid, [], false⟩, ?_, rfl, rfl, rfl⟩
    rw [Store.openScope_snd]
    exact Store.openScope_fst_scope?_new sC.store .ability (some asid)
  have hlocD : localAt (sC.store.openScope .ability (some asid)).1 asid x
      = some ⟨x, d, .hasVar, asid⟩ := by
    rw [localAt, Store.openScope_fst_scope?_ne sC.store _ _ (by omega),
      ← hlocC, localAt]
  have hwfD : ParentLt (sC.store.openScope .ability (some asid)).1 :=
    ParentLt_openScope hwfC _ (by intro q hq; injection hq with hq; omega)
  have hne : asid ≠ (sC.store.openScope .ability (some asid)).2 := by
    rw [Store.openScope_snd]
    omega
  have hmain := hasvar_use_resolved_stmts
    ((Store.mk []).openScope .module none).2
    (sC.store.openScope .ability (some asid)).2 asid x id
    ⟨x, d, .hasVar, asid⟩ stmts2 hne stmts1
    { sC with store := (sC.store.openScope .ability (some asid)).1 }
    hnoassign habs hlocD hwfD
  rw [← hbodysplit] at hmain
  rw [hsC, hsHoist, hbody] at hmain
  refine (stepOK_resolveDecls ((Store.mk []).openScope .module none).2
    m2 _).results_mem ?_
  refine (stepOK_resolveItems ((Store.mk []).openScope .module none).2 asid
    (items2 ++ ArchItem.hasVar d x :: items3) _).results_mem ?_
  exact hmain

/-- Concrete instantiation of C2: the ability `f` uses has-var `x`
before `x`'s own declaration line; the use resolves to the hoisted
has-var symbol. -/
theorem claim_C2_hoisted_hasvar_witness :
    JDecl.arch ⟨1, "W", .walker,
      [.ability 2 "f" [.exprStmt (.nameUse 3 "x")], .hasVar 4 "x"]⟩
      ∈ c2module ∧
    ((([] : List ArchItem) ++ (.ability 2 "f" [.exprStmt (.nameUse 3 "x")]
      :: (([] : List ArchItem) ++ (.hasVar 4 "x" :: ([] : List ArchItem)))))
      = [.ability 2 "f" [.exprStmt (.nameUse 3 "x")], .hasVar 4 "x"]) ∧
    (∀ stt ∈ ([] : List JStmt), ¬ stmtAssigns stt "x") ∧
    (([.ability 2 "f" [.exprStmt (.nameUse 3 "x")],
      .hasVar 4 "x"].map itemName).Nodup) ∧
    ∃ asid, (3, ResKind.resolvedTo ⟨"x", 4, .hasVar, asid⟩)
      ∈ (runPass c2module).results :=
  ⟨by decide, by decide, by simp, by decide,
   claim_C2_hoisted_hasvar c2module
     ⟨1, "W", .walker, [.ability 2 "f" [.exprStmt (.nameUse 3 "x")],
       .hasVar 4 "x"]⟩
     [] [] [] 2 "f" [.exprStmt (.nameUse 3 "x")] 4 "x" [] [] 3
     (by decide) rfl rfl (by simp) (by decide)⟩

/-! ### Sequential local binding (claim C3) -/

theorem lookup_three_none {st : Store} {absid asid msid : Nat} {n : JName}
    (hwf : ParentLt st)
    (h1 : AbsFact st absid (some asid) n)
    (h2 : AbsFact st asid (some msid) n)
    (h3 : AbsFact st msid none n) :
    st.lookup absid n = none := by
  obtain ⟨sc1, hsc1, hp1, hx1, _⟩ := h1
  obtain ⟨sc2, hsc2, hp2, hx2, _⟩ := h2
  obtain ⟨sc3, hsc3, hp3, hx3, _⟩ := h3
  rw [lookup_parent_step hwf hsc1 hx1 hp1,
    lookup_parent_step hwf hsc2 hx2 hp2]
  exact lookup_root_none hsc3 hx3 hp3

theorem resolveStmt_localAt_some {msid sid : Nat} {n : JName} {sym : JSymbol}
    {stt : JStmt} {s : PassSt}
    (h : localAt s.store sid n = some sym) :
    localAt (resolveStmt msid sid s stt).store sid n = some sym := by
  have hlt : sid < s.store.scopes.length := localAt_lt h
  cases stt with
  | assign d lhs rhs =>
    rw [resolveStmt]
    have h1 : localAt (resolveExpr msid sid s rhs).store sid n = some sym := by
      rw [(stepOK_resolveExpr msid rhs sid s).localAt_keep hlt trivial n]
      exact h
    rcases hl : localAt (resolveExpr msid sid s rhs).store sid lhs with _ | sym2
    · have hlx : lhs ≠ n := by
        intro hcontra
        rw [hcontra, h1] at hl
        exact absurd hl (by simp)
      rw [localAt] at h1
      rcases hsc : (resolveExpr msid sid s rhs).store.scope? sid with _ | sc
      · rw [hsc] at h1
        exact absurd h1 (by simp)
      · rw [hsc, Option.some_bind] at h1
        rw [doBind]
        rcases hb : (resolveExpr msid sid s rhs).store.bind sid lhs d .localVar
          with e | ⟨st2, sym3, dg⟩
        · show localAt (resolveExpr msid sid s rhs).store sid n = some sym
          rw [localAt, hsc, Option.some_bind]
          exact h1
        · show localAt st2 sid n = some sym
          rw [localAt, Store.bind_ok_scope?_self hsc hb, Option.some_bind,
            lookupLocal_cons_ne _ hlx]
          exact h1
    · exact h1
  | exprStmt e =>
    rw [resolveStmt,
      (stepOK_resolveExpr msid e sid s).localAt_keep hlt trivial n]
    exact h

theorem localname_use_resolved_post (msid sid : Nat) (n : JName) (id2 : Nat)
    (sym : JSymbol) (post2 : List JStmt) :
    ∀ (post1 : List JStmt) (s : PassSt),
      localAt s.store sid n = some sym →
      (id2, ResKind.resolvedTo sym) ∈
        (resolveStmts msid sid s
          (post1 ++ .exprStmt (.nameUse id2 n) :: post2)).results := by
  intro post1
  induction post1 with
  | nil =>
    intro s hloc
    rw [List.nil_append, resolveStmts, resolveStmt, resolveExpr,
      lookup_of_localAt hloc]
    refine (stepOK_resolveStmts msid sid post2 _).results_mem ?_
    simp [recordRes]
  | cons stt rest ih =>
    intro s hloc
    rw [List.cons_append, resolveStmts]
    exact ih _ (resolveStmt_localAt_some hloc)

theorem localname_mid_to_resolved (msid absid asid : Nat) (n : JName)
    (id2 d : Nat) (rhs : JExpr) (post1 post2 : List JStmt) :
    ∀ (mid : List JStmt) (s : PassSt),
      (∀ stt ∈ mid, ¬ stmtAssigns stt n) →
      AbsFact s.store absid (some asid) n →
      (id2, ResKind.resolvedTo ⟨n, d, .localVar, absid⟩) ∈
        (resolveStmts msid absid s
          (mid ++ .assign d n rhs
            :: (post1 ++ .exprStmt (.nameUse id2 n) :: post2))).results := by
  intro mid
  induction mid with
  | nil =>
    intro s _ habs
    rw [List.nil_append, resolveStmts, resolveStmt]
    have hlt : absid < s.store.scopes.length := by
      obtain ⟨sc, hsc, _⟩ := habs
      exact Store.scope?_lt hsc
    have habs1 : AbsFact (resolveExpr msid absid s rhs).store absid (some asid)
        n := AbsFact_of_scope?_eq
      ((stepOK_resolveExpr msid rhs absid s).scope?_keep hlt trivial) habs
    obtain ⟨sc, hsc, hp, hx, hseal⟩ := habs1
    have hln : localAt (resolveExpr msid absid s rhs).store absid n = none := by
      rw [localAt, hsc, Option.some_bind]
      exact hx
    rw [hln]
    exact localname_use_resolved_post msid absid n id2 _ post2 post1 _
      (doBind_localAt_self hsc hseal n d .localVar)
  | cons stt rest ih =>
    intro s hna habs
    rw [List.cons_append, resolveStmts]
    exact ih _ (fun t ht => hna t (List.mem_cons_of_mem _ ht))
      (resolveStmt_AbsFact (hna stt (List.mem_cons_self _ _)) habs)

theorem seq_binding_stmts (msid absid asid : Nat) (n : JName)
    (id1 id2 d : Nat) (rhs : JExpr) (mid post1 post2 : List JStmt)
    (hne1 : asid ≠ absid) (hne2 : msid ≠ absid) :
    ∀ (pre : List JStmt) (s : PassSt),
      (∀ stt ∈ pre, ¬ stmtAssigns stt n) →
      (∀ stt ∈ mid, ¬ stmtAssigns stt n) →
      AbsFact s.store absid (some asid) n →
      AbsFact s.store asid (some msid) n →
      AbsFact s.store msid none n →
      ParentLt s.store →
      (id1, ResKind.unresolvedRef) ∈
        (resolveStmts msid absid s
          (pre ++ .exprStmt (.nameUse id1 n)
            :: (mid ++ .assign d n rhs
              :: (post1 ++ .exprStmt (.nameUse id2 n) :: post2)))).results ∧
      (id2, ResKind.resolvedTo ⟨n, d, .localVar, absid⟩) ∈
        (resolveStmts msid absid s
          (pre ++ .exprStmt (.nameUse id1 n)
            :: (mid ++ .assign d n rhs
              :: (post1 ++ .exprStmt (.nameUse id2 n) :: post2)))).results := by
  intro pre
  induction pre with
  | nil =>
    intro s _ hnamid habs harch hmod hwf
    rw [List.nil_append, resolveStmts, resolveStmt, resolveExpr,
      lookup_three_none hwf habs harch hmod]
    constructor
    · refine (stepOK_resolveStmts msid absid _ _).results_mem ?_
      simp [emitDiag, recordRes]
    · -- the failed use changes neither store nor scope facts
      have habs2 : AbsFact (emitDiag (recordRes s id1 .unresolvedRef)
          .UnresolvedName n id1).store absid (some asid) n := habs
      exact localname_mid_to_resolved msid absid asid n id2 d rhs post1
        post2 mid _ hnamid habs2
  | cons stt rest ih =>
    intro s hnapre hnamid habs harch hmod hwf
    rw [List.cons_append, resolveStmts]
    have hu : UnsealedAt s.store absid := by
      obtain ⟨sc, hsc, _, _, hseal⟩ := habs
      exact ⟨sc, hsc, hseal⟩
    obtain ⟨hwf1, _, _⟩ := wfFatal_resolveStmt msid absid s stt hu hwf
    have hstep := stepOK_resolveStmt msid absid s stt
    have hlt2 : asid < s.store.scopes.length := by
      obtain ⟨sc, hsc, _⟩ := harch
      exact Store.scope?_lt hsc
    have hlt3 : msid < s.store.scopes.length := by
      obtain ⟨sc, hsc, _⟩ := hmod
      exact Store.scope?_lt hsc
    exact ih _ (fun t ht => hnapre t (List.mem_cons_of_mem _ ht)) hnamid
      (resolveStmt_AbsFact (hnapre stt (List.mem_cons_self _ _)) habs)
      (AbsFact_of_scope?_eq (hstep.scope?_keep hlt2 hne1) harch)
      (AbsFact_of_scope?_eq (hstep.scope?_keep hlt3 hne2) hmod)
      hwf1

theorem phase1_AbsFact (msid : Nat) (n : JName) :
    ∀ (m : JModule) (s : PassSt),
      (∀ dcl ∈ m, declName dcl ≠ n) →
      AbsFact s.store msid none n →
      AbsFact (phase1 msid s m).store msid none n := by
  intro m
  induction m with
  | nil => intro s _ h; exact h
  | cons dcl rest ih =>
    intro s hne h
    rw [phase1_cons]
    exact ih _ (fun d2 h2 => hne d2 (List.mem_cons_of_mem _ h2))
      (doBind_AbsFact (hne dcl (List.mem_cons_self _ _)) _ _ h)

theorem hoistItems_AbsFact (asid : Nat) (n : JName) (par : Option Nat) :
    ∀ (items : List ArchItem) (s : PassSt),
      (∀ it ∈ items, itemName it ≠ n) →
      AbsFact s.store asid par n →
      AbsFact (hoistItems asid s items).store asid par n := by
  intro items
  induction items with
  | nil => intro s _ h; exact h
  | cons it rest ih =>
    intro s hne h
    rw [hoistItems_cons]
    exact ih _ (fun i2 h2 => hne i2 (List.mem_cons_of_mem _ h2))
      (doBind_AbsFact (hne it (List.mem_cons_self _ _)) _ _ h)

/-- C3: a name first bound by an assignment whose left-hand side is a
bare name not yet bound in the current scope behaves sequentially: a use
of the name textually before the assignment in the same scope yields
`Unresolved`, a use textually after it yields `Resolved` (to the local
symbol the assignment introduced) — unlike hoisted has-vars.  The
provisos say the name is not bound by any other construct: it is no
top-level declaration name, no member of the enclosing architype, and
no earlier statement assigns it. -/
theorem claim_C3_sequential_binding (m : JModule) (A : JArchitype)
    (items1 items2 : List ArchItem) (da : Nat) (f : JName)
    (body : List JStmt) (n : JName) (d id1 id2 : Nat) (rhs : JExpr)
    (pre mid post1 post2 : List JStmt)
    (hA : JDecl.arch A ∈ m)
    (hbody : A.body = items1 ++ .ability da f body :: items2)
    (hbodysplit : body = pre ++ .exprStmt (.nameUse id1 n)
      :: (mid ++ .assign d n rhs
        :: (post1 ++ .exprStmt (.nameUse id2 n) :: post2)))
    (hpre : ∀ stt ∈ pre, ¬ stmtAssigns stt n)
    (hmid : ∀ stt ∈ mid, ¬ stmtAssigns stt n)
    (htop : ∀ dcl ∈ m, declName dcl ≠ n)
    (hmem : ∀ it ∈ A.body, itemName it ≠ n) :
    (id1, ResKind.unresolvedRef) ∈ (runPass m).results ∧
    ∃ absid, (id2, ResKind.resolvedTo ⟨n, d, .localVar, absid⟩)
      ∈ (runPass m).results := by
  obtain ⟨m1, m2, rfl⟩ := List.append_of_mem hA
  rw [runPass, runPassFrom]
  have hu0 : UnsealedAt
      (⟨((Store.mk []).openScope .module none).1, [], [], false⟩ : PassSt).store
      ((Store.mk []).openScope .module none).2 :=
    openScope_unsealed_new (Store.mk []) .module none
  have hwf0 : ParentLt (Store.mk []) := by
    intro i sc p hi hp
    simp [Store.scope?] at hi
  obtain ⟨hwf1, _, hu1⟩ := wfFatal_phase1 ((Store.mk []).openScope .module none).2
    (m1 ++ JDecl.arch A :: m2)
    ⟨((Store.mk []).openScope .module none).1, [], [], false⟩ hu0
    (ParentLt_openScope hwf0 _ (by intro q hq; exact absurd hq (by simp)))
  have hmod0 : AbsFact
      (⟨((Store.mk []).openScope .module none).1, [], [], false⟩ : PassSt).store
      ((Store.mk []).openScope .module none).2 none n := by
    refine ⟨⟨.module, none, [], false⟩, ?_, rfl, rfl, rfl⟩
    rw [Store.openScope_snd]
    exact Store.openScope_fst_scope?_new (Store.mk []) .module none
  have hmod1 := phase1_AbsFact ((Store.mk []).openScope .module none).2 n
    (m1 ++ JDecl.arch A :: m2)
    ⟨((Store.mk []).openScope .module none).1, [], [], false⟩ htop hmod0
  have hmsidlt : ((Store.mk []).openScope .module none).2 <
      (phase1 ((Store.mk []).openScope .module none).2
        ⟨((Store.mk []).openScope .module none).1, [], [], false⟩
        (m1 ++ JDecl.arch A :: m2)).store.scopes.length := by
    obtain ⟨sc, hsc, _⟩ := hu1
    exact Store.scope?_lt hsc
  rw [resolveDecls_append]
  obtain ⟨hwf2, _⟩ := wfFatal_resolveDecls ((Store.mk []).openScope .module none).2
    m1 _ hmsidlt hwf1
  have hstepm1 := stepOK_resolveDecls ((Store.mk []).openScope .module none).2 m1
    (phase1 ((Store.mk []).openScope .module none).2
      ⟨((Store.mk []).openScope .module none).1, [], [], false⟩
      (m1 ++ JDecl.arch A :: m2))
  have hmsidlt2 := Nat.lt_of_lt_of_le hmsidlt hstepm1.1
  have hmod2 := AbsFact_of_scope?_eq (hstepm1.scope?_keep hmsidlt trivial) hmod1
  rw [resolveDecls, resolveDecl]
  set sPre := resolveDecls ((Store.mk []).openScope .module none).2
    (phase1 ((Store.mk []).openScope .module none).2
      ⟨((Store.mk []).openScope .module none).1, [], [], false⟩
      (m1 ++ JDecl.arch A :: m2)) m1 with hsPre
  set asid := (sPre.store.openScope .architype
    (some ((Store.mk []).openScope .module none).2)).2 with hasid
  have hasid2 : asid = sPre.store.scopes.length := by
    rw [hasid, Store.openScope_snd]
  have huA : UnsealedAt (sPre.store.openScope .architype
      (some ((Store.mk []).openScope .module none).2)).1 asid :=
    openScope_unsealed_new sPre.store .architype _
  have hwfA : ParentLt (sPre.store.openScope .architype
      (some ((Store.mk []).openScope .module none).2)).1 :=
    ParentLt_openScope hwf2 _ (by intro q hq; injection hq with hq; omega)
  have harch0 : AbsFact (sPre.store.openScope .architype
      (some ((Store.mk []).openScope .module none).2)).1 asid
      (some ((Store.mk []).openScope .module none).2) n := by
    refine ⟨⟨.architype, some ((Store.mk []).openScope .module none).2, [],
      false⟩, ?_, rfl, rfl, rfl⟩
    rw [hasid2]
    exact Store.openScope_fst_scope?_new sPre.store .architype _
  have hmod3 : AbsFact (sPre.store.openScope .architype
      (some ((Store.mk []).openScope .module none).2)).1
      ((Store.mk []).openScope .module none).2 none n :=
    AbsFact_of_scope?_eq (Store.openScope_fst_scope?_ne sPre.store _ _
      (by omega)) hmod2
  have harch1 := hoistItems_AbsFact asid n
    (some ((Store.mk []).openScope .module none).2) A.body
    { sPre with store := (sPre.store.openScope .architype
        (some ((Store.mk []).openScope .module none).2)).1 } hmem harch0
  have hstepH := stepOK_hoistItems asid A.body
    { sPre with store := (sPre.store.openScope .architype
        (some ((Store.mk []).openScope .module none).2)).1 }
  have hmod4 : AbsFact (hoistItems asid
      { sPre with store := (sPre.store.openScope .architype
          (some ((Store.mk []).openScope .module none).2)).1 } A.body).store
      ((Store.mk []).openScope .module none).2 none n := by
    refine AbsFact_of_scope?_eq (hstepH.scope?_keep ?_ ?_) hmod3
    · rw [Store.openScope_fst_length]
      omega
    · omega
  obtain ⟨hwfB, _, _⟩ := wfFatal_hoistItems asid A.body
    { sPre with store := (sPre.store.openScope .architype
        (some ((Store.mk []).openScope .module none).2)).1 } huA hwfA
  rw [hbody, resolveItems_append]
  set sHoist := hoistItems asid
    { sPre with store := (sPre.store.openScope .architype
        (some ((Store.mk []).openScope .module none).2)).1 } A.body with hsHoist
  have hasidlt : asid < sHoist.store.scopes.length := by
    have h2 := hstepH.1
    have h3 := Store.openScope_fst_length sPre.store .architype
      (some ((Store.mk []).openScope .module none).2)
    simp only [h3] at h2
    omega
  have hstepPre := stepOK_resolveItems ((Store.mk []).openScope .module none).2
    asid items1 sHoist
  obtain ⟨hwfC, _⟩ := wfFatal_resolveItems ((Store.mk []).openScope .module none).2
    asid items1 sHoist hasidlt hwfB
  set sC := resolveItems ((Store.mk []).openScope .module none).2 asid sHoist
    items1 with hsC
  have hmsidltH : ((Store.mk []).openScope .module none).2 <
      sHoist.store.scopes.length := by
    obtain ⟨sc, hsc, _⟩ := hmod4
    rw [hsHoist]
    exact Store.scope?_lt hsc
  have harch2 : AbsFact sC.store asid
      (some ((Store.mk []).openScope .module none).2) n := by
    rw [hsC]
    exact AbsFact_of_scope?_eq (hstepPre.scope?_keep hasidlt trivial) harch1
  have hmod5 : AbsFact sC.store ((Store.mk []).openScope .module none).2
      none n := by
    rw [hsC]
    exact AbsFact_of_scope?_eq (hstepPre.scope?_keep hmsidltH trivial) hmod4
  have hasidltC : asid < sC.store.scopes.length :=
    Nat.lt_of_lt_of_le hasidlt hstepPre.1
  have hmsidltC : ((Store.mk []).openScope .module none).2 <
      sC.store.scopes.length := Nat.lt_of_lt_of_le hmsidltH hstepPre.1
  rw [resolveItems]
  have habs : AbsFact (sC.store.openScope .ability (some asid)).1
      (sC.store.openScope .ability (some asid)).2 (some asid) n := by
    refine ⟨⟨.ability, some asid, [], false⟩, ?_, rfl, rfl, rfl⟩
    rw [Store.openScope_snd]
    exact Store.openScope_fst_scope?_new sC.store .ability (some asid)
  have harch3 : AbsFact (sC.store.openScope .ability (some asid)).1 asid
      (some ((Store.mk []).openScope .module none).2) n :=
    AbsFact_of_scope?_eq (Store.openScope_fst_scope?_ne sC.store _ _
      (by omega)) harch2
  have hmod6 : AbsFact (sC.store.openScope .ability (some asid)).1
      ((Store.mk []).openScope .module none).2 none n :=
    AbsFact_of_scope?_eq (Store.openScope_fst_scope?_ne sC.store _ _
      (by omega)) hmod5
  have hwfD : ParentLt (sC.store.openScope .ability (some asid)).1 :=
    ParentLt_openScope hwfC _ (by intro q hq; injection hq with hq; omega)
  have hne1 : asid ≠ (sC.store.openScope .ability (some asid)).2 := by
    rw [Store.openScope_snd]
    omega
  have hne2 : ((Store.mk []).openScope .module none).2
      ≠ (sC.store.openScope .ability (some asid)).2 := by
    have h5 : (sC.store.openScope .ability (some asid)).2
        = sC.store.scopes.length := Store.openScope_snd _ _ _
    rw [h5]
    omega
  obtain ⟨hmain1, hmain2⟩ := seq_binding_stmts
    ((Store.mk []).openScope .module none).2
    (sC.store.openScope .ability (some asid)).2 asid n id1 id2 d rhs
    mid post1 post2 hne1 hne2 pre
    { sC with store := (sC.store.openScope .ability (some asid)).1 }
    hpre hmid habs harch3 hmod6 hwfD
  rw [← hbodysplit] at hmain1 hmain2
  rw [hsC, hsHoist, hbody] at hmain1 hmain2
  constructor
  · refine (stepOK_resolveDecls ((Store.mk []).openScope .module none).2
      m2 _).results_mem ?_
    refine (stepOK_resolveItems ((Store.mk []).openScope .module none).2 asid
      items2 _).results_mem ?_
    exact hmain1
  · refine ⟨(sC.store.openScope .ability (some asid)).2, ?_⟩
    rw [hsC, hsHoist, hbody]
    refine (stepOK_resolveDecls ((Store.mk []).openScope .module none).2
      m2 _).results_mem ?_
    refine (stepOK_resolveItems ((Store.mk []).openScope .module none).2 asid
      items2 _).results_mem ?_
    exact hmain2

/-- Concrete instantiation of C3: `y` is first bound by the assignment
at node 5; the use at node 3 (before it) is unresolved, the use at node
7 (after it) resolves to the local symbol. -/
theorem claim_C3_sequential_binding_witness :
    (∀ stt ∈ ([] : List JStmt), ¬ stmtAssigns stt "y") ∧
    (∀ dcl ∈ c3module, declName dcl ≠ "y") ∧
    (∀ it ∈ [ArchItem.ability 2 "f"
        [.exprStmt (.nameUse 3 "y"), .assign 5 "y" (.nameUse 6 "x"),
         .exprStmt (.nameUse 7 "y")],
      ArchItem.hasVar 8 "x"], itemName it ≠ "y") ∧
    ((3, ResKind.unresolvedRef) ∈ (runPass c3module).results ∧
    ∃ absid, (7, ResKind.resolvedTo ⟨"y", 5, .localVar, absid⟩)
      ∈ (runPass c3module).results) :=
  ⟨by simp, by decide, by decide,
   claim_C3_sequential_binding c3module
     ⟨1, "W", .walker,
       [.ability 2 "f"
         [.exprStmt (.nameUse 3 "y"), .assign 5 "y" (.nameUse 6 "x"),
          .exprStmt (.nameUse 7 "y")],
        .hasVar 8 "x"]⟩
     [] [.hasVar 8 "x"] 2 "f"
     [.exprStmt (.nameUse 3 "y"), .assign 5 "y" (.nameUse 6 "x"),
      .exprStmt (.nameUse 7 "y")]
     "y" 5 3 7 (.nameUse 6 "x") [] [] [] []
     (by decide) rfl rfl (by simp) (by simp) (by decide) (by decide)⟩

theorem NoBind_lookup_none {st : Store} {n : JName} (h : NoBind st n) :
    ∀ (f sid : Nat), lookupChain st sid n f = none := by
  intro f
  induction f with
  | zero => intro sid; rfl
  | succ f ih =>
    intro sid
    rw [lookupChain]
    rcases hsc : st.scope? sid with _ | sc
    · rfl
    · simp only [h sid sc hsc]
      rcases hp : sc.parent with _ | p
      · rfl
      · exact ih p

theorem noBind_doBind {s : PassSt} {n m : JName} (hnm : m ≠ n) (sid d : Nat)
    (k : SymKind) (h : NoBind s.store n) :
    NoBind (doBind s sid m d k).store n := by
  rw [doBind]
  rcases hb : s.store.bind sid m d k with e | ⟨st2, sym, dg⟩
  · exact h
  · obtain ⟨sc, hsc, hseal, h1, _, _⟩ := Store.bind_ok_inv hb
    intro i sci hi
    show lookupLocal sci.bindings n = none
    by_cases hisid : i = sid
    · subst hisid
      rw [h1, Store.scope?_setScope_self _ (Store.scope?_lt hsc)] at hi
      injection hi with hi
      rw [← hi, lookupLocal_cons_ne _ hnm]
      exact h i sc hsc
    · rw [h1, Store.scope?_setScope_other _ hisid] at hi
      exact h i sci hi

theorem noBind_openScope {st : Store} {n : JName} (k : ScopeKind)
    (p : Option Nat) (h : NoBind st n) :
    NoBind (st.openScope k p).1 n := by
  intro i sc hi
  by_cases hilen : i = st.scopes.length
  · subst hilen
    rw [Store.openScope_fst_scope?_new] at hi
    injection hi with hi
    rw [← hi]
    rfl
  · rw [Store.openScope_fst_scope?_ne st k p hilen] at hi
    exact h i sc hi

theorem noBind_seal {st : Store} {n : JName} (sid : Nat) (h : NoBind st n) :
    NoBind (st.seal sid) n := by
  intro i sc hi
  by_cases hisid : i = sid
  · subst hisid
    rcases hsc : st.scope? i with _ | sc0
    · simp only [Store.seal, hsc] at hi
      exact Option.noConfusion hi
    · rw [Store.seal_scope?_self hsc] at hi
      injection hi with hi
      rw [← hi]
      exact h i sc0 hsc
  · rw [Store.seal_scope?_other hisid] at hi
    exact h i sc hi

theorem noBind_resolveExpr (msid : Nat) (n : JName) :
    ∀ (e : JExpr) (sid : Nat) (s : PassSt), n ∉ exprBindNames e →
      NoBind s.store n → NoBind (resolveExpr msid sid s e).store n := by
  intro e
  induction e with
  | nameUse id2 m =>
    intro sid s _ h
    rw [resolveExpr]
    rcases s.store.lookup sid m with _ | sym <;> exact h
  | archRef id2 m =>
    intro sid s _ h
    rw [resolveExpr]
    rcases s.store.lookup msid m with _ | sym <;> exact h
  | filterCompr d v pred ih =>
    intro sid s hn h
    rw [resolveExpr]
    rw [show exprBindNames (.filterCompr d v pred) = v :: exprBindNames pred
      from rfl] at hn
    have hvn : v ≠ n := fun hc => hn (by rw [hc]; exact List.mem_cons_self _ _)
    have hn2 : n ∉ exprBindNames pred :=
      fun hc => hn (List.mem_cons_of_mem _ hc)
    exact noBind_seal _ (ih _ _ hn2 (noBind_doBind hvn _ _ _
      (noBind_openScope _ _ h)))

theorem noBind_resolveStmt (msid sid : Nat) (n : JName) (stt : JStmt)
    (s : PassSt) (hn : n ∉ stmtBindNames stt) (h : NoBind s.store n) :
    NoBind (resolveStmt msid sid s stt).store n := by
  cases stt with
  | assign d lhs rhs =>
    rw [resolveStmt]
    rw [show stmtBindNames (.assign d lhs rhs) = lhs :: exprBindNames rhs
      from rfl] at hn
    have hlx : lhs ≠ n := fun hc => hn (by rw [hc]; exact List.mem_cons_self _ _)
    have h1 := noBind_resolveExpr msid n rhs sid s
      (fun hc => hn (List.mem_cons_of_mem _ hc)) h
    rcases localAt (resolveExpr msid sid s rhs).store sid lhs with _ | sym
    · exact noBind_doBind hlx _ _ _ h1
    · exact h1
  | exprStmt e =>
    rw [resolveStmt]
    exact noBind_resolveExpr msid n e sid s hn h

theorem noBind_resolveStmts (msid sid : Nat) (n : JName) :
    ∀ (body : List JStmt) (s : PassSt), n ∉ stmtsBindNames body →
      NoBind s.store n → NoBind (resolveStmts msid sid s body).store n := by
  intro body
  induction body with
  | nil => intro s _ h; exact h
  | cons stt rest ih =>
    intro s hn h
    rw [resolveStmts]
    have hns : stmtsBindNames (stt :: rest)
        = stmtBindNames stt ++ stmtsBindNames rest := by
      simp [stmtsBindNames]
    rw [hns] at hn
    exact ih _ (fun hc => hn (List.mem_append_right _ hc))
      (noBind_resolveStmt msid sid n stt s
        (fun hc => hn (List.mem_append_left _ hc)) h)

theorem noBind_hoistItems (asid : Nat) (n : JName) :
    ∀ (items : List ArchItem) (s : PassSt),
      (∀ it ∈ items, itemName it ≠ n) →
      NoBind s.store n → NoBind (hoistItems asid s items).store n := by
  intro items
  induction items with
  | nil => intro s _ h; exact h
  | cons it rest ih =>
    intro s hn h
    rw [hoistItems_cons]
    exact ih _ (fun i2 h2 => hn i2 (List.mem_cons_of_mem _ h2))
      (noBind_doBind (hn it (List.mem_cons_self _ _)) _ _ _ h)

theorem itemName_mem_bindNames (it : ArchItem) :
    itemName it ∈ itemBindNames it := by
  cases it <;> simp [itemName, itemBindNames]

theorem noBind_resolveItems (msid asid : Nat) (n : JName) :
    ∀ (items : List ArchItem) (s : PassSt), n ∉ itemsBindNames items →
      NoBind s.store n → NoBind (resolveItems msid asid s items).store n := by
  intro items
  induction items with
  | nil => intro s _ h; exact h
  | cons it rest ih =>
    intro s hn h
    have hns : itemsBindNames (it :: rest)
        = itemBindNames it ++ itemsBindNames rest := by
      simp [itemsBindNames]
    rw [hns] at hn
    cases it with
    | hasVar d m =>
      rw [resolveItems]
      exact ih _ (fun hc => hn (List.mem_append_right _ hc)) h
    | ability d f body =>
      rw [resolveItems]
      have hibn : itemBindNames (ArchItem.ability d f body)
          = f :: stmtsBindNames body := rfl
      have hbody : n ∉ stmtsBindNames body := by
        intro hc
        refine hn (List.mem_append_left _ ?_)
        rw [hibn]
        exact List.mem_cons_of_mem _ hc
      exact ih _ (fun hc => hn (List.mem_append_right _ hc))
        (noBind_seal _ (noBind_resolveStmts msid _ n body _ hbody
          (noBind_openScope _ _ h)))

theorem noBind_enumFold (esid : Nat) (n : JName) :
    ∀ (es : List (Nat × JName)) (s : PassSt),
      (∀ en ∈ es, en.2 ≠ n) →
      NoBind s.store n →
      NoBind (es.foldl (fun acc en => doBind acc esid en.2 en.1 .enumSym)
        s).store n := by
  intro es
  induction es with
  | nil => intro s _ h; exact h
  | cons en rest ih =>
    intro s hn h
    rw [List.foldl_cons]
    exact ih _ (fun e2 h2 => hn e2 (List.mem_cons_of_mem _ h2))
      (noBind_doBind (hn en (List.mem_cons_self _ _)) _ _ _ h)

theorem noBind_resolveDecl (msid : Nat) (n : JName) (dcl : JDecl) (s : PassSt)
    (hn : n ∉ declBindNames dcl) (h : NoBind s.store n) :
    NoBind (resolveDecl msid s dcl).store n := by
  cases dcl with
  | arch a =>
    rw [resolveDecl]
    have hdbn : declBindNames (JDecl.arch a)
        = a.name :: itemsBindNames a.body := rfl
    have hitems : n ∉ itemsBindNames a.body := by
      intro hc
      refine hn ?_
      rw [hdbn]
      exact List.mem_cons_of_mem _ hc
    have hmem : ∀ it ∈ a.body, itemName it ≠ n := by
      intro it hit hc
      refine hitems ?_
      obtain ⟨l1, l2, hsplit⟩ := List.append_of_mem hit
      rw [itemsBindNames, hsplit, List.map_append, List.flatten_append]
      refine List.mem_append_right _ ?_
      rw [List.map_cons, List.flatten_cons]
      exact List.mem_append_left _ (hc ▸ itemName_mem_bindNames it)
    exact noBind_seal _ (noBind_resolveItems msid _ n a.body _ hitems
      (noBind_hoistItems _ n a.body _ hmem (noBind_openScope _ _ h)))
  | enumDecl d nm es =>
    rw [resolveDecl]
    have hdbn : declBindNames (JDecl.enumDecl d nm es)
        = nm :: es.map Prod.snd := rfl
    have hes : ∀ en ∈ es, en.2 ≠ n := by
      intro en hen hc
      refine hn ?_
      rw [hdbn]
      exact List.mem_cons_of_mem _ (hc ▸ List.mem_map_of_mem _ hen)
    exact noBind_seal _ (noBind_enumFold _ n es _ hes (noBind_openScope _ _ h))

theorem noBind_resolveDecls (msid : Nat) (n : JName) :
    ∀ (m : JModule) (s : PassSt), n ∉ modBindNames m →
      NoBind s.store n → NoBind (resolveDecls msid s m).store n := by
  intro m
  induction m with
  | nil => intro s _ h; exact h
  | cons dcl rest ih =>
    intro s hn h
    have hns : modBindNames (dcl :: rest)
        = declBindNames dcl ++ modBindNames rest := by
      simp [modBindNames]
    rw [hns] at hn
    rw [resolveDecls]
    exact ih _ (fun hc => hn (List.mem_append_right _ hc))
      (noBind_resolveDecl msid n dcl s
        (fun hc => hn (List.mem_append_left _ hc)) h)

theorem declName_mem_bindNames (dcl : JDecl) :
    declName dcl ∈ declBindNames dcl := by
  cases dcl <;> simp [declName, declBindNames]

theorem noBind_phase1 (msid : Nat) (n : JName) :
    ∀ (m : JModule) (s : PassSt), (∀ dcl ∈ m, declName dcl ≠ n) →
      NoBind s.store n → NoBind (phase1 msid s m).store n := by
  intro m
  induction m with
  | nil => intro s _ h; exact h
  | cons dcl rest ih =>
    intro s hn h
    rw [phase1_cons]
    exact ih _ (fun d2 h2 => hn d2 (List.mem_cons_of_mem _ h2))
      (noBind_doBind (hn dcl (List.mem_cons_self _ _)) _ _ _ h)

theorem filterComprUseIn_useIn {id : Nat} {n : JName} :
    ∀ {e : JExpr}, filterComprUseIn id n e → useIn id n e := by
  intro e h
  cases e with
  | nameUse i m => exact (h : False).elim
  | archRef i m => exact (h : False).elim
  | filterCompr d v p => exact h

theorem useIn_mem_ids {id : Nat} {n : JName} :
    ∀ {e : JExpr}, useIn id n e → id ∈ exprIds e := by
  intro e
  induction e with
  | nameUse i m => intro h; rw [exprIds, h.1]; exact List.mem_singleton_self _
  | archRef i m => intro h; exact (h : False).elim
  | filterCompr d v p ih =>
    intro h
    rw [exprIds]
    exact List.mem_cons_of_mem _ (ih h)

theorem fcUseInStmt_mem_ids {id : Nat} {n : JName} :
    ∀ {stt : JStmt}, fcUseInStmt id n stt → id ∈ stmtIds stt := by
  intro stt h
  cases stt with
  | assign d lhs rhs =>
    rw [stmtIds]
    exact List.mem_cons_of_mem _ (useIn_mem_ids (filterComprUseIn_useIn h))
  | exprStmt e =>
    rw [stmtIds]
    exact useIn_mem_ids (filterComprUseIn_useIn h)

theorem fcUseInStmts_mem_ids {id : Nat} {n : JName} {body : List JStmt}
    (hocc : ∃ stt ∈ body, fcUseInStmt id n stt) : id ∈ stmtsIds body := by
  obtain ⟨stt, hmem, hocc⟩ := hocc
  obtain ⟨l1, l2, rfl⟩ := List.append_of_mem hmem
  rw [stmtsIds, List.map_append, List.flatten_append]
  refine List.mem_append_right _ ?_
  rw [List.map_cons, List.flatten_cons]
  exact List.mem_append_left _ (fcUseInStmt_mem_ids hocc)

theorem fcUseInItem_mem_ids {id : Nat} {n : JName} :
    ∀ {it : ArchItem}, fcUseInItem id n it → id ∈ itemIds it := by
  intro it h
  cases it with
  | hasVar d m => exact (h : False).elim
  | ability d f body =>
    rw [itemIds]
    exact List.mem_cons_of_mem _ (fcUseInStmts_mem_ids h)

theorem fcUseInItems_mem_ids {id : Nat} {n : JName} {items : List ArchItem}
    (hocc : ∃ it ∈ items, fcUseInItem id n it) : id ∈ itemsIds items := by
  obtain ⟨it, hmem, hocc⟩ := hocc
  obtain ⟨l1, l2, rfl⟩ := List.append_of_mem hmem
  rw [itemsIds, List.map_append, List.flatten_append]
  refine List.mem_append_right _ ?_
  rw [List.map_cons, List.flatten_cons]
  exact List.mem_append_left _ (fcUseInItem_mem_ids hocc)

theorem fcUseInDecl_mem_ids {id : Nat} {n : JName} :
    ∀ {dcl : JDecl}, fcUseInDecl id n dcl → id ∈ declIds dcl := by
  intro dcl h
  cases dcl with
  | arch ar =>
    rw [declIds]
    exact List.mem_cons_of_mem _ (fcUseInItems_mem_ids h)
  | enumDecl d m es => exact (h : False).elim

theorem mem_itemsIds_of_mem {it : ArchItem} {items : List ArchItem}
    (h : it ∈ items) {x : Nat} (hx : x ∈ itemIds it) : x ∈ itemsIds items := by
  obtain ⟨l1, l2, rfl⟩ := List.append_of_mem h
  rw [itemsIds, List.map_append, List.flatten_append]
  refine List.mem_append_right _ ?_
  rw [List.map_cons, List.flatten_cons]
  exact List.mem_append_left _ hx

theorem mem_modIds_of_mem {dcl : JDecl} {m : JModule}
    (h : dcl ∈ m) {x : Nat} (hx : x ∈ declIds dcl) : x ∈ modIds m := by
  obtain ⟨l1, l2, rfl⟩ := List.append_of_mem h
  rw [modIds, List.map_append, List.flatten_append]
  refine List.mem_append_right _ ?_
  rw [List.map_cons, List.flatten_cons]
  exact List.mem_append_left _ hx

theorem mem_itemsBindNames_of_mem {it : ArchItem} {items : List ArchItem}
    (h : it ∈ items) {x : JName} (hx : x ∈ itemBindNames it) :
    x ∈ itemsBindNames items := by
  obtain ⟨l1, l2, rfl⟩ := List.append_of_mem h
  rw [itemsBindNames, List.map_append, List.flatten_append]
  refine List.mem_append_right _ ?_
  rw [List.map_cons, List.flatten_cons]
  exact List.mem_append_left _ hx

theorem mem_modBindNames_of_mem {dcl : JDecl} {m : JModule}
    (h : dcl ∈ m) {x : JName} (hx : x ∈ declBindNames dcl) :
    x ∈ modBindNames m := by
  obtain ⟨l1, l2, rfl⟩ := List.append_of_mem h
  rw [modBindNames, List.map_append, List.flatten_append]
  refine List.mem_append_right _ ?_
  rw [List.map_cons, List.flatten_cons]
  exact List.mem_append_left _ hx

theorem itemNames_ne_of_not_bind {n : JName} {items : List ArchItem}
    (h : n ∉ itemsBindNames items) : ∀ it ∈ items, itemName it ≠ n := by
  intro it hit hc
  exact h (mem_itemsBindNames_of_mem hit (hc ▸ itemName_mem_bindNames it))

theorem declNames_ne_of_not_bind {n : JName} {m : JModule}
    (h : n ∉ modBindNames m) : ∀ dcl ∈ m, declName dcl ≠ n := by
  intro dcl hdcl hc
  exact h (mem_modBindNames_of_mem hdcl (hc ▸ declName_mem_bindNames dcl))

theorem diagsAt_append (id : Nat) (l1 l2 : List Diagnostic) :
    diagsAt id (l1 ++ l2) = diagsAt id l1 ++ diagsAt id l2 :=
  List.filter_append l1 l2

theorem diagsAt_nil_of {id : Nat} {l : List Diagnostic}
    (h : ∀ dg ∈ l, dg.site ≠ id) : diagsAt id l = [] := by
  rw [diagsAt]
  refine List.filter_eq_nil_iff.mpr ?_
  intro dg hdg
  simp [h dg hdg]

/-- A processing step whose diagnostic sites avoid `id` leaves the
site's diagnostics unchanged. -/
theorem diagsAt_step {s s' : PassSt} {ids : List Nat} {keep : Nat → Prop}
    (h : StepOK s s' ids keep) {id : Nat} (hid : id ∉ ids) :
    diagsAt id s'.diags = diagsAt id s.diags := by
  obtain ⟨_, _, ⟨l, hl, hsites⟩, _⟩ := h
  have h0 : diagsAt id l = [] :=
    diagsAt_nil_of (fun dg hdg hc => hid (hc ▸ hsites dg hdg))
  rw [hl, diagsAt_append, h0, List.append_nil]

theorem itemTopId_ne_of_occ {id : Nat} {n : JName} :
    ∀ {items : List ArchItem}, (itemsIds items).Nodup →
      (∃ it ∈ items, fcUseInItem id n it) →
      ∀ it2 ∈ items, itemTopId it2 ≠ id := by
  intro items
  induction items with
  | nil => intro _ h; exact absurd h (by simp)
  | cons it0 rest ih =>
    intro hnodup hocc it2 hmem2
    rw [itemsIds_cons, List.nodup_append] at hnodup
    rcases hocc with ⟨it, hmem, hocc2⟩
    rcases List.mem_cons.mp hmem with heq | hmemr
    · subst heq
      rcases List.mem_cons.mp hmem2 with heq2 | hmem2r
      · subst heq2
        cases it2 with
        | hasVar d m => exact (hocc2 : False).elim
        | ability d f body =>
          have h1 : id ∈ stmtsIds body := fcUseInStmts_mem_ids hocc2
          have h2 := hnodup.1
          rw [show itemIds (.ability d f body) = d :: stmtsIds body from rfl,
            List.nodup_cons] at h2
          intro hc
          have hc2 : d = id := hc
          rw [hc2] at h2
          exact h2.1 h1
      · intro hc
        exact hnodup.2.2 (fcUseInItem_mem_ids hocc2)
          (mem_itemsIds_of_mem hmem2r (hc ▸ itemTopId_mem it2))
    · rcases List.mem_cons.mp hmem2 with heq2 | hmem2r
      · subst heq2
        intro hc
        exact hnodup.2.2 (hc ▸ itemTopId_mem it2)
          (mem_itemsIds_of_mem hmemr (fcUseInItem_mem_ids hocc2))
      · exact ih hnodup.2.1 ⟨it, hmemr, hocc2⟩ it2 hmem2r

theorem declTopId_ne_of_occ {id : Nat} {n : JName} :
    ∀ {m : JModule}, (modIds m).Nodup →
      (∃ dcl ∈ m, fcUseInDecl id n dcl) →
      ∀ dcl2 ∈ m, declTopId dcl2 ≠ id := by
  intro m
  induction m with
  | nil => intro _ h; exact absurd h (by simp)
  | cons d0 rest ih =>
    intro hnodup hocc dcl2 hmem2
    rw [modIds_cons, List.nodup_append] at hnodup
    rcases hocc with ⟨dcl, hmem, hocc2⟩
    rcases List.mem_cons.mp hmem with heq | hmemr
    · subst heq
      rcases List.mem_cons.mp hmem2 with heq2 | hmem2r
      · subst heq2
        cases dcl2 with
        | enumDecl d m es => exact (hocc2 : False).elim
        | arch ar =>
          have h1 : id ∈ itemsIds ar.body := fcUseInItems_mem_ids hocc2
          have h2 := hnodup.1
          rw [show declIds (.arch ar) = ar.declId :: itemsIds ar.body from rfl,
            List.nodup_cons] at h2
          intro hc
          have hc2 : ar.declId = id := hc
          rw [hc2] at h2
          exact h2.1 h1
      · intro hc
        exact hnodup.2.2 (fcUseInDecl_mem_ids hocc2)
          (mem_modIds_of_mem hmem2r (hc ▸ declTopId_mem dcl2))
    · rcases List.mem_cons.mp hmem2 with heq2 | hmem2r
      · subst heq2
        intro hc
        exact hnodup.2.2 (hc ▸ declTopId_mem dcl2)
          (mem_modIds_of_mem hmemr (fcUseInDecl_mem_ids hocc2))
      · exact ih hnodup.2.1 ⟨dcl, hmemr, hocc2⟩ dcl2 hmem2r

theorem hoistItems_diagsAt (asid id : Nat) :
    ∀ (items : List ArchItem) (s : PassSt),
      (∀ it ∈ items, itemTopId it ≠ id) →
      diagsAt id (hoistItems asid s items).diags = diagsAt id s.diags := by
  intro items
  induction items with
  | nil => intro s _; rfl
  | cons it rest ih =>
    intro s hne
    rw [hoistItems_cons,
      ih _ (fun i2 h2 => hne i2 (List.mem_cons_of_mem _ h2)),
      diagsAt_step (stepOK_doBind s asid (itemName it) (itemTopId it)
        (itemSymKind it))
        (by simpa using
          (fun hc => hne it (List.mem_cons_self _ _) hc.symm : ¬ id = itemTopId it))]

theorem phase1_diagsAt (msid id : Nat) (m : JModule) (s : PassSt)
    (hne : ∀ dcl ∈ m, declTopId dcl ≠ id) :
    diagsAt id (phase1 msid s m).diags = diagsAt id s.diags := by
  refine diagsAt_step (stepOK_phase1 msid m s) ?_
  intro hc
  obtain ⟨dcl, hmem, heq⟩ := List.mem_map.mp hc
  exact hne dcl hmem heq

theorem NoBind_store_lookup {st : Store} {n : JName} (h : NoBind st n)
    (sid : Nat) : st.lookup sid n = none := by
  rw [Store.lookup]
  exact NoBind_lookup_none h _ _

theorem unresolved_use_expr (msid : Nat) (id : Nat) (n : JName) :
    ∀ (e : JExpr) (sid : Nat) (s : PassSt),
      useIn id n e → (exprIds e).Nodup → n ∉ exprBindNames e →
      NoBind s.store n →
      (id, ResKind.unresolvedRef) ∈ (resolveExpr msid sid s e).results ∧
      diagsAt id (resolveExpr msid sid s e).diags
        = diagsAt id s.diags ++ [⟨DiagKind.UnresolvedName, n, id⟩] := by
  intro e
  induction e with
  | archRef i m => intro sid s hocc; exact (hocc : False).elim
  | nameUse i m =>
    intro sid s hocc _ _ hnb
    obtain ⟨hi, hm⟩ := (hocc : i = id ∧ m = n)
    subst hi
    subst hm
    rw [resolveExpr, NoBind_store_lookup hnb sid]
    constructor
    · simp [emitDiag, recordRes]
    · simp [emitDiag, recordRes, diagsAt, List.filter_append]
  | filterCompr d v pred ih =>
    intro sid s hocc hnodup hbn hnb
    have hocc2 : useIn id n pred := hocc
    have hnodup2 : d ∉ exprIds pred ∧ (exprIds pred).Nodup := by
      rw [show exprIds (.filterCompr d v pred) = d :: exprIds pred from rfl,
        List.nodup_cons] at hnodup
      exact hnodup
    have hdid : d ≠ id := fun hc => hnodup2.1 (hc ▸ useIn_mem_ids hocc2)
    have hbn2 : v ≠ n ∧ n ∉ exprBindNames pred := by
      rw [show exprBindNames (.filterCompr d v pred) = v :: exprBindNames pred
        from rfl] at hbn
      exact ⟨fun hc => hbn (by rw [hc]; exact List.mem_cons_self _ _),
        fun hc => hbn (List.mem_cons_of_mem _ hc)⟩
    rw [resolveExpr]
    have hnb1 : NoBind (doBind
        { s with store := (s.store.openScope .comprehension (some sid)).1 }
        (s.store.openScope .comprehension (some sid)).2 v d .localVar).store n :=
      noBind_doBind hbn2.1 _ _ _ (noBind_openScope _ _ hnb)
    obtain ⟨hres, hfilt⟩ := ih (s.store.openScope .comprehension (some sid)).2
      (doBind { s with store := (s.store.openScope .comprehension (some sid)).1 }
        (s.store.openScope .comprehension (some sid)).2 v d .localVar)
      hocc2 hnodup2.2 hbn2.2 hnb1
    have hstep1 : diagsAt id (doBind
        { s with store := (s.store.openScope .comprehension (some sid)).1 }
        (s.store.openScope .comprehension (some sid)).2 v d .localVar).diags
        = diagsAt id s.diags :=
      diagsAt_step (stepOK_doBind _ _ v d .localVar)
        (by simpa using fun hc => hdid hc.symm)
    refine ⟨hres, ?_⟩
    show diagsAt id (resolveExpr msid
        (s.store.openScope .comprehension (some sid)).2
        (doBind { s with store := (s.store.openScope .comprehension (some sid)).1 }
          (s.store.openScope .comprehension (some sid)).2 v d .localVar)
        pred).diags
      = diagsAt id s.diags ++ [⟨DiagKind.UnresolvedName, n, id⟩]
    rw [hfilt, hstep1]

theorem unresolved_use_stmt (msid sid : Nat) (id : Nat) (n : JName)
    (stt : JStmt) (s : PassSt) (hocc : fcUseInStmt id n stt)
    (hnodup : (stmtIds stt).Nodup) (hbn : n ∉ stmtBindNames stt)
    (hnb : NoBind s.store n) :
    (id, ResKind.unresolvedRef) ∈ (resolveStmt msid sid s stt).results ∧
    diagsAt id (resolveStmt msid sid s stt).diags
      = diagsAt id s.diags ++ [⟨DiagKind.UnresolvedName, n, id⟩] := by
  cases stt with
  | assign d lhs rhs =>
    have hocc2 : useIn id n rhs := filterComprUseIn_useIn hocc
    have hnodup2 : d ∉ exprIds rhs ∧ (exprIds rhs).Nodup := by
      rw [show stmtIds (.assign d lhs rhs) = d :: exprIds rhs from rfl,
        List.nodup_cons] at hnodup
      exact hnodup
    have hdid : d ≠ id := fun hc => hnodup2.1 (hc ▸ useIn_mem_ids hocc2)
    have hbn2 : n ∉ exprBindNames rhs := by
      rw [show stmtBindNames (.assign d lhs rhs) = lhs :: exprBindNames rhs
        from rfl] at hbn
      exact fun hc => hbn (List.mem_cons_of_mem _ hc)
    rw [resolveStmt]
    obtain ⟨hres, hfilt⟩ := unresolved_use_expr msid id n rhs sid s hocc2
      hnodup2.2 hbn2 hnb
    rcases hl : localAt (resolveExpr msid sid s rhs).store sid lhs with _ | sym
    · constructor
      · rw [doBind_results]
        exact hres
      · rw [diagsAt_step (stepOK_doBind (resolveExpr msid sid s rhs) sid lhs d
          .localVar) (by simpa using fun hc => hdid hc.symm), hfilt]
    · constructor
      · simp only [recordRes]
        exact List.mem_append_left _ hres
      · show diagsAt id (resolveExpr msid sid s rhs).diags = _
        exact hfilt
  | exprStmt e =>
    rw [resolveStmt]
    exact unresolved_use_expr msid id n e sid s (filterComprUseIn_useIn hocc)
      hnodup hbn hnb

theorem unresolved_use_stmts (msid sid : Nat) (id : Nat) (n : JName) :
    ∀ (body : List JStmt) (s : PassSt),
      (∃ stt ∈ body, fcUseInStmt id n stt) → (stmtsIds body).Nodup →
      n ∉ stmtsBindNames body → NoBind s.store n →
      (id, ResKind.unresolvedRef) ∈ (resolveStmts msid sid s body).results ∧
      diagsAt id (resolveStmts msid sid s body).diags
        = diagsAt id s.diags ++ [⟨DiagKind.UnresolvedName, n, id⟩] := by
  intro body
  induction body with
  | nil => intro s h; exact absurd h (by simp)
  | cons stt rest ih =>
    intro s hocc hnodup hbn hnb
    rw [stmtsIds_cons, List.nodup_append] at hnodup
    have hbns : stmtsBindNames (stt :: rest)
        = stmtBindNames stt ++ stmtsBindNames rest := by
      simp [stmtsBindNames]
    rw [hbns] at hbn
    rw [resolveStmts]
    rcases hocc with ⟨stt2, hmem, hocc2⟩
    rcases List.mem_cons.mp hmem with heq | hmem2
    · subst heq
      obtain ⟨hres, hfilt⟩ := unresolved_use_stmt msid sid id n stt2 s hocc2
        hnodup.1 (fun hc => hbn (List.mem_append_left _ hc)) hnb
      have hstep := stepOK_resolveStmts msid sid rest (resolveStmt msid sid s stt2)
      refine ⟨hstep.results_mem hres, ?_⟩
      rw [diagsAt_step hstep
        (fun hc => hnodup.2.2 (fcUseInStmt_mem_ids hocc2) hc), hfilt]
    · have hnb1 := noBind_resolveStmt msid sid n stt s
        (fun hc => hbn (List.mem_append_left _ hc)) hnb
      obtain ⟨hres, hfilt⟩ := ih (resolveStmt msid sid s stt)
        ⟨stt2, hmem2, hocc2⟩ hnodup.2.1
        (fun hc => hbn (List.mem_append_right _ hc)) hnb1
      refine ⟨hres, ?_⟩
      rw [hfilt, diagsAt_step (stepOK_resolveStmt msid sid s stt)
        (fun hc => hnodup.2.2 hc (fcUseInStmts_mem_ids ⟨stt2, hmem2, hocc2⟩))]

theorem unresolved_use_items (msid asid : Nat) (id : Nat) (n : JName) :
    ∀ (items : List ArchItem) (s : PassSt),
      (∃ it ∈ items, fcUseInItem id n it) → (itemsIds items).Nodup →
      n ∉ itemsBindNames items → NoBind s.store n →
      (id, ResKind.unresolvedRef) ∈ (resolveItems msid asid s items).results ∧
      diagsAt id (resolveItems msid asid s items).diags
        = diagsAt id s.diags ++ [⟨DiagKind.UnresolvedName, n, id⟩] := by
  intro items
  induction items with
  | nil => intro s h; exact absurd h (by simp)
  | cons it0 rest ih =>
    intro s hocc hnodup hbn hnb
    rw [itemsIds_cons, List.nodup_append] at hnodup
    have hbns : itemsBindNames (it0 :: rest)
        = itemBindNames it0 ++ itemsBindNames rest := by
      simp [itemsBindNames]
    rw [hbns] at hbn
    rcases hocc with ⟨it, hmem, hocc2⟩
    rcases List.mem_cons.mp hmem with heq | hmem2
    · subst heq
      cases it with
      | hasVar d m => exact (hocc2 : False).elim
      | ability d f body =>
        rw [resolveItems]
        have hocc3 : ∃ stt ∈ body, fcUseInStmt id n stt := hocc2
        have hnodup_body : (stmtsIds body).Nodup := by
          have h2 := hnodup.1
          rw [show itemIds (.ability d f body) = d :: stmtsIds body from rfl,
            List.nodup_cons] at h2
          exact h2.2
        have hbnb : n ∉ stmtsBindNames body := by
          intro hc
          refine hbn (List.mem_append_left _ ?_)
          rw [show itemBindNames (ArchItem.ability d f body)
            = f :: stmtsBindNames body from rfl]
          exact List.mem_cons_of_mem _ hc
        obtain ⟨hres, hfilt⟩ := unresolved_use_stmts msid
          (s.store.openScope .ability (some asid)).2 id n body
          { s with store := (s.store.openScope .ability (some asid)).1 }
          hocc3 hnodup_body hbnb (noBind_openScope _ _ hnb)
        have hstep := stepOK_resolveItems msid asid rest
          { (resolveStmts msid (s.store.openScope .ability (some asid)).2
              { s with store := (s.store.openScope .ability (some asid)).1 } body)
            with store := (resolveStmts msid
              (s.store.openScope .ability (some asid)).2
              { s with store := (s.store.openScope .ability (some asid)).1 }
              body).store.seal (s.store.openScope .ability (some asid)).2 }
        refine ⟨hstep.results_mem hres, ?_⟩
        show diagsAt id (resolveItems msid asid
            { (resolveStmts msid (s.store.openScope .ability (some asid)).2
                { s with store := (s.store.openScope .ability (some asid)).1 } body)
              with store := (resolveStmts msid
                (s.store.openScope .ability (some asid)).2
                { s with store := (s.store.openScope .ability (some asid)).1 }
                body).store.seal (s.store.openScope .ability (some asid)).2 }
            rest).diags
          = diagsAt id s.diags ++ [⟨DiagKind.UnresolvedName, n, id⟩]
        rw [diagsAt_step hstep
          (fun hc => hnodup.2.2 (List.mem_cons_of_mem _
            (fcUseInStmts_mem_ids hocc3)) hc)]
        exact hfilt
    · cases it0 with
      | hasVar d m =>
        rw [resolveItems]
        exact ih s ⟨it, hmem2, hocc2⟩ hnodup.2.1
          (fun hc => hbn (List.mem_append_right _ hc)) hnb
      | ability d f body =>
        rw [resolveItems]
        have hbnb : n ∉ stmtsBindNames body := by
          intro hc
          refine hbn (List.mem_append_left _ ?_)
          rw [show itemBindNames (ArchItem.ability d f body)
            = f :: stmtsBindNames body from rfl]
          exact List.mem_cons_of_mem _ hc
        have hstep := stepOK_scoped s .ability (some asid) _ _ _
          (stepOK_resolveStmts msid (s.store.openScope .ability (some asid)).2
            body { s with store := (s.store.openScope .ability (some asid)).1 })
          (by intro j hj; rw [Store.openScope_snd]; omega)
        have hnb1 : NoBind
            ({ (resolveStmts msid (s.store.openScope .ability (some asid)).2
                { s with store := (s.store.openScope .ability (some asid)).1 } body)
              with store := (resolveStmts msid
                (s.store.openScope .ability (some asid)).2
                { s with store := (s.store.openScope .ability (some asid)).1 }
                body).store.seal (s.store.openScope .ability (some asid)).2 }
              : PassSt).store n :=
          noBind_seal _ (noBind_resolveStmts msid _ n body _ hbnb
            (noBind_openScope _ _ hnb))
        obtain ⟨hres, hfilt⟩ := ih
          { (resolveStmts msid (s.store.openScope .ability (some asid)).2
              { s with store := (s.store.openScope .ability (some asid)).1 } body)
            with store := (resolveStmts msid
              (s.store.openScope .ability (some asid)).2
              { s with store := (s.store.openScope .ability (some asid)).1 }
              body).store.seal (s.store.openScope .ability (some asid)).2 }
          ⟨it, hmem2, hocc2⟩ hnodup.2.1
          (fun hc => hbn (List.mem_append_right _ hc)) hnb1
        refine ⟨hres, ?_⟩
        show diagsAt id (resolveItems msid asid
            { (resolveStmts msid (s.store.openScope .ability (some asid)).2
                { s with store := (s.store.openScope .ability (some asid)).1 } body)
              with store := (resolveStmts msid
                (s.store.openScope .ability (some asid)).2
                { s with store := (s.store.openScope .ability (some asid)).1 }
                body).store.seal (s.store.openScope .ability (some asid)).2 }
            rest).diags
          = diagsAt id s.diags ++ [⟨DiagKind.UnresolvedName, n, id⟩]
        rw [hfilt, diagsAt_step hstep
          (fun hc => hnodup.2.2 (List.mem_cons_of_mem _ hc)
            (fcUseInItems_mem_ids ⟨it, hmem2, hocc2⟩))]

theorem unresolved_use_decls (msid : Nat) (id : Nat) (n : JName) :
    ∀ (m : JModule) (s : PassSt),
      (∃ dcl ∈ m, fcUseInDecl id n dcl) → (modIds m).Nodup →
      n ∉ modBindNames m → NoBind s.store n →
      (id, ResKind.unresolvedRef) ∈ (resolveDecls msid s m).results ∧
      diagsAt id (resolveDecls msid s m).diags
        = diagsAt id s.diags ++ [⟨DiagKind.UnresolvedName, n, id⟩] := by
  intro m
  induction m with
  | nil => intro s h; exact absurd h (by simp)
  | cons d0 rest ih =>
    intro s hocc hnodup hbn hnb
    rw [modIds_cons, List.nodup_append] at hnodup
    have hbns : modBindNames (d0 :: rest)
        = declBindNames d0 ++ modBindNames rest := by
      simp [modBindNames]
    rw [hbns] at hbn
    rcases hocc with ⟨dcl, hmem, hocc2⟩
    rcases List.mem_cons.mp hmem with heq | hmem2
    · subst heq
      cases dcl with
      | enumDecl d nm es => exact (hocc2 : False).elim
      | arch ar =>
        rw [resolveDecls, resolveDecl]
        have hocc3 : ∃ it ∈ ar.body, fcUseInItem id n it := hocc2
        have hnodup_items : (itemsIds ar.body).Nodup := by
          have h2 := hnodup.1
          rw [show declIds (.arch ar) = ar.declId :: itemsIds ar.body from rfl,
            List.nodup_cons] at h2
          exact h2.2
        have hbni : n ∉ itemsBindNames ar.body := by
          intro hc
          refine hbn (List.mem_append_left _ ?_)
          rw [show declBindNames (JDecl.arch ar)
            = ar.name :: itemsBindNames ar.body from rfl]
          exact List.mem_cons_of_mem _ hc
        have hhoFilt : diagsAt id (hoistItems
            (s.store.openScope .architype (some msid)).2
            { s with store := (s.store.openScope .architype (some msid)).1 }
            ar.body).diags = diagsAt id s.diags :=
          hoistItems_diagsAt _ id ar.body _
            (itemTopId_ne_of_occ hnodup_items hocc3)
        have hnbHoist : NoBind (hoistItems
            (s.store.openScope .architype (some msid)).2
            { s with store := (s.store.openScope .architype (some msid)).1 }
            ar.body).store n :=
          noBind_hoistItems _ n ar.body _ (itemNames_ne_of_not_bind hbni)
            (noBind_openScope _ _ hnb)
        obtain ⟨hres, hfilt⟩ := unresolved_use_items msid
          (s.store.openScope .architype (some msid)).2 id n ar.body
          (hoistItems (s.store.openScope .architype (some msid)).2
            { s with store := (s.store.openScope .architype (some msid)).1 }
            ar.body)
          hocc3 hnodup_items hbni hnbHoist
        have hrest := stepOK_resolveDecls msid rest
          { (resolveItems msid (s.store.openScope .architype (some msid)).2
              (hoistItems (s.store.openScope .architype (some msid)).2
                { s with store := (s.store.openScope .architype (some msid)).1 }
                ar.body) ar.body)
            with store := ((resolveItems msid
              (s.store.openScope .architype (some msid)).2
              (hoistItems (s.store.openScope .architype (some msid)).2
                { s with store := (s.store.openScope .architype (some msid)).1 }
                ar.body) ar.body).store.seal
              (s.store.openScope .architype (some msid)).2) }
        refine ⟨hrest.results_mem hres, ?_⟩
        exact (diagsAt_step hrest
            (fun hc => hnodup.2.2 (fcUseInDecl_mem_ids hocc2) hc)).trans
          (hfilt.trans (by rw [hhoFilt]))
    · rw [resolveDecls]
      have hnb1 : NoBind (resolveDecl msid s d0).store n :=
        noBind_resolveDecl msid n d0 s
          (fun hc => hbn (List.mem_append_left _ hc)) hnb
      obtain ⟨hres, hfilt⟩ := ih (resolveDecl msid s d0) ⟨dcl, hmem2, hocc2⟩
        hnodup.2.1 (fun hc => hbn (List.mem_append_right _ hc)) hnb1
      refine ⟨hres, ?_⟩
      rw [hfilt, diagsAt_step (stepOK_resolveDecl msid s d0)
        (fun hc => hnodup.2.2 hc
          (mem_modIds_of_mem hmem2 (fcUseInDecl_mem_ids hocc2)))]

/-- C7: the pass never stops early on a name-resolution failure.  The
fatal flag stays clear on every input (the whole traversal, including
the `after_pass` finalization, always runs to completion), and in any
module with distinct node ids where a name-use with id `id` sits inside
a `FilterCompr` predicate and names a `n` that nothing in the module
binds, the reference is recorded as Unresolved, the diagnostics
attached to that site are exactly one `UnresolvedName` diagnostic, and
the collected diagnostics are non-empty. -/
theorem claim_C7_no_early_stop (m : JModule) (id : Nat) (n : JName)
    (hocc : fcUseInModule id n m) (hids : (modIds m).Nodup)
    (hbn : n ∉ modBindNames m) :
    (∀ m2 : JModule, (runPass m2).fatal = false) ∧
    (id, ResKind.unresolvedRef) ∈ (runPass m).results ∧
    diagsAt id (runPass m).diags = [⟨DiagKind.UnresolvedName, n, id⟩] ∧
    (runPass m).diags ≠ [] := by
  have hnbE : NoBind (Store.mk []) n := by
    intro i sc h
    simp [Store.scope?] at h
  have hnb0 : NoBind ((Store.mk []).openScope .module none).1 n :=
    noBind_openScope .module none hnbE
  have hnb1 : NoBind (phase1 ((Store.mk []).openScope .module none).2
      ⟨((Store.mk []).openScope .module none).1, [], [], false⟩ m).store n :=
    noBind_phase1 _ n m _ (declNames_ne_of_not_bind hbn) hnb0
  obtain ⟨hres, hfilt⟩ := unresolved_use_decls
    ((Store.mk []).openScope .module none).2 id n m
    (phase1 ((Store.mk []).openScope .module none).2
      ⟨((Store.mk []).openScope .module none).1, [], [], false⟩ m)
    hocc hids hbn hnb1
  have hp1 : diagsAt id (phase1 ((Store.mk []).openScope .module none).2
      ⟨((Store.mk []).openScope .module none).1, [], [], false⟩ m).diags
      = ([] : List Diagnostic) :=
    phase1_diagsAt _ id m _ (declTopId_ne_of_occ hids hocc)
  rw [hp1, List.nil_append] at hfilt
  have hfin : diagsAt id (runPass m).diags
      = [⟨DiagKind.UnresolvedName, n, id⟩] := hfilt
  refine ⟨fun m2 => (runPass_no_fatal m2).1, hres, hfin, ?_⟩
  intro hc
  rw [hc] at hfin
  simp [diagsAt] at hfin

/-- Concrete instantiation of C7: a walker ability whose `FilterCompr`
predicate references the never-bound name `ghost`; the pass completes
without a fatal abort, records the reference as Unresolved, and attaches
exactly one `UnresolvedName` diagnostic to it. -/
theorem claim_C7_no_early_stop_witness :
    fcUseInModule 11 "ghost" c7module ∧
    (modIds c7module).Nodup ∧
    "ghost" ∉ modBindNames c7module ∧
    ((∀ m2 : JModule, (runPass m2).fatal = false) ∧
     (11, ResKind.unresolvedRef) ∈ (runPass c7module).results ∧
     diagsAt 11 (runPass c7module).diags
       = [⟨DiagKind.UnresolvedName, "ghost", 11⟩] ∧
     (runPass c7module).diags ≠ []) :=
  ⟨by simp [fcUseInModule, fcUseInDecl, fcUseInItem, fcUseInStmt,
      filterComprUseIn, useIn, c7module],
   by decide, by decide,
   claim_C7_no_early_stop c7module 11 "ghost"
     (by simp [fcUseInModule, fcUseInDecl, fcUseInItem, fcUseInStmt,
        filterComprUseIn, useIn, c7module])
     (by decide) (by decide)⟩

theorem embed_length (base st : Store) :
    (embed base st).scopes.length
      = base.scopes.length + st.scopes.length := by
  simp [embed]

theorem embed_scope? (base st : Store) (i : Nat) :
    (embed base st).scope? (base.scopes.length + i)
      = (st.scope? i).map (shiftScope base.scopes.length) := by
  simp only [embed, Store.scope?]
  rw [List.getElem?_append_right (by omega)]
  have h1 : base.scopes.length + i - base.scopes.length = i := by omega
  rw [h1, List.getElem?_map]

theorem set_append_right {α : Type} (l1 : List α) :
    ∀ (l2 : List α) (i : Nat) (x : α),
      (l1 ++ l2).set (l1.length + i) x = l1 ++ l2.set i x := by
  induction l1 with
  | nil => intro l2 i x; simp
  | cons a l ih =>
    intro l2 i x
    show (a :: (l ++ l2)).set (l.length + 1 + i) x = a :: (l ++ l2.set i x)
    have h1 : l.length + 1 + i = (l.length + i) + 1 := by omega
    rw [h1]
    show a :: (l ++ l2).set (l.length + i) x = a :: (l ++ l2.set i x)
    rw [ih l2 i x]

theorem embed_setScope (base st : Store) (i : Nat) (sc : Scope) :
    (embed base st).setScope (base.scopes.length + i)
        (shiftScope base.scopes.length sc)
      = embed base (st.setScope i sc) := by
  simp only [embed, Store.setScope]
  rw [set_append_right, List.map_set]

theorem embed_openScope_some_fst (base st : Store) (kk : ScopeKind) (p : Nat) :
    ((embed base st).openScope kk (some (base.scopes.length + p))).1
      = embed base (st.openScope kk (some p)).1 := by
  simp [embed, Store.openScope, shiftScope]

theorem embed_openScope_none_fst (base st : Store) (kk : ScopeKind) :
    ((embed base st).openScope kk none).1
      = embed base (st.openScope kk none).1 := by
  simp [embed, Store.openScope, shiftScope]

theorem embed_openScope_snd (base st : Store) (kk kk2 : ScopeKind)
    (q p : Option Nat) :
    ((embed base st).openScope kk q).2
      = base.scopes.length + (st.openScope kk2 p).2 := by
  rw [Store.openScope_snd, Store.openScope_snd, embed_length]

theorem lookupLocal_shift (k : Nat) (n : JName) :
    ∀ bs, lookupLocal (bs.map (fun b => (b.1, shiftSym k b.2))) n
      = (lookupLocal bs n).map (shiftSym k) := by
  intro bs
  induction bs with
  | nil => rfl
  | cons b rest ih =>
    obtain ⟨m, s⟩ := b
    simp only [List.map_cons, lookupLocal]
    by_cases h : m = n
    · simp [h]
    · simp [h, ih]

theorem embed_bind (base st : Store) (sid : Nat) (n : JName) (d : Nat)
    (kd : SymKind) :
    (embed base st).bind (base.scopes.length + sid) n d kd
      = match st.bind sid n d kd with
        | .error e => .error e
        | .ok (st2, sym, dg) =>
          .ok (embed base st2, shiftSym base.scopes.length sym, dg) := by
  simp only [Store.bind, embed_scope?]
  rcases hsc : st.scope? sid with _ | sc
  · rfl
  · simp only [Option.map_some']
    by_cases hseal : sc.isSealed
    · simp [shiftScope, hseal]
    · simp [hseal, shiftScope, shiftSym, lookupLocal_shift, Option.isSome_map',
        embed, Store.setScope, set_append_right, List.map_set]
      have hfun : (fun (b : JName × JSymbol) =>
            (b.1, JSymbol.mk b.2.name b.2.declId b.2.kind
              (base.scopes.length + b.2.owner)))
          = (fun b => (b.1, shiftSym base.scopes.length b.2)) := rfl
      rw [hfun, lookupLocal_shift, Option.isSome_map']

theorem embed_seal (base st : Store) (sid : Nat) :
    (embed base st).seal (base.scopes.length + sid)
      = embed base (st.seal sid) := by
  simp only [Store.seal, embed_scope?]
  rcases hsc : st.scope? sid with _ | sc
  · rfl
  · simp only [Option.map_some']
    have h1 : { shiftScope base.scopes.length sc with isSealed := true }
        = shiftScope base.scopes.length { sc with isSealed := true } := rfl
    rw [h1, embed_setScope]

theorem embed_lookupChain (base st : Store) (n : JName) :
    ∀ (f sid : Nat),
      lookupChain (embed base st) (base.scopes.length + sid) n f
        = (lookupChain st sid n f).map (shiftSym base.scopes.length) := by
  intro f
  induction f with
  | zero => intro sid; rfl
  | succ f ih =>
    intro sid
    rw [lookupChain, lookupChain, embed_scope?]
    rcases hsc : st.scope? sid with _ | sc
    · rfl
    · have hb : (shiftScope base.scopes.length sc).bindings
          = sc.bindings.map (fun b => (b.1, shiftSym base.scopes.length b.2)) :=
        rfl
      have hp : (shiftScope base.scopes.length sc).parent
          = sc.parent.map (fun p => base.scopes.length + p) := rfl
      simp only [Option.map_some', hb, lookupLocal_shift, hp]
      rcases hl : lookupLocal sc.bindings n with _ | s
      · simp only [Option.map_none']
        rcases hpp : sc.parent with _ | p
        · rfl
        · simp only [Option.map_some']
          exact ih p
      · rfl

theorem embed_lookup (base : Store) {st : Store} (hwf : ParentLt st)
    (sid : Nat) (n : JName) :
    (embed base st).lookup (base.scopes.length + sid) n
      = (st.lookup sid n).map (shiftSym base.scopes.length) := by
  rw [Store.lookup, embed_lookupChain,
    lookupChain_fuel st hwf n sid (base.scopes.length + sid + 1) (by omega)]

theorem embed_localAt (base st : Store) (i : Nat) (n : JName) :
    localAt (embed base st) (base.scopes.length + i) n
      = (localAt st i n).map (shiftSym base.scopes.length) := by
  rw [localAt, localAt, embed_scope?]
  rcases hsc : st.scope? i with _ | sc
  · rfl
  · simp only [Option.map_some', Option.some_bind]
    exact lookupLocal_shift base.scopes.length n sc.bindings

theorem SimRel_doBind {base : Store} {s2 s1 : PassSt} (h : SimRel base s2 s1)
    (sid : Nat) (n : JName) (d : Nat) (kd : SymKind) :
    SimRel base (doBind s2 (base.scopes.length + sid) n d kd)
      (doBind s1 sid n d kd) := by
  obtain ⟨hst, hdg, hrs, hft⟩ := h
  rw [doBind, doBind, hst, embed_bind]
  rcases hb : s1.store.bind sid n d kd with e | ⟨st2, sym, dg⟩
  · exact ⟨rfl, hdg, hrs, rfl⟩
  · exact ⟨rfl, by rw [hdg], hrs, hft⟩

theorem SimRel_sealStep {base : Store} {s2 s1 : PassSt}
    (h : SimRel base s2 s1) (sid : Nat) :
    SimRel base
      { s2 with store := s2.store.seal (base.scopes.length + sid) }
      { s1 with store := s1.store.seal sid } := by
  obtain ⟨hst, hdg, hrs, hft⟩ := h
  exact ⟨by rw [hst, embed_seal], hdg, hrs, hft⟩

theorem SimRel_resolveExpr (base : Store) (msid : Nat) :
    ∀ (e : JExpr) (sid : Nat) (s1 s2 : PassSt), SimRel base s2 s1 →
      ParentLt s1.store → sid < s1.store.scopes.length →
      SimRel base
        (resolveExpr (base.scopes.length + msid) (base.scopes.length + sid)
          s2 e)
        (resolveExpr msid sid s1 e) := by
  intro e
  induction e with
  | nameUse id n =>
    intro sid s1 s2 h hwf _
    obtain ⟨hst, hdg, hrs, hft⟩ := h
    rw [resolveExpr, resolveExpr, hst, embed_lookup base hwf]
    rcases hl : s1.store.lookup sid n with _ | sym
    · exact ⟨hst, by simp [emitDiag, recordRes, hdg],
        by simp [emitDiag, recordRes, hrs, shiftRes], hft⟩
    · exact ⟨hst, by simp [recordRes, hdg],
        by simp [recordRes, hrs, shiftRes], hft⟩
  | archRef id n =>
    intro sid s1 s2 h hwf _
    obtain ⟨hst, hdg, hrs, hft⟩ := h
    rw [resolveExpr, resolveExpr, hst, embed_lookup base hwf]
    rcases hl : s1.store.lookup msid n with _ | sym
    · exact ⟨hst, by simp [emitDiag, recordRes, hdg],
        by simp [emitDiag, recordRes, hrs, shiftRes], hft⟩
    · exact ⟨hst, by simp [recordRes, hdg],
        by simp [recordRes, hrs, shiftRes], hft⟩
  | filterCompr d v pred ih =>
    intro sid s1 s2 h hwf hsid
    obtain ⟨hst, hdg, hrs, hft⟩ := h
    rw [resolveExpr, resolveExpr, hst, embed_openScope_some_fst,
      embed_openScope_snd base s1.store .comprehension .comprehension
        (some (base.scopes.length + sid)) (some sid)]
    have hrel0 : SimRel base
        ({ s2 with store := (embed base
            (s1.store.openScope .comprehension (some sid)).1) } : PassSt)
        ({ s1 with store :=
            (s1.store.openScope .comprehension (some sid)).1 } : PassSt) :=
      ⟨rfl, hdg, hrs, hft⟩
    have hmid : SimRel base
        (doBind { s2 with store := (embed base
            (s1.store.openScope .comprehension (some sid)).1) }
          (base.scopes.length +
            (s1.store.openScope .comprehension (some sid)).2) v d .localVar)
        (doBind { s1 with store :=
              (s1.store.openScope .comprehension (some sid)).1 }
          (s1.store.openScope .comprehension (some sid)).2 v d .localVar) :=
      SimRel_doBind hrel0 _ v d .localVar
    have hwf1 : ParentLt (s1.store.openScope .comprehension (some sid)).1 :=
      ParentLt_openScope hwf _ (by intro q hq; injection hq with hq; omega)
    have hwf2 := ParentLt_doBind
      (s := { s1 with store := (s1.store.openScope .comprehension (some sid)).1 })
      hwf1 (s1.store.openScope .comprehension (some sid)).2 v d .localVar
    have hsid2 : (s1.store.openScope .comprehension (some sid)).2 <
        (doBind
          { s1 with store := (s1.store.openScope .comprehension (some sid)).1 }
          (s1.store.openScope .comprehension (some sid)).2 v d
          .localVar).store.scopes.length := by
      rw [doBind_length, Store.openScope_snd, Store.openScope_fst_length]
      omega
    have hafter := ih (s1.store.openScope .comprehension (some sid)).2 _ _
      hmid hwf2 hsid2
    exact SimRel_sealStep hafter (s1.store.openScope .comprehension (some sid)).2

theorem SimRel_resolveStmt (base : Store) (msid sid : Nat) (stt : JStmt)
    (s1 s2 : PassSt) (h : SimRel base s2 s1) (hwf : ParentLt s1.store)
    (hsid : sid < s1.store.scopes.length) :
    SimRel base
      (resolveStmt (base.scopes.length + msid) (base.scopes.length + sid)
        s2 stt)
      (resolveStmt msid sid s1 stt) := by
  cases stt with
  | assign d lhs rhs =>
    rw [resolveStmt, resolveStmt]
    have hex := SimRel_resolveExpr base msid rhs sid s1 s2 h hwf hsid
    have hstE : (resolveExpr (base.scopes.length + msid)
          (base.scopes.length + sid) s2 rhs).store
        = embed base (resolveExpr msid sid s1 rhs).store := hex.1
    rw [hstE, embed_localAt]
    rcases hl : localAt (resolveExpr msid sid s1 rhs).store sid lhs with _ | sym
    · exact SimRel_doBind hex sid lhs d .localVar
    · obtain ⟨hstE2, hdgE, hrsE, hftE⟩ := hex
      exact ⟨hstE2, by simp [recordRes, hdgE],
        by simp [recordRes, hrsE, shiftRes], hftE⟩
  | exprStmt e =>
    rw [resolveStmt, resolveStmt]
    exact SimRel_resolveExpr base msid e sid s1 s2 h hwf hsid

theorem SimRel_resolveStmts (base : Store) (msid sid : Nat) :
    ∀ (body : List JStmt) (s1 s2 : PassSt), SimRel base s2 s1 →
      UnsealedAt s1.store sid → ParentLt s1.store →
      SimRel base
        (resolveStmts (base.scopes.length + msid) (base.scopes.length + sid)
          s2 body)
        (resolveStmts msid sid s1 body) := by
  intro body
  induction body with
  | nil => intro s1 s2 h _ _; exact h
  | cons stt rest ih =>
    intro s1 s2 h hu hwf
    rw [resolveStmts, resolveStmts]
    have hsid : sid < s1.store.scopes.length := by
      obtain ⟨sc, hsc, _⟩ := hu
      exact Store.scope?_lt hsc
    obtain ⟨hwf1, _, hu1⟩ := wfFatal_resolveStmt msid sid s1 stt hu hwf
    exact ih _ _ (SimRel_resolveStmt base msid sid stt s1 s2 h hwf hsid) hu1 hwf1

theorem SimRel_hoistItems (base : Store) (asid : Nat) :
    ∀ (items : List ArchItem) (s1 s2 : PassSt), SimRel base s2 s1 →
      SimRel base (hoistItems (base.scopes.length + asid) s2 items)
        (hoistItems asid s1 items) := by
  intro items
  induction items with
  | nil => intro s1 s2 h; exact h
  | cons it rest ih =>
    intro s1 s2 h
    rw [hoistItems_cons, hoistItems_cons]
    exact ih _ _
      (SimRel_doBind h asid (itemName it) (itemTopId it) (itemSymKind it))

theorem SimRel_enumFold (base : Store) (esid : Nat) :
    ∀ (es : List (Nat × JName)) (s1 s2 : PassSt), SimRel base s2 s1 →
      SimRel base
        (es.foldl (fun acc en =>
          doBind acc (base.scopes.length + esid) en.2 en.1 .enumSym) s2)
        (es.foldl (fun acc en => doBind acc esid en.2 en.1 .enumSym) s1) := by
  intro es
  induction es with
  | nil => intro s1 s2 h; exact h
  | cons en rest ih =>
    intro s1 s2 h
    rw [List.foldl_cons, List.foldl_cons]
    exact ih _ _ (SimRel_doBind h esid en.2 en.1 .enumSym)

theorem SimRel_resolveItems (base : Store) (msid asid : Nat) :
    ∀ (items : List ArchItem) (s1 s2 : PassSt), SimRel base s2 s1 →
      ParentLt s1.store → asid < s1.store.scopes.length →
      SimRel base
        (resolveItems (base.scopes.length + msid) (base.scopes.length + asid)
          s2 items)
        (resolveItems msid asid s1 items) := by
  intro items
  induction items with
  | nil => intro s1 s2 h _ _; exact h
  | cons it0 rest ih =>
    intro s1 s2 h hwf hsid
    cases it0 with
    | hasVar d nm =>
      rw [resolveItems, resolveItems]
      exact ih s1 s2 h hwf hsid
    | ability d f body =>
      rw [resolveItems, resolveItems, h.1, embed_openScope_some_fst,
        embed_openScope_snd base s1.store .ability .ability
          (some (base.scopes.length + asid)) (some asid)]
      have hwf1 : ParentLt (s1.store.openScope .ability (some asid)).1 :=
        ParentLt_openScope hwf _ (by intro q hq; injection hq with hq; omega)
      have hu1 := openScope_unsealed_new s1.store .ability (some asid)
      have hmid := SimRel_resolveStmts base msid
        (s1.store.openScope .ability (some asid)).2 body
        { s1 with store := (s1.store.openScope .ability (some asid)).1 }
        { s2 with store := (embed base
            (s1.store.openScope .ability (some asid)).1) }
        ⟨rfl, h.2.1, h.2.2.1, h.2.2.2⟩ hu1 hwf1
      obtain ⟨hwf2, _, hu2⟩ := wfFatal_resolveStmts msid
        (s1.store.openScope .ability (some asid)).2 body
        { s1 with store := (s1.store.openScope .ability (some asid)).1 }
        hu1 hwf1
      have hlen2 := (stepOK_resolveStmts msid
        (s1.store.openScope .ability (some asid)).2 body
        { s1 with store := (s1.store.openScope .ability (some asid)).1 }).1
      have hsid3 : asid <
          ({ (resolveStmts msid (s1.store.openScope .ability (some asid)).2
              { s1 with store := (s1.store.openScope .ability (some asid)).1 }
              body) with
            store := (resolveStmts msid
              (s1.store.openScope .ability (some asid)).2
              { s1 with store := (s1.store.openScope .ability (some asid)).1 }
              body).store.seal (s1.store.openScope .ability (some asid)).2 }
            : PassSt).store.scopes.length := by
      
        show asid < ((resolveStmts msid
          (s1.store.openScope .ability (some asid)).2
          { s1 with store := (s1.store.openScope .ability (some asid)).1 }
          body).store.seal
            (s1.store.openScope .ability (some asid)).2).scopes.length
        rw [Store.seal_length]
        have h3 : ({ s1 with store :=
                (s1.store.openScope .ability (some asid)).1 }
            : PassSt).store.scopes.length
            = s1.store.scopes.length + 1 := Store.openScope_fst_length _ _ _
        omega
      exact ih _ _
        (SimRel_sealStep hmid (s1.store.openScope .ability (some asid)).2)
        (ParentLt_seal hwf2 _) hsid3

theorem SimRel_resolveDecl (base : Store) (msid : Nat) (dcl : JDecl)
    (s1 s2 : PassSt) (h : SimRel base s2 s1) (hwf : ParentLt s1.store)
    (hmsid : msid < s1.store.scopes.length) :
    SimRel base (resolveDecl (base.scopes.length + msid) s2 dcl)
      (resolveDecl msid s1 dcl) := by
  cases dcl with
  | arch a =>
    rw [resolveDecl, resolveDecl, h.1, embed_openScope_some_fst,
      embed_openScope_snd base s1.store .architype .architype
        (some (base.scopes.length + msid)) (some msid)]
    have hmid1 := SimRel_hoistItems base
      (s1.store.openScope .architype (some msid)).2 a.body
      { s1 with store := (s1.store.openScope .architype (some msid)).1 }
      { s2 with store := (embed base
          (s1.store.openScope .architype (some msid)).1) }
      ⟨rfl, h.2.1, h.2.2.1, h.2.2.2⟩
    have hwf1 : ParentLt (s1.store.openScope .architype (some msid)).1 :=
      ParentLt_openScope hwf _ (by intro q hq; injection hq with hq; omega)
    have hu1 := openScope_unsealed_new s1.store .architype (some msid)
    obtain ⟨hwf2, _, hu2⟩ := wfFatal_hoistItems
      (s1.store.openScope .architype (some msid)).2 a.body
      { s1 with store := (s1.store.openScope .architype (some msid)).1 }
      hu1 hwf1
    have hsid2 : (s1.store.openScope .architype (some msid)).2 <
        (hoistItems (s1.store.openScope .architype (some msid)).2
          { s1 with store := (s1.store.openScope .architype (some msid)).1 }
          a.body).store.scopes.length := by
      obtain ⟨sc, hsc, _⟩ := hu2
      exact Store.scope?_lt hsc
    have hmid2 := SimRel_resolveItems base msid
      (s1.store.openScope .architype (some msid)).2 a.body
      (hoistItems (s1.store.openScope .architype (some msid)).2
        { s1 with store := (s1.store.openScope .architype (some msid)).1 }
        a.body)
      (hoistItems (base.scopes.length +
          (s1.store.openScope .architype (some msid)).2)
        { s2 with store := (embed base
            (s1.store.openScope .architype (some msid)).1) }
        a.body)
      hmid1 hwf2 hsid2
    exact SimRel_sealStep hmid2 (s1.store.openScope .architype (some msid)).2
  | enumDecl d nm es =>
    rw [resolveDecl, resolveDecl, h.1, embed_openScope_some_fst,
      embed_openScope_snd base s1.store .architype .architype
        (some (base.scopes.length + msid)) (some msid)]
    have hmid := SimRel_enumFold base
      (s1.store.openScope .architype (some msid)).2 es
      { s1 with store := (s1.store.openScope .architype (some msid)).1 }
      { s2 with store := (embed base
          (s1.store.openScope .architype (some msid)).1) }
      ⟨rfl, h.2.1, h.2.2.1, h.2.2.2⟩
    exact SimRel_sealStep hmid (s1.store.openScope .architype (some msid)).2

theorem SimRel_resolveDecls (base : Store) (msid : Nat) :
    ∀ (m : JModule) (s1 s2 : PassSt), SimRel base s2 s1 →
      ParentLt s1.store → msid < s1.store.scopes.length →
      SimRel base (resolveDecls (base.scopes.length + msid) s2 m)
        (resolveDecls msid s1 m) := by
  intro m
  induction m with
  | nil => intro s1 s2 h _ _; exact h
  | cons dcl rest ih =>
    intro s1 s2 h hwf hmsid
    rw [resolveDecls, resolveDecls]
    obtain ⟨hwf1, _⟩ := wfFatal_resolveDecl msid s1 dcl hmsid hwf
    have hlen1 := (stepOK_resolveDecl msid s1 dcl).1
    exact ih _ _ (SimRel_resolveDecl base msid dcl s1 s2 h hwf hmsid) hwf1
      (by omega)

theorem SimRel_phase1 (base : Store) (msid : Nat) :
    ∀ (m : JModule) (s1 s2 : PassSt), SimRel base s2 s1 →
      SimRel base (phase1 (base.scopes.length + msid) s2 m)
        (phase1 msid s1 m) := by
  intro m
  induction m with
  | nil => intro s1 s2 h; exact h
  | cons dcl rest ih =>
    intro s1 s2 h
    rw [phase1_cons, phase1_cons]
    exact ih _ _
      (SimRel_doBind h msid (declName dcl) (declTopId dcl) (declTopKind dcl))

theorem stripRes_shiftRes (k : Nat) (r : ResKind) :
    stripRes (shiftRes k r) = stripRes r := by
  cases r <;> rfl

theorem resView_shift (k : Nat) :
    ∀ (l : List (Nat × ResKind)),
      resView (l.map (fun p => (p.1, shiftRes k p.2))) = resView l := by
  intro l
  induction l with
  | nil => rfl
  | cons p rest ih =>
    show (p.1, stripRes (shiftRes k p.2))
        :: resView (rest.map (fun q => (q.1, shiftRes k q.2)))
      = (p.1, stripRes p.2) :: resView rest
    rw [stripRes_shiftRes, ih]

/-- C8: the pass is a deterministic function of its input tree.  A
re-run of the resolution pass over the same module — inside whatever
(parent-decreasing or not) ambient scope store an earlier run left
behind, since the freshly opened module scope has no parent and the
re-run touches only its own scopes — produces the identical
client-visible ResolutionResult list (use sites, outcomes, and resolved
symbols' names, declarations and kinds), the identical diagnostics, and
the identical fatal flag as a fresh run.  A fresh run is the `base =
empty` instance, so any two runs agree. -/
theorem claim_C8_deterministic (base : Store) (m : JModule) :
    resView (runPassFrom base m).results = resView (runPass m).results ∧
    (runPassFrom base m).diags = (runPass m).diags ∧
    (runPassFrom base m).fatal = (runPass m).fatal := by
  rw [runPass]
  have hst0 : (base.openScope .module none).1
      = embed base ((Store.mk []).openScope .module none).1 := by
    simp [embed, Store.openScope, shiftScope]
  have hms0 : (base.openScope .module none).2
      = base.scopes.length + ((Store.mk []).openScope .module none).2 := by
    rw [Store.openScope_snd, Store.openScope_snd]
    rfl
  rw [runPassFrom, runPassFrom, hms0, hst0]
  have hrel0 : SimRel base
      (⟨embed base ((Store.mk []).openScope .module none).1, [], [], false⟩
        : PassSt)
      (⟨((Store.mk []).openScope .module none).1, [], [], false⟩ : PassSt) :=
    ⟨rfl, rfl, rfl, rfl⟩
  have hrel1 := SimRel_phase1 base ((Store.mk []).openScope .module none).2 m
    ⟨((Store.mk []).openScope .module none).1, [], [], false⟩
    ⟨embed base ((Store.mk []).openScope .module none).1, [], [], false⟩
    hrel0
  have hwf0 : ParentLt (Store.mk []) := by
    intro i sc p hi hp
    simp [Store.scope?] at hi
  have hwf1 : ParentLt ((Store.mk []).openScope .module none).1 :=
    ParentLt_openScope hwf0 _ (by intro q hq; exact absurd hq (by simp))
  have hu1 := openScope_unsealed_new (Store.mk []) .module none
  obtain ⟨hwf2, _, hu2⟩ := wfFatal_phase1
    ((Store.mk []).openScope .module none).2 m
    ⟨((Store.mk []).openScope .module none).1, [], [], false⟩ hu1 hwf1
  have hmsid : ((Store.mk []).openScope .module none).2 <
      (phase1 ((Store.mk []).openScope .module none).2
        ⟨((Store.mk []).openScope .module none).1, [], [], false⟩
        m).store.scopes.length := by
    obtain ⟨sc, hsc, _⟩ := hu2
    exact Store.scope?_lt hsc
  have hrel2 := SimRel_resolveDecls base
    ((Store.mk []).openScope .module none).2 m
    (phase1 ((Store.mk []).openScope .module none).2
      ⟨((Store.mk []).openScope .module none).1, [], [], false⟩ m)
    (phase1 (base.scopes.length + ((Store.mk []).openScope .module none).2)
      ⟨embed base ((Store.mk []).openScope .module none).1, [], [], false⟩ m)
    hrel1 hwf2 hmsid
  obtain ⟨hstF, hdgF, hrsF, hftF⟩ :=
    SimRel_sealStep hrel2 ((Store.mk []).openScope .module none).2
  refine ⟨?_, hdgF, hftF⟩
  exact (congrArg resView hrsF).trans (resView_shift base.scopes.length _)
